import Mathlib

/-!
# Verrazzano platform operator: upgrade reconciliation

A shallow embedding of `platform-operator/controllers/verrazzano/upgrade.go`.

The Go code is stateful: component hooks and `updateStatus` act on the
cluster, and `updateStatus` also writes the resource behind the `cr`
pointer.  The embedding passes the cluster state `W` and the resource
explicitly, and every call on a collaborator (a component method,
`updateStatus`, `spi.NewContext`, `newRequeueWithDelay`) is recorded, in
order, in a call trace together with what the call returned.  Logging has no
effect on the result and is left out.
-/

namespace verrazzano

/-- A Go `error` value, represented by its text (`err.Error()`); the nil
error is `none : Option Error`. -/
abbrev Error := String

/-- Modelled from the spec: the phase tags of `installv1alpha1.ConditionType`
(the type is declared in the API package, of which only the uses in
upgrade.go are embedded here): "Started", "Failed" and "Complete" for each of
the operation types Install and Upgrade. -/
inductive ConditionType where
  | InstallStarted
  | InstallComplete
  | InstallFailed
  | UpgradeStarted
  | UpgradeFailed
  | UpgradeComplete
  deriving DecidableEq, Repr

/-- One entry of the condition log (`installv1alpha1.Condition`): the fields
the controller reads, and the timestamp as a text. -/
structure Condition where
  Type' : ConditionType
  Message : String
  LastTransitionTime : String
  deriving DecidableEq, Repr

/-- The observed status (`installv1alpha1.VerrazzanoStatus`). -/
structure VerrazzanoStatus where
  Version : String
  Conditions : List Condition
  deriving DecidableEq, Repr

/-- The desired state (`installv1alpha1.VerrazzanoSpec`), the field used here. -/
structure VerrazzanoSpec where
  Version : String
  deriving DecidableEq, Repr

/-- The managed resource (`installv1alpha1.Verrazzano`); `Generation` is the
`int64` of the object metadata. -/
structure Verrazzano where
  Generation : Int
  Spec : VerrazzanoSpec
  Status : VerrazzanoStatus
  deriving DecidableEq, Repr

/-- The `ctrl.Result` of controller-runtime; `RequeueAfter` is a
`time.Duration`, an integer number of nanoseconds. -/
structure Result where
  Requeue : Bool
  RequeueAfter : Int
  deriving DecidableEq, Repr

/-- The zero value `ctrl.Result{}`. -/
def Result.empty : Result := ⟨false, 0⟩

/-- The constant `vzconst.UpgradeOperation`. -/
def UpgradeOperation : String := "upgrade"

/-- A registry component (`spi.Component`), the methods `reconcileUpgrade`
calls.  `W` is the cluster state the hooks read and change, `Ctx` the
component context.  `IsInstalled` returns the Go pair `(bool, error)`. -/
structure Component (W Ctx : Type) where
  Name : String
  IsInstalled : Ctx → W → (Bool × Option Error) × W
  PreUpgrade : Ctx → W → Option Error × W
  Upgrade : Ctx → W → Option Error × W
  PostUpgrade : Ctx → W → Option Error × W

/-- What `updateStatus` leaves behind: its error, the resource behind the
`cr` pointer, and the cluster state. -/
structure StatusUpdate (W : Type) where
  err : Option Error
  cr : Verrazzano
  world : W

/-- The receiver `r *Reconciler` with the collaborators of `reconcileUpgrade`
that are defined outside upgrade.go, taken as parameters:
`r.updateStatus`, `spi.NewContext` (with the context's `For` and `Operation`),
`newRequeueWithDelay` and `registry.GetComponents`. -/
structure Reconciler (W Ctx : Type) where
  DryRun : Bool
  updateStatus : Verrazzano → String → ConditionType → W → StatusUpdate W
  NewContext : Verrazzano → Bool → W → Except Error Ctx × W
  ctxFor : Ctx → String → Ctx
  ctxOperation : Ctx → String → Ctx
  newRequeueWithDelay : W → Result × W
  GetComponents : List (Component W Ctx)

/-- One recorded call on a collaborator, with what it returned.  Components
are named by their index in the registry. -/
inductive Call where
  | updateStatus (msg : String) (t : ConditionType) (err : Option Error)
  | newContext (err : Option Error)
  | newRequeueWithDelay
  | isInstalled (i : Nat) (installed : Bool) (err : Option Error)
  | preUpgrade (i : Nat) (err : Option Error)
  | upgrade (i : Nat) (err : Option Error)
  | postUpgrade (i : Nat) (err : Option Error)
  deriving DecidableEq, Repr

/-- The registry index of the component a call is made on, if any. -/
def Call.component : Call → Option Nat
  | .isInstalled i _ _ => some i
  | .preUpgrade i _ => some i
  | .upgrade i _ => some i
  | .postUpgrade i _ => some i
  | _ => none

/-- Whether the call returned a non-nil error. -/
def Call.failed : Call → Bool
  | .updateStatus _ _ e => e.isSome
  | .newContext e => e.isSome
  | .newRequeueWithDelay => false
  | .isInstalled _ _ e => e.isSome
  | .preUpgrade _ e => e.isSome
  | .upgrade _ e => e.isSome
  | .postUpgrade _ e => e.isSome

/-- Whether the call is a call of `updateStatus`. -/
def Call.isUpdateStatus : Call → Bool
  | .updateStatus _ _ _ => true
  | _ => false

/-- The state of a pass at a point of `reconcileUpgrade`: `ret` is the pair
returned by a `return` statement (`none` while control is still inside the
function), `cr` the resource behind the pointer, `world` the cluster state
and `trace` the calls made so far, oldest first. -/
structure Outcome (W : Type) where
  ret : Option (Result × Option Error)
  cr : Verrazzano
  world : W
  trace : List Call

/-- `isInstalled` of upgrade.go. -/
def isInstalled (st : VerrazzanoStatus) : Bool :=
  st.Conditions.any (fun cond => cond.Type' = ConditionType.InstallComplete)

/-- `isLastCondition` of upgrade.go. -/
def isLastCondition (st : VerrazzanoStatus) (conditionType : ConditionType) : Bool :=
  let l := st.Conditions.length
  if l = 0 then false
  else
    match st.Conditions.get? (l - 1) with
    | some c => c.Type' = conditionType
    | none => false

/-- `strconv.FormatInt(gen, 10)`: the decimal digits, with a leading minus
sign for a negative number. -/
def formatInt (gen : Int) : String :=
  if gen < 0 then "-" ++ Nat.repr gen.natAbs else Nat.repr gen.natAbs

/-- `fmtGeneration` of upgrade.go. -/
def fmtGeneration (gen : Int) : String :=
  let s := formatInt gen
  "generation:" ++ s

/-- `postUpgrade` of upgrade.go: the global post-upgrade function, which
returns nil. -/
def postUpgrade : Option Error := none

/-- The message of the UpgradeStarted condition (line 28). -/
def startedMessage (cr : Verrazzano) : String :=
  "Verrazzano upgrade to version " ++ cr.Spec.Version ++ " in progress"

/-- The message of the UpgradeFailed condition (lines 61-62). -/
def failedMessage (compName : String) (gen : Int) (e : Error) : String :=
  "Error upgrading component " ++ compName ++ " - " ++ fmtGeneration gen ++
    "\".  Error is " ++ e

/-- The message of the UpgradeComplete condition (line 80). -/
def completeMessage (cr : Verrazzano) : String :=
  "Verrazzano upgraded to version " ++ cr.Spec.Version ++ " successfully"

/-- The assignment `cr.Status.Version = v` (line 82). -/
def setStatusVersion (cr : Verrazzano) (v : String) : Verrazzano :=
  { cr with Status := { cr.Status with Version := v } }

/-- The text `msg` contains the text `part` as a run of consecutive
characters. -/
def Contains (msg part : String) : Prop := part.data <:+: msg.data

instance (msg part : String) : Decidable (Contains msg part) := by
  unfold Contains; infer_instance

variable {W Ctx : Type}

/-- Modelled from the spec: what `updateStatus` (defined outside upgrade.go)
does to the Condition Log: it appends one Condition with the given phase tag
and message to the end of the log, and the entries already there stay as they
are. -/
def AppendsCondition (r : Reconciler W Ctx) : Prop :=
  ∀ (cr : Verrazzano) (msg : String) (t : ConditionType) (w : W),
    ∃ c : Condition, c.Type' = t ∧ c.Message = msg ∧
      (r.updateStatus cr msg t w).cr.Status.Conditions = cr.Status.Conditions ++ [c]

/-! ### Concrete reconcilers, used to evaluate the code on examples -/

/-- Modelled from the spec: `updateStatus` (defined outside upgrade.go)
appends one Condition, the phase tag with its message, to the end of the
Condition Log and leaves the entries already there as they are. -/
def appendCondition (cr : Verrazzano) (msg : String) (t : ConditionType) : Verrazzano :=
  { cr with Status := { cr.Status with Conditions := cr.Status.Conditions ++ [⟨t, msg, ""⟩] } }

/-- A component over a one-point cluster state whose methods return the given
values whatever the context. -/
def constComponent (name : String) (installed : Bool × Option Error)
    (pre up post : Option Error) : Component Unit String :=
  { Name := name
    IsInstalled := fun _ w => (installed, w)
    PreUpgrade := fun _ w => (pre, w)
    Upgrade := fun _ w => (up, w)
    PostUpgrade := fun _ w => (post, w) }

/-- A reconciler over a one-point cluster state: `updateStatus` appends the
condition and returns `statusErr`, `spi.NewContext` returns `ctxErr` or a
context, and the requeue delay is two seconds. -/
def constReconciler (comps : List (Component Unit String)) (ctxErr statusErr : Option Error) :
    Reconciler Unit String :=
  { DryRun := false
    updateStatus := fun cr msg t w => ⟨statusErr, appendCondition cr msg t, w⟩
    NewContext := fun _ _ w =>
      match ctxErr with
      | some e => (.error e, w)
      | none => (.ok "", w)
    ctxFor := fun _ name => name
    ctxOperation := fun c _ => c
    newRequeueWithDelay := fun w => (⟨true, 2000000000⟩, w)
    GetComponents := comps }

/-- A resource at generation 3 with target version `1.1.0`, recorded version
`v` and condition log `conds`. -/
def sampleCR (v : String) (conds : List Condition) : Verrazzano :=
  { Generation := 3, Spec := ⟨"1.1.0"⟩, Status := ⟨v, conds⟩ }

/-- A condition log whose last entry is UpgradeStarted. -/
def startedLog : List Condition :=
  [⟨ConditionType.InstallComplete, "installed", ""⟩,
    ⟨ConditionType.UpgradeStarted, "started", ""⟩]

/-- A condition log whose last entry is UpgradeComplete. -/
def completeLog : List Condition :=
  [⟨ConditionType.InstallComplete, "installed", ""⟩,
    ⟨ConditionType.UpgradeStarted, "started", ""⟩,
    ⟨ConditionType.UpgradeComplete, "done", ""⟩]

/-- The body of the `for` loop of `reconcileUpgrade` (lines 42-70) for the
component `comp` at registry index `i`.  `ret = none` in the outcome means
that control reaches the end of the body (or `continue`) and the loop goes
on; the trace of the outcome holds the calls of this iteration only. -/
def upgradeComponent (r : Reconciler W Ctx) (newContext : Ctx) (i : Nat)
    (comp : Component W Ctx) (cr : Verrazzano) (w : W) : Outcome W :=
  let compName := comp.Name
  let upgradeContext := r.ctxOperation (r.ctxFor newContext compName) UpgradeOperation
  match comp.IsInstalled upgradeContext w with
  | ((installed, some err), w1) =>
    let q := r.newRequeueWithDelay w1
    ⟨some (q.1, some err), cr, q.2, [.isInstalled i installed (some err), .newRequeueWithDelay]⟩
  | ((false, none), w1) =>
    ⟨none, cr, w1, [.isInstalled i false none]⟩
  | ((true, none), w1) =>
    match comp.PreUpgrade upgradeContext w1 with
    | (some err, w2) =>
      ⟨some (Result.empty, some err), cr, w2,
        [.isInstalled i true none, .preUpgrade i (some err)]⟩
    | (none, w2) =>
      match comp.Upgrade upgradeContext w2 with
      | (some err, w3) =>
        let msg := failedMessage compName cr.Generation err
        let u := r.updateStatus cr msg ConditionType.UpgradeFailed w3
        ⟨some (Result.empty, u.err), u.cr, u.world,
          [.isInstalled i true none, .preUpgrade i none, .upgrade i (some err),
            .updateStatus msg ConditionType.UpgradeFailed u.err]⟩
      | (none, w3) =>
        match comp.PostUpgrade upgradeContext w3 with
        | (some err, w4) =>
          ⟨some (Result.empty, some err), cr, w4,
            [.isInstalled i true none, .preUpgrade i none, .upgrade i none,
              .postUpgrade i (some err)]⟩
        | (none, w4) =>
          ⟨none, cr, w4,
            [.isInstalled i true none, .preUpgrade i none, .upgrade i none,
              .postUpgrade i none]⟩

/-- The `for` loop of `reconcileUpgrade` (line 41) over the components from
registry index `i` on.  `ret = none` means the loop ran to its end. -/
def upgradeComponents (r : Reconciler W Ctx) (newContext : Ctx) :
    Nat → List (Component W Ctx) → Verrazzano → W → Outcome W
  | _, [], cr, w => ⟨none, cr, w, []⟩
  | i, comp :: rest, cr, w =>
    let o := upgradeComponent r newContext i comp cr w
    match o.ret with
    | some ret => ⟨some ret, o.cr, o.world, o.trace⟩
    | none =>
      let o2 := upgradeComponents r newContext (i + 1) rest o.cr o.world
      ⟨o2.ret, o2.cr, o2.world, o.trace ++ o2.trace⟩

/-- What `reconcileUpgrade` hands back: the returned pair, the resource
behind the `cr` pointer and the cluster state afterwards, and the calls it
made, oldest first. -/
structure Pass (W : Type) where
  result : Result
  err : Option Error
  cr : Verrazzano
  world : W
  trace : List Call

/-! ### The call order the specification prescribes for a pass -/

/-- The four component methods a pass calls. -/
inductive Method where
  | IsInstalled
  | PreUpgrade
  | Upgrade
  | PostUpgrade
  deriving DecidableEq, Repr

/-- The component method of a call, if it is a call on a component. -/
def Call.method : Call → Option Method
  | .isInstalled _ _ _ => some .IsInstalled
  | .preUpgrade _ _ => some .PreUpgrade
  | .upgrade _ _ => some .Upgrade
  | .postUpgrade _ _ => some .PostUpgrade
  | _ => none

/-- What the four methods of one component answer when they are called in a
pass. -/
structure Responses where
  IsInstalled : Bool × Option Error
  PreUpgrade : Option Error
  Upgrade : Option Error
  PostUpgrade : Option Error

/-- The call, when it is a call on a component, returned what the responses
`ρ` give for that component and method. -/
def Call.agrees (ρ : Nat → Responses) : Call → Prop
  | .isInstalled i installed err => (ρ i).IsInstalled = (installed, err)
  | .preUpgrade i err => (ρ i).PreUpgrade = err
  | .upgrade i err => (ρ i).Upgrade = err
  | .postUpgrade i err => (ρ i).PostUpgrade = err
  | _ => True

/-- The calls the specification prescribes on the component at index `i`
with responses `ρ`: IsInstalled, and for an installed component PreUpgrade,
Upgrade and PostUpgrade in this order, up to the first error; and whether the
next component is processed (no error). -/
def componentCalls (ρ : Responses) (i : Nat) : List Call × Bool :=
  match ρ.IsInstalled.2 with
  | some err => ([.isInstalled i ρ.IsInstalled.1 (some err)], false)
  | none =>
    if ρ.IsInstalled.1 = false then ([.isInstalled i false none], true)
    else
      match ρ.PreUpgrade with
      | some err => ([.isInstalled i true none, .preUpgrade i (some err)], false)
      | none =>
        match ρ.Upgrade with
        | some err =>
          ([.isInstalled i true none, .preUpgrade i none, .upgrade i (some err)], false)
        | none =>
          match ρ.PostUpgrade with
          | some err =>
            ([.isInstalled i true none, .preUpgrade i none, .upgrade i none,
              .postUpgrade i (some err)], false)
          | none =>
            ([.isInstalled i true none, .preUpgrade i none, .upgrade i none,
              .postUpgrade i none], true)

/-- The component calls the specification prescribes for `n` components from
registry index `i` on, with the responses `ρ`: the components in registry
order, stopping after the first component with an error. -/
def expectedCalls (ρ : Nat → Responses) : Nat → Nat → List Call
  | _, 0 => []
  | i, n + 1 =>
    if (componentCalls (ρ i) i).2 then
      (componentCalls (ρ i) i).1 ++ expectedCalls ρ (i + 1) n
    else (componentCalls (ρ i) i).1

/-- The component calls of a trace. -/
def componentTrace (trace : List Call) : List Call :=
  trace.filter (fun ev => ev.component.isSome)

/-- The methods called on the component at index `k` in a trace, in order. -/
def methodsOn (k : Nat) (trace : List Call) : List Method :=
  (trace.filter (fun ev => decide (ev.component = some k))).filterMap Call.method

/-- `reconcileUpgrade` of upgrade.go. -/
def reconcileUpgrade (r : Reconciler W Ctx) (cr : Verrazzano) (w : W) : Pass W :=
  let targetVersion := cr.Spec.Version
  if !isLastCondition cr.Status ConditionType.UpgradeStarted then
    let u := r.updateStatus cr (startedMessage cr) ConditionType.UpgradeStarted w
    ⟨⟨true, 1⟩, u.err, u.cr, u.world,
      [.updateStatus (startedMessage cr) ConditionType.UpgradeStarted u.err]⟩
  else
    match r.NewContext cr r.DryRun w with
    | (.error err, w1) =>
      let q := r.newRequeueWithDelay w1
      ⟨q.1, some err, cr, q.2, [.newContext (some err), .newRequeueWithDelay]⟩
    | (.ok newContext, w1) =>
      let o := upgradeComponents r newContext 0 r.GetComponents cr w1
      match o.ret with
      | some ret => ⟨ret.1, ret.2, o.cr, o.world, .newContext none :: o.trace⟩
      | none =>
        match postUpgrade with
        | some err => ⟨⟨true, 1⟩, some err, o.cr, o.world, .newContext none :: o.trace⟩
        | none =>
          let msg := completeMessage o.cr
          let cr2 := setStatusVersion o.cr targetVersion
          let u := r.updateStatus cr2 msg ConditionType.UpgradeComplete o.world
          match u.err with
          | some err =>
            let q := r.newRequeueWithDelay u.world
            ⟨q.1, some err, u.cr, q.2,
              .newContext none :: o.trace ++
                [.updateStatus msg ConditionType.UpgradeComplete (some err), .newRequeueWithDelay]⟩
          | none =>
            ⟨Result.empty, none, u.cr, u.world,
              .newContext none :: o.trace ++
                [.updateStatus msg ConditionType.UpgradeComplete none]⟩

end verrazzano

/-!
# MySQL component: repair of pods stuck on their readiness gates

A shallow embedding of
`platform-operator/controllers/verrazzano/component/mysql/mysql_workarounds.go`.
The timer behind the pointer `c.LastTimeReadinessGateRepairStarted` and the
cluster state are passed explicitly, and the calls on the clock and on the
cluster are recorded in a trace.
-/

namespace mysql

/-- A Go `error` value, represented by its text; the nil error is `none`. -/
abbrev Error := String

/-- A `time.Time`, as the number of nanoseconds since the zero time instant
(January 1, year 1, 00:00:00 UTC). -/
structure Time where
  ns : Int
  deriving DecidableEq, Repr

/-- The zero value `time.Time{}`. -/
def Time.zero : Time := ⟨0⟩

/-- `Time.IsZero` of the Go library. -/
def Time.IsZero (t : Time) : Bool := decide (t.ns = 0)

/-- `Time.Add` of the Go library, the duration in nanoseconds. -/
def Time.Add (t : Time) (d : Int) : Time := ⟨t.ns + d⟩

/-- `Time.After` of the Go library: `t` is strictly after `u`. -/
def Time.After (t u : Time) : Bool := decide (u.ns < t.ns)

/-- The duration `time.Minute`, in nanoseconds. -/
def Minute : Int := 60 * 1000000000

/-- The constant `v1.ConditionTrue`. -/
def ConditionTrue : String := "True"

/-- A `v1.PodCondition`, the fields read here. -/
structure PodCondition where
  Type' : String
  Status : String
  deriving DecidableEq, Repr

/-- A `v1.Pod`, the fields read here: `ReadinessGates` holds the
`ConditionType` of each entry of `pod.Spec.ReadinessGates`, and `Conditions`
is `pod.Status.Conditions`. -/
structure Pod where
  Namespace : String
  Name : String
  ReadinessGates : List String
  Conditions : List PodCondition
  deriving DecidableEq, Repr

/-- A `metav1.LabelSelectorRequirement`. -/
structure LabelSelectorRequirement where
  Key : String
  Operator : String
  Values : List String
  deriving DecidableEq, Repr

/-- The constant `metav1.LabelSelectorOpIn`. -/
def LabelSelectorOpIn : String := "In"

/-- What `mysql_workarounds.go` takes from outside the file, as parameters:
the constants of the mysql and mysqloperator packages, the clock `time.Now`,
`k8sready.GetPodsList` (which returns nil when the pods cannot be listed),
the client's `Delete`, and the text of a selector. `W` is the cluster
state. -/
structure Cluster (W : Type) where
  mySQLComponentLabel : String
  mySQLDComponentName : String
  ComponentNamespace : String
  operatorComponentName : String
  operatorComponentNamespace : String
  Now : W → Time × W
  GetPodsList : String → LabelSelectorRequirement → W → Option (List Pod) × W
  Delete : Pod → W → Option Error × W
  selectorString : LabelSelectorRequirement → String

/-- One recorded call on the clock or on the cluster, with what it returned. -/
inductive Call where
  | now (t : Time)
  | getPodsList (ns : String) (selector : LabelSelectorRequirement)
      (pods : Option (List Pod))
  | delete (pod : Pod) (err : Option Error)
  deriving DecidableEq, Repr

/-- Whether the call is a `Delete` that succeeded. -/
def Call.isDeleted : Call → Bool
  | .delete _ none => true
  | _ => false

/-- Whether the call lists pods. -/
def Call.isList : Call → Bool
  | .getPodsList _ _ _ => true
  | _ => false

/-- The counter `readyCount` after the two nested loops over the conditions
and the readiness gates of a pod (lines 74-82). -/
def readyCount (pod : Pod) : Nat :=
  pod.Conditions.foldl (fun count condition =>
    pod.ReadinessGates.foldl (fun count2 gate =>
      if condition.Type' = gate ∧ condition.Status = ConditionTrue then count2 + 1
      else count2) count) 0

/-- The error of line 72. -/
def noConditionsError (pod : Pod) : Error :=
  "Failed checking MySQL readiness gates, no status conditions found for pod " ++
    pod.Namespace ++ "/" ++ pod.Name

/-- The error of line 64. -/
def noPodsError (selector : String) : Error :=
  "Failed checking MySQL readiness gates, no pods found matching selector " ++ selector

/-- The loop over `podList.Items` (lines 67-88) with the `return false, nil`
that follows it. -/
def podsWaiting : List Pod → Bool × Option Error
  | [] => (false, none)
  | pod :: rest =>
    if pod.Conditions.length = 0 then (false, some (noConditionsError pod))
    else if pod.ReadinessGates.length ≠ readyCount pod then (true, none)
    else podsWaiting rest

/-- What `mySQLPodsWaitingForReadinessGates` hands back: the returned pair,
the timer and the cluster state afterwards, and the calls made. -/
structure Waiting (W : Type) where
  waiting : Bool
  err : Option Error
  timer : Time
  world : W
  trace : List Call

variable {W : Type}

/-- The selector of line 61. -/
def mySQLSelector (c : Cluster W) : LabelSelectorRequirement :=
  ⟨c.mySQLComponentLabel, LabelSelectorOpIn, [c.mySQLDComponentName]⟩

/-- The selector of line 95. -/
def operSelector (c : Cluster W) : LabelSelectorRequirement :=
  ⟨"name", LabelSelectorOpIn, [c.operatorComponentName]⟩

/-- `mySQLPodsWaitingForReadinessGates` of mysql_workarounds.go; `timer` is
`*c.LastTimeReadinessGateRepairStarted`. -/
def mySQLPodsWaitingForReadinessGates (c : Cluster W) (timer : Time) (w : W) : Waiting W :=
  if timer.IsZero then
    let n := c.Now w
    ⟨false, none, n.1, n.2, [.now n.1]⟩
  else
    let expiredTime := timer.Add (5 * Minute)
    let n := c.Now w
    if n.1.After expiredTime then
      let selector := mySQLSelector c
      let l := c.GetPodsList c.ComponentNamespace selector n.2
      let trace := [Call.now n.1, Call.getPodsList c.ComponentNamespace selector l.1]
      match l.1 with
      | none => ⟨false, some (noPodsError (c.selectorString selector)), timer, l.2, trace⟩
      | some items =>
        if items.length = 0 then
          ⟨false, some (noPodsError (c.selectorString selector)), timer, l.2, trace⟩
        else
          ⟨(podsWaiting items).1, (podsWaiting items).2, timer, l.2, trace⟩
    else
      ⟨false, none, timer, n.2, [.now n.1]⟩

/-- What `getMySQLOperatorPod` hands back. -/
structure OperatorPod (W : Type) where
  pod : Except Error Pod
  world : W
  trace : List Call

/-- `getMySQLOperatorPod` of mysql_workarounds.go. -/
def getMySQLOperatorPod (c : Cluster W) (w : W) : OperatorPod W :=
  let selector := operSelector c
  let l := c.GetPodsList c.operatorComponentNamespace selector w
  let trace := [Call.getPodsList c.operatorComponentNamespace selector l.1]
  match l.1 with
  | some [pod] => ⟨.ok pod, l.2, trace⟩
  | _ => ⟨.error ("no pods found matching selector " ++ c.selectorString selector), l.2, trace⟩

/-- What `repairMySQLPodsWaitingReadinessGates` hands back: the returned
error, the timer and the cluster state afterwards, and the calls made. -/
structure Repair (W : Type) where
  err : Option Error
  timer : Time
  world : W
  trace : List Call

/-- `repairMySQLPodsWaitingReadinessGates` of mysql_workarounds.go. -/
def repairMySQLPodsWaitingReadinessGates (c : Cluster W) (timer : Time) (w : W) : Repair W :=
  let r := mySQLPodsWaitingForReadinessGates c timer w
  match r.err with
  | some err => ⟨some err, r.timer, r.world, r.trace⟩
  | none =>
    if r.waiting then
      let g := getMySQLOperatorPod c r.world
      match g.pod with
      | .error err =>
        ⟨some ("Failed restarting the mysql-operator to repair stuck MySQL pods: " ++ err),
          r.timer, g.world, r.trace ++ g.trace⟩
      | .ok operPod =>
        let d := c.Delete operPod g.world
        match d.1 with
        | some err => ⟨some err, r.timer, d.2, r.trace ++ g.trace ++ [.delete operPod (some err)]⟩
        | none => ⟨none, Time.zero, d.2, r.trace ++ g.trace ++ [.delete operPod none]⟩
    else
      ⟨none, r.timer, r.world, r.trace⟩

/-- A sequence of polls: `repairMySQLPodsWaitingReadinessGates` is called once
for each cluster state of the list, in order, with the timer the poll before
left; the result is the list of what the polls handed back. -/
def runPolls (c : Cluster W) : Time → List W → List (Repair W)
  | _, [] => []
  | timer, w :: ws =>
    (repairMySQLPodsWaitingReadinessGates c timer w) ::
      runPolls c (repairMySQLPodsWaitingReadinessGates c timer w).timer ws

/-- The pod list shows pods stuck on their readiness gates: it is not empty,
every pod has status conditions, and for some pod the number of readiness
gates differs from the count of line 85. -/
def StuckPods (pods : List Pod) : Prop :=
  pods ≠ [] ∧ (∀ p ∈ pods, p.Conditions ≠ []) ∧
    ∃ p ∈ pods, p.ReadinessGates.length ≠ readyCount p

/-- The stall goes on and the cluster answers: whenever the MySQL pods are
listed the list shows stuck pods, whenever the mysql-operator pods are listed
there is exactly one, and deleting a pod succeeds. -/
def StalledCluster (c : Cluster W) : Prop :=
  (∀ w, ∃ pods, (c.GetPodsList c.ComponentNamespace (mySQLSelector c) w).1 = some pods ∧
    StuckPods pods) ∧
  (∀ w, ∃ p, (c.GetPodsList c.operatorComponentNamespace (operSelector c) w).1 = some [p]) ∧
  (∀ p w, (c.Delete p w).1 = none)

/-! ### A concrete cluster, used to evaluate the code on examples -/

/-- A MySQL pod with one readiness gate and no condition of that type. -/
def stuckPod : Pod :=
  ⟨"keycloak", "mysql-0", ["mysql.oracle.com/configured"], [⟨"Ready", "False"⟩]⟩

/-- A MySQL pod with one readiness gate and two status conditions of the
gate's type, both True. -/
def doubledPod : Pod :=
  ⟨"keycloak", "mysql-0", ["mysql.oracle.com/configured"],
    [⟨"mysql.oracle.com/configured", "True"⟩, ⟨"mysql.oracle.com/configured", "True"⟩]⟩

/-- A MySQL pod with two readiness gates, two True status conditions of the
type of the first and none of the type of the second. -/
def maskedPod : Pod :=
  ⟨"keycloak", "mysql-1", ["mysql.oracle.com/configured", "mysql.oracle.com/ready"],
    [⟨"mysql.oracle.com/configured", "True"⟩, ⟨"mysql.oracle.com/configured", "True"⟩]⟩

/-- The mysql-operator pod. -/
def operatorPod : Pod :=
  ⟨"mysql-operator", "mysql-operator-5d8f", [], [⟨"Ready", "True"⟩]⟩

/-- A cluster whose state is the reading of its clock: the MySQL pods are
`pods` whatever the time, there is one mysql-operator pod, and deleting a pod
returns `deleteErr`. -/
def clockCluster (pods : Option (List Pod)) (deleteErr : Option Error) : Cluster Time :=
  { mySQLComponentLabel := "component"
    mySQLDComponentName := "mysqld"
    ComponentNamespace := "keycloak"
    operatorComponentName := "mysql-operator"
    operatorComponentNamespace := "mysql-operator"
    Now := fun w => (w, w)
    GetPodsList := fun ns _ w => (if ns = "keycloak" then pods else some [operatorPod], w)
    Delete := fun _ w => (deleteErr, w)
    selectorString := fun s => s.Key }

end mysql

/-!
# Multi-cluster agent and Thanos component

Shallow embeddings of `application-operator/mcagent/mcagent.go` (the agent
thread that reads the agent secret and connects to the admin cluster) and of
the ingress and certificate names of
`platform-operator/controllers/verrazzano/component/thanos/thanos_component.go`.
-/

namespace mcagent

/-- A Go `error` value built by `fmt.Errorf`, represented by its text. -/
abbrev Error := String

/-- An error returned by a cluster client: its text, and whether it is the
structured "not found" error (`errors.IsNotFound`). -/
structure ClientError where
  notFound : Bool
  message : String
  deriving DecidableEq, Repr

/-- Modelled from the spec: `clusters.IgnoreNotFoundWithLog` (defined in the
`clusters` package) tells the "not found" signal from other errors: it returns
nil for a not-found error and the error itself otherwise. -/
def IgnoreNotFoundWithLog (err : ClientError) : Option ClientError :=
  if err.notFound then none else some err

/-- A `corev1.Secret`, the fields read here.  `Data` is the Go map
`map[string][]byte`, nil or a list of key and value pairs read by key; the
byte values are kept as texts. -/
structure Secret where
  Name : String
  Namespace : String
  ResourceVersion : String
  Data : Option (List (String × String))
  deriving DecidableEq, Repr

/-- The map read `secret.Data[key]` with its `ok` flag: `none` when the key is
absent (also from a nil map). -/
def Secret.lookup (secret : Secret) (key : String) : Option String :=
  match secret.Data with
  | none => none
  | some m => m.lookup key

/-- The secret's data contains the key. -/
def Secret.hasKey (secret : Secret) (key : String) : Prop :=
  ∃ m, secret.Data = some m ∧ key ∈ m.map Prod.fst

/-- The conversion `string(secret.Data[key])`: the empty text when the key is
absent. -/
def Secret.text (secret : Secret) (key : String) : String :=
  (secret.lookup key).getD ""

/-- The constants of the `constants` package that the agent thread uses, taken
as parameters. -/
structure Constants where
  MCAgentSecret : String
  VerrazzanoSystemNamespace : String
  VerrazzanoMultiClusterNamespace : String
  ClusterNameData : String
  AdminKubeconfigData : String
  VzConsoleIngress : String
  VzPrometheusIngress : String

/-- An `extv1beta1.IngressTLS`, the field read here. -/
structure IngressTLS where
  Hosts : List String
  deriving DecidableEq, Repr

/-- An `extv1beta1.Ingress`, the field read here: `TLS` is `Spec.TLS`. -/
structure Ingress where
  TLS : List IngressTLS
  deriving DecidableEq, Repr

/-- The status of a `VerrazzanoManagedCluster`, the fields written here. -/
structure VMCStatus where
  LastAgentConnectTime : Option Int
  APIUrl : String
  PrometheusHost : String
  deriving DecidableEq, Repr

/-- A `platformopclusters.VerrazzanoManagedCluster`. -/
structure VerrazzanoManagedCluster where
  Name : String
  Namespace : String
  Status : VMCStatus
  deriving DecidableEq, Repr

/-- The `Syncer`, the fields the agent thread reads or writes (the struct is
declared in another file of the package).  `AdminClient` is nil until a client
for the admin cluster has been built. -/
structure Syncer (AC : Type) where
  AdminClient : Option AC
  ManagedClusterName : String
  ProjectNamespaces : List String
  AgentSecretFound : Bool
  AgentSecretValid : Bool
  SecretResourceVersion : String

/-- What a Go function call ends in: it returns a value, or it panics (a nil
dereference or an index out of range). -/
inductive Ret (α : Type) where
  | returned (a : α)
  | panicked
  deriving DecidableEq, Repr

/-- The calls the agent thread makes outside mcagent.go, taken as parameters.
`W` is the state of the two clusters and `AC` the type of a client for the
admin cluster.  The `Get` calls are those of `s.LocalClient`; `getAdminClient`
(lines 198-226) is made of calls on the file system and on client-go only and
is one parameter; the `sync...` methods and `processStatusUpdates` are defined
in other files of the package: they read the Syncer, and of its fields only
`ProjectNamespaces` is written, by `syncVerrazzanoProjects`, which hands back
its new value. -/
structure Cluster (W AC : Type) where
  GetSecret : String → String → W → Except ClientError Secret × W
  GetIngress : String → String → W → Except ClientError Ingress × W
  getAdminClient : Secret → W → Except Error AC × W
  AdminGetVMC : AC → String → String → W → Except ClientError VerrazzanoManagedCluster × W
  AdminUpdateVMCStatus : AC → VerrazzanoManagedCluster → W → Option ClientError × W
  Now : W → Int × W
  syncVerrazzanoProjects : Syncer AC → W → (Option Error × List String) × W
  syncMCSecretObjects : Syncer AC → String → W → Option Error × W
  syncMCConfigMapObjects : Syncer AC → String → W → Option Error × W
  syncMCComponentObjects : Syncer AC → String → W → Option Error × W
  syncMCApplicationConfigurationObjects : Syncer AC → String → W → Option Error × W
  processStatusUpdates : Syncer AC → W → W

/-- One recorded call on a client or on a method defined outside mcagent.go. -/
inductive Call where
  | getSecret (ns name : String) (err : Option ClientError)
  | getIngress (ns name : String) (err : Option ClientError)
  | getAdminClient (err : Option Error)
  | adminGetVMC (ns name : String) (err : Option ClientError)
  | now
  | adminUpdateVMCStatus (err : Option ClientError)
  | syncVerrazzanoProjects (err : Option Error)
  | syncNamespace (method : String) (ns : String) (err : Option Error)
  | processStatusUpdates (ns : String)
  deriving DecidableEq, Repr

/-- Whether the call builds a client for the admin cluster. -/
def Call.isGetAdminClient : Call → Bool
  | .getAdminClient _ => true
  | _ => false

/-- `validateAgentSecret` of mcagent.go. -/
def validateAgentSecret (k : Constants) (secret : Secret) : Option Error :=
  match secret.lookup k.ClusterNameData with
  | none =>
    some ("the secret named " ++ secret.Name ++ " in namespace " ++ secret.Namespace ++
      " is missing the required field " ++ k.ClusterNameData)
  | some _ =>
    match secret.lookup k.AdminKubeconfigData with
    | none =>
      some ("the secret named " ++ secret.Name ++ " in namespace " ++ secret.Namespace ++
        " is missing the required field " ++ k.AdminKubeconfigData)
    | some _ => none

/-- What a function of the agent hands back: how the call ended, the cluster
state afterwards and the calls made. -/
structure Outcome (W α : Type) where
  ret : Ret α
  world : W
  trace : List Call

variable {W AC : Type}

/-- `GetAPIServerURL` of mcagent.go; the Go pair `(string, error)`.  The
indexings `ingress.Spec.TLS[0]` and `.Hosts[0]` panic on an empty slice. -/
def GetAPIServerURL (k : Constants) (c : Cluster W AC) (w : W) :
    Outcome W (String × Option Error) :=
  let g := c.GetIngress k.VerrazzanoSystemNamespace k.VzConsoleIngress w
  match g.1 with
  | .error err =>
    ⟨.returned ("", some ("Unable to fetch ingress " ++ k.VerrazzanoSystemNamespace ++ "/" ++
        k.VzConsoleIngress ++ ", " ++ err.message)), g.2,
      [.getIngress k.VerrazzanoSystemNamespace k.VzConsoleIngress (some err)]⟩
  | .ok ingress =>
    match ingress.TLS with
    | [] => ⟨.panicked, g.2, [.getIngress k.VerrazzanoSystemNamespace k.VzConsoleIngress none]⟩
    | tls :: _ =>
      match tls.Hosts with
      | [] => ⟨.panicked, g.2, [.getIngress k.VerrazzanoSystemNamespace k.VzConsoleIngress none]⟩
      | host :: _ =>
        ⟨.returned ("https://" ++ host, none), g.2,
          [.getIngress k.VerrazzanoSystemNamespace k.VzConsoleIngress none]⟩

/-- `GetPrometheusHost` of mcagent.go. -/
def GetPrometheusHost (k : Constants) (c : Cluster W AC) (w : W) :
    Outcome W (String × Option Error) :=
  let g := c.GetIngress k.VerrazzanoSystemNamespace k.VzPrometheusIngress w
  match g.1 with
  | .error err =>
    ⟨.returned ("", some ("unable to fetch ingress " ++ k.VerrazzanoSystemNamespace ++ "/" ++
        k.VzPrometheusIngress ++ ", " ++ err.message)), g.2,
      [.getIngress k.VerrazzanoSystemNamespace k.VzPrometheusIngress (some err)]⟩
  | .ok ingress =>
    match ingress.TLS with
    | [] => ⟨.panicked, g.2, [.getIngress k.VerrazzanoSystemNamespace k.VzPrometheusIngress none]⟩
    | tls :: _ =>
      match tls.Hosts with
      | [] =>
        ⟨.panicked, g.2, [.getIngress k.VerrazzanoSystemNamespace k.VzPrometheusIngress none]⟩
      | host :: _ =>
        ⟨.returned (host, none), g.2,
          [.getIngress k.VerrazzanoSystemNamespace k.VzPrometheusIngress none]⟩

/-- `updateVMCStatus` of mcagent.go.  A call on a nil `s.AdminClient`
panics. -/
def updateVMCStatus (k : Constants) (c : Cluster W AC) (s : Syncer AC) (w : W) :
    Outcome W (Option Error) :=
  let vmcName := k.VerrazzanoMultiClusterNamespace ++ "/" ++ s.ManagedClusterName
  match s.AdminClient with
  | none => ⟨.panicked, w, []⟩
  | some adminClient =>
    let g := c.AdminGetVMC adminClient k.VerrazzanoMultiClusterNamespace s.ManagedClusterName w
    match g.1 with
    | .error err =>
      ⟨.returned (some err.message), g.2,
        [.adminGetVMC k.VerrazzanoMultiClusterNamespace s.ManagedClusterName (some err)]⟩
    | .ok vmc =>
      let t0 := [Call.adminGetVMC k.VerrazzanoMultiClusterNamespace s.ManagedClusterName none,
        Call.now]
      let curTime := c.Now g.2
      let vmc1 : VerrazzanoManagedCluster :=
        { vmc with Status := { vmc.Status with LastAgentConnectTime := some curTime.1 } }
      let a := GetAPIServerURL k c curTime.2
      match a.ret with
      | .panicked => ⟨.panicked, a.world, t0 ++ a.trace⟩
      | .returned (_, some err) =>
        ⟨.returned (some ("Failed to get api server url for vmc " ++ vmcName ++
          " with error " ++ err)), a.world, t0 ++ a.trace⟩
      | .returned (apiURL, none) =>
        let vmc2 : VerrazzanoManagedCluster :=
          { vmc1 with Status := { vmc1.Status with APIUrl := apiURL } }
        let p := GetPrometheusHost k c a.world
        match p.ret with
        | .panicked => ⟨.panicked, p.world, t0 ++ a.trace ++ p.trace⟩
        | .returned (_, some err) =>
          ⟨.returned (some ("Failed to get api prometheus host for vmc " ++ vmcName ++
            " with error " ++ err)), p.world, t0 ++ a.trace ++ p.trace⟩
        | .returned (prometheusHost, none) =>
          let vmc3 : VerrazzanoManagedCluster :=
            { vmc2 with Status := { vmc2.Status with PrometheusHost := prometheusHost } }
          let u := c.AdminUpdateVMCStatus adminClient vmc3 p.world
          ⟨.returned (u.1.map (fun e => e.message)), u.2,
            t0 ++ a.trace ++ p.trace ++ [.adminUpdateVMCStatus u.1]⟩

/-- The body of the loop of `SyncMultiClusterResources` (lines 159-176) for
one namespace; the errors are logged only. -/
def syncNamespace (c : Cluster W AC) (s : Syncer AC) (ns : String) (w : W) : W × List Call :=
  let a := c.syncMCSecretObjects s ns w
  let b := c.syncMCConfigMapObjects s ns a.2
  let d := c.syncMCComponentObjects s ns b.2
  let e := c.syncMCApplicationConfigurationObjects s ns d.2
  (c.processStatusUpdates s e.2,
    [.syncNamespace "syncMCSecretObjects" ns a.1,
      .syncNamespace "syncMCConfigMapObjects" ns b.1,
      .syncNamespace "syncMCComponentObjects" ns d.1,
      .syncNamespace "syncMCApplicationConfigurationObjects" ns e.1,
      .processStatusUpdates ns])

/-- The loop of `SyncMultiClusterResources` over the project namespaces. -/
def syncNamespaces (c : Cluster W AC) (s : Syncer AC) : List String → W → W × List Call
  | [], w => (w, [])
  | ns :: rest, w =>
    let a := syncNamespace c s ns w
    let b := syncNamespaces c s rest a.1
    (b.1, a.2 ++ b.2)

/-- What `SyncMultiClusterResources` hands back. -/
structure Synced (W AC : Type) where
  s : Syncer AC
  world : W
  trace : List Call

/-- `SyncMultiClusterResources` of mcagent.go. -/
def SyncMultiClusterResources (c : Cluster W AC) (s : Syncer AC) (w : W) : Synced W AC :=
  let p := c.syncVerrazzanoProjects s w
  let s1 : Syncer AC := { s with ProjectNamespaces := p.1.2 }
  let l := syncNamespaces c s1 s1.ProjectNamespaces p.2
  ⟨s1, l.1, .syncVerrazzanoProjects p.1.1 :: l.2⟩

/-- What `ProcessAgentThread` hands back: how the call ended (with the
returned error), the Syncer and the cluster state afterwards, and the calls
made. -/
structure Thread (W AC : Type) where
  ret : Ret (Option Error)
  s : Syncer AC
  world : W
  trace : List Call

/-- The format verb `%q` on a text without characters to escape. -/
def quoted (text : String) : String := "\"" ++ text ++ "\""

/-- Lines 111-120 of `ProcessAgentThread`: the VMC status is updated, an error
of that is logged only, and the multi-cluster objects are synchronized. -/
def connectAndSync (k : Constants) (c : Cluster W AC) (s : Syncer AC) (w : W)
    (trace : List Call) : Thread W AC :=
  let u := updateVMCStatus k c s w
  match u.ret with
  | .panicked => ⟨.panicked, s, u.world, trace ++ u.trace⟩
  | .returned _ =>
    let y := SyncMultiClusterResources c s u.world
    ⟨.returned none, y.s, y.world, trace ++ u.trace ++ y.trace⟩

/-- Lines 94-99 of `ProcessAgentThread`: the cluster name is recorded when it
differs from the recorded one. -/
def recordClusterName (s : Syncer AC) (managedClusterName : String) : Syncer AC :=
  if managedClusterName ≠ s.ManagedClusterName then
    { s with ManagedClusterName := managedClusterName }
  else s

/-- `ProcessAgentThread` of mcagent.go. -/
def ProcessAgentThread (k : Constants) (c : Cluster W AC) (s : Syncer AC) (w : W) :
    Thread W AC :=
  let g := c.GetSecret k.VerrazzanoSystemNamespace k.MCAgentSecret w
  match g.1 with
  | .error err =>
    let t := [Call.getSecret k.VerrazzanoSystemNamespace k.MCAgentSecret (some err)]
    if (IgnoreNotFoundWithLog err).isNone && s.AgentSecretFound then
      ⟨.returned none, { s with AgentSecretFound := false, AgentSecretValid := false }, g.2, t⟩
    else
      ⟨.returned none, s, g.2, t⟩
  | .ok secret =>
    let t := [Call.getSecret k.VerrazzanoSystemNamespace k.MCAgentSecret none]
    match validateAgentSecret k secret with
    | some err =>
      ⟨.returned (some ("secret validation failed: " ++ err)),
        { s with AgentSecretValid := false }, g.2, t⟩
    | none =>
      let s1 : Syncer AC := { s with AgentSecretFound := true, AgentSecretValid := true }
      let managedClusterName := secret.text k.ClusterNameData
      let s2 := recordClusterName s1 managedClusterName
      if secret.ResourceVersion ≠ s2.SecretResourceVersion then
        let a := c.getAdminClient secret g.2
        match a.1 with
        | .error err =>
          ⟨.returned (some ("Failed to get the client for cluster " ++
            quoted managedClusterName ++ " with error " ++ err)), s2, a.2,
            t ++ [.getAdminClient (some err)]⟩
        | .ok adminClient =>
          connectAndSync k c
            { s2 with AdminClient := some adminClient,
                      SecretResourceVersion := secret.ResourceVersion }
            a.2 (t ++ [.getAdminClient none])
      else
        connectAndSync k c s2 g.2 t

/-- Every ingress the local client hands back has a first TLS entry with a
first host. -/
def HostsPresent (c : Cluster W AC) : Prop :=
  ∀ ns name w ingress, (c.GetIngress ns name w).1 = .ok ingress →
    ∃ tls rest host hosts, ingress.TLS = tls :: rest ∧ tls.Hosts = host :: hosts

/-! ### A concrete cluster, used to evaluate the code on examples -/

/-- The names of the `constants` package. -/
def sampleConstants : Constants :=
  { MCAgentSecret := "verrazzano-cluster-agent"
    VerrazzanoSystemNamespace := "verrazzano-system"
    VerrazzanoMultiClusterNamespace := "verrazzano-mc"
    ClusterNameData := "managed-cluster-name"
    AdminKubeconfigData := "admin-kubeconfig"
    VzConsoleIngress := "verrazzano-ingress"
    VzPrometheusIngress := "vmi-system-prometheus" }

/-- The secret `validSecret` of mcagent_test.go, with resource version `rv`. -/
def validSecret (rv : String) : Secret :=
  { Name := "verrazzano-cluster-agent", Namespace := "verrazzano-system", ResourceVersion := rv,
    Data := some [("managed-cluster-name", "cluster1"), ("admin-kubeconfig", "kubeconfig")] }

/-- A cluster over a one-point state: the agent secret is fetched with the
given result, every ingress has the one host `host.example.com`, the admin
client can be built, the VMC is found, its status update returns `updateErr`,
and there is no project namespace. -/
def sampleCluster (secret : Except ClientError Secret) (updateErr : Option ClientError) :
    Cluster Unit Unit :=
  { GetSecret := fun _ _ w => (secret, w)
    GetIngress := fun _ _ w => (.ok ⟨[⟨["host.example.com"]⟩]⟩, w)
    getAdminClient := fun _ w => (.ok (), w)
    AdminGetVMC := fun _ ns name w => (.ok ⟨name, ns, ⟨none, "", ""⟩⟩, w)
    AdminUpdateVMCStatus := fun _ _ w => (updateErr, w)
    Now := fun w => (0, w)
    syncVerrazzanoProjects := fun _ w => ((none, []), w)
    syncMCSecretObjects := fun _ _ w => (none, w)
    syncMCConfigMapObjects := fun _ _ w => (none, w)
    syncMCComponentObjects := fun _ _ w => (none, w)
    syncMCApplicationConfigurationObjects := fun _ _ w => (none, w)
    processStatusUpdates := fun _ w => w }

/-- The Syncer of the tests of mcagent_test.go, with the given flag
`AgentSecretFound` and recorded resource version. -/
def sampleSyncer (found : Bool) (rv : String) : Syncer Unit :=
  { AdminClient := some (), ManagedClusterName := "cluster1", ProjectNamespaces := [],
    AgentSecretFound := found, AgentSecretValid := found, SecretResourceVersion := rv }

end mcagent

namespace thanos

/-- A `types.NamespacedName`. -/
structure NamespacedName where
  Namespace : String
  Name : String
  deriving DecidableEq, Repr

/-- What the two functions take from other packages and files, as parameters:
the predicates of `vzcr` on the effective CR (of type `CR`), the namespaces
`constants.VerrazzanoSystemNamespace` and `authproxy.ComponentNamespace`, and
the names `constants.ThanosQueryIngress` and `queryCertificateName`. -/
structure Settings (CR : Type) where
  IsThanosEnabled : CR → Bool
  IsNGINXEnabled : CR → Bool
  IsAuthProxyEnabled : CR → Bool
  VerrazzanoSystemNamespace : String
  authproxyComponentNamespace : String
  ThanosQueryIngress : String
  queryCertificateName : String

variable {CR : Type}

/-- `GetIngressNames` of thanos_component.go; `effectiveCR` is
`ctx.EffectiveCR()`. -/
def GetIngressNames (k : Settings CR) (effectiveCR : CR) : List NamespacedName :=
  let ingressNames : List NamespacedName := []
  if !k.IsThanosEnabled effectiveCR || !k.IsNGINXEnabled effectiveCR then ingressNames
  else
    let ns :=
      if k.IsAuthProxyEnabled effectiveCR then k.authproxyComponentNamespace
      else k.VerrazzanoSystemNamespace
    ingressNames ++ [⟨ns, k.ThanosQueryIngress⟩]

/-- `GetCertificateNames` of thanos_component.go. -/
def GetCertificateNames (k : Settings CR) (effectiveCR : CR) : List NamespacedName :=
  let certificateNames : List NamespacedName := []
  if !k.IsThanosEnabled effectiveCR || !k.IsNGINXEnabled effectiveCR then certificateNames
  else
    let ns :=
      if k.IsAuthProxyEnabled effectiveCR then k.authproxyComponentNamespace
      else k.VerrazzanoSystemNamespace
    certificateNames ++ [⟨ns, k.queryCertificateName⟩]

/-- An effective CR reduced to the three switches read here. -/
structure Switches where
  thanos : Bool
  nginx : Bool
  authProxy : Bool
  deriving DecidableEq, Repr

/-- Sample settings over `Switches`. -/
def sampleSettings : Settings Switches :=
  { IsThanosEnabled := fun cr => cr.thanos
    IsNGINXEnabled := fun cr => cr.nginx
    IsAuthProxyEnabled := fun cr => cr.authProxy
    VerrazzanoSystemNamespace := "verrazzano-system"
    authproxyComponentNamespace := "verrazzano-authproxy"
    ThanosQueryIngress := "thanos-query-frontend"
    queryCertificateName := "system-tls-thanos-query" }

end thanos

namespace mcagent

variable {W : Type}

/-! ## Deployment and logging DaemonSet updates of mcagent.go

`updateDeployment`, `getEnvValue`, `updateLoggingDaemonSet`, `updateEnv`,
`updateVolumes` and `updateEnvValue`. Go slices are lists compared by value;
a nil slice and an empty slice are the same list. -/

/-- The constant `registrationSecretVersion` of mcagent.go. -/
def registrationSecretVersion : String := "REGISTRATION_SECRET_VERSION"

/-- The constant `caFile` of mcagent.go. -/
def caFile : String := "CA_FILE"

/-- The constant `defaultElasticURL` of mcagent.go. -/
def defaultElasticURL : String := "http://vmi-system-es-ingest-oidc:8775"

/-- The constant `defaultSecretName` of mcagent.go. -/
def defaultSecretName : String := "verrazzano"

/-- A `corev1.SecretKeySelector`: the secret referred to, the key, and what the
`Optional` pointer holds. -/
structure SecretKeySelector where
  Name : String
  Key : String
  Optional : Option Bool
  deriving DecidableEq, Repr

/-- A `corev1.EnvVarSource`: the `SecretKeyRef` pointer; the other references
of the struct, which this file never reads or writes, are kept as one text. -/
structure EnvVarSource where
  SecretKeyRef : Option SecretKeySelector
  others : String
  deriving DecidableEq, Repr

/-- A `corev1.EnvVar`. -/
structure EnvVar where
  Name : String
  Value : String
  ValueFrom : Option EnvVarSource
  deriving DecidableEq, Repr

/-- A `corev1.SecretVolumeSource`: the secret name; the remaining fields
(items, default mode, optional) are kept as one text, empty when unset. -/
structure SecretVolumeSource where
  SecretName : String
  others : String
  deriving DecidableEq, Repr

/-- A `corev1.VolumeSource`: the `Secret` pointer; the other sources of the
struct are kept as one text, empty when unset. -/
structure VolumeSource where
  Secret : Option SecretVolumeSource
  others : String
  deriving DecidableEq, Repr

/-- A `corev1.Volume`. -/
structure Volume where
  Name : String
  VolumeSource : VolumeSource
  deriving DecidableEq, Repr

/-- A `corev1.Container`: name and environment; the fields this file never
reads or writes are kept as one text. -/
structure Container where
  Name : String
  Env : List EnvVar
  others : String
  deriving DecidableEq, Repr

/-- The part of an `appsv1.DaemonSet` that is read and written:
`Spec.Template.Spec.Volumes` and `Spec.Template.Spec.Containers`. -/
structure DaemonSet where
  Volumes : List Volume
  Containers : List Container
  deriving DecidableEq, Repr

/-- The part of an `appsv1.Deployment` that is read and written:
`Spec.Template.Spec.Containers`. -/
structure Deployment where
  Containers : List Container
  deriving DecidableEq, Repr

/-- The names of package `constants` used by the deployment and logging
updates, as parameters (the package is declared outside this file). -/
structure LoggingConstants where
  MCRegistrationSecret : String
  CaBundleKey : String
  CaFileOverride : String
  CaFileDefault : String
  DefaultClusterName : String
  ElasticsearchURLData : String
  ElasticsearchUsernameData : String
  ElasticsearchPasswordData : String
  FluentdClusterNameEnvVar : String
  FluentdElasticsearchURLEnvVar : String
  FluentdElasticsearchUserEnvVar : String
  FluentdElasticsearchPwdEnvVar : String

/-- The inner loop of `getEnvValue`: the value of the first variable of the
environment that has the given name, if there is one. -/
def firstEnvValue : List EnvVar → String → Option String
  | [], _ => none
  | env :: rest, envName =>
    if env.Name = envName then some env.Value else firstEnvValue rest envName

/-- `getEnvValue` of mcagent.go: containers in order, variables in order, the
first match is returned; the empty string when nothing matches. -/
def getEnvValue : List Container → String → String
  | [], _ => ""
  | container :: rest, envName =>
    match firstEnvValue container.Env envName with
    | some value => value
    | none => getEnvValue rest envName

/-- `updateEnvValue` of mcagent.go: the first variable with the name gets the
new value (its other fields stay); with no such variable one is appended. -/
def updateEnvValue : List EnvVar → String → String → List EnvVar
  | [], envName, newValue => [{ Name := envName, Value := newValue, ValueFrom := none }]
  | env :: rest, envName, newValue =>
    if env.Name = envName then { env with Value := newValue } :: rest
    else env :: updateEnvValue rest envName newValue

/-- The reference built by `updateEnv` for the user and password variables. -/
def secretKeyRef (secretName key : String) : EnvVarSource :=
  { SecretKeyRef := some { Name := secretName, Key := key, Optional := some true },
    others := "" }

/-- The loop body of `updateEnv`: what is appended for one old variable. -/
def updateEnvVar (l : LoggingConstants) (secretName clusterName esURL : String)
    (env : EnvVar) : EnvVar :=
  if env.Name = l.FluentdClusterNameEnvVar then
    { Name := env.Name, Value := clusterName, ValueFrom := none }
  else if env.Name = l.FluentdElasticsearchURLEnvVar then
    { Name := env.Name, Value := esURL, ValueFrom := none }
  else if env.Name = l.FluentdElasticsearchUserEnvVar then
    { Name := env.Name, Value := "",
      ValueFrom := some (secretKeyRef secretName l.ElasticsearchUsernameData) }
  else if env.Name = l.FluentdElasticsearchPwdEnvVar then
    { Name := env.Name, Value := "",
      ValueFrom := some (secretKeyRef secretName l.ElasticsearchPasswordData) }
  else env

/-- `updateEnv` of mcagent.go. -/
def updateEnv (k : Constants) (l : LoggingConstants) (newSecretName : String)
    (newSecret : Secret) (secretVersion : String) (old : List EnvVar) : List EnvVar :=
  let names : String × String × String :=
    if secretVersion = "" then (defaultSecretName, l.DefaultClusterName, defaultElasticURL)
    else if newSecret.Data.isSome then
      (newSecretName, newSecret.text k.ClusterNameData, newSecret.text l.ElasticsearchURLData)
    else (newSecretName, l.DefaultClusterName, defaultElasticURL)
  old.map (updateEnvVar l names.1 names.2.1 names.2.2)

/-- The loop body of `updateVolumes`. -/
def updateVolume (secretName : String) (vol : Volume) : Volume :=
  if vol.Name = "secret-volume" then
    { Name := vol.Name,
      VolumeSource := { Secret := some { SecretName := secretName, others := "" },
                        others := "" } }
  else vol

/-- `updateVolumes` of mcagent.go. -/
def updateVolumes (newSecretName secretVersion : String) (old : List Volume) : List Volume :=
  let secretName := if secretVersion = "" then defaultSecretName else newSecretName
  old.map (updateVolume secretName)

/-- The flag `caBundlePresent` of `updateLoggingDaemonSet`. -/
def caBundlePresent (l : LoggingConstants) (newSecret : Secret) : Bool :=
  newSecret.Data.isSome && decide (0 < (newSecret.text l.CaBundleKey).length)

/-- The value `updateLoggingDaemonSet` writes to `CA_FILE`. -/
def caFileValue (l : LoggingConstants) (newSecret : Secret) : String :=
  if caBundlePresent l newSecret then l.CaFileOverride else l.CaFileDefault

/-- The loop body of `updateLoggingDaemonSet` for one container. -/
def updateLoggingContainer (k : Constants) (l : LoggingConstants) (newSecretName : String)
    (newSecret : Secret) (c : Container) : Container :=
  let secretVersion := newSecret.ResourceVersion
  if c.Name = "fluentd" then
    let env1 := updateEnv k l newSecretName newSecret secretVersion c.Env
    let env2 := updateEnvValue env1 registrationSecretVersion secretVersion
    let env3 :=
      if caBundlePresent l newSecret then updateEnvValue env2 caFile l.CaFileOverride
      else updateEnvValue env2 caFile l.CaFileDefault
    { c with Env := env3 }
  else c

/-- `updateLoggingDaemonSet` of mcagent.go; the DaemonSet behind the pointer is
returned. -/
def updateLoggingDaemonSet (k : Constants) (l : LoggingConstants) (newSecretName : String)
    (newSecret : Secret) (ds : DaemonSet) : DaemonSet :=
  let secretVersion := newSecret.ResourceVersion
  { Volumes := updateVolumes newSecretName secretVersion ds.Volumes,
    Containers := ds.Containers.map (updateLoggingContainer k l newSecretName newSecret) }

/-- The mutate function `updateDeployment` hands to `CreateOrUpdate`: the
first container's environment gets the secret version; indexing an empty
container list panics. -/
def mutateDeployment (secretVersion : String) (deployment : Deployment) : Ret Deployment :=
  match deployment.Containers with
  | [] => .panicked
  | first :: rest =>
    .returned
      { Containers :=
          { first with Env := updateEnvValue first.Env registrationSecretVersion secretVersion }
            :: rest }

/-- What `updateDeployment` and `configureLogging` use of the local cluster,
as parameters: the typed `Get` calls of `s.LocalClient` and
`controllerutil.CreateOrUpdate`, which is given the object as read and the
mutate function and whose results the callers drop. -/
structure LocalObjects (W : Type) where
  GetDeployment : String → String → W → Except ClientError Deployment × W
  GetDaemonSet : String → String → W → Except ClientError DaemonSet × W
  GetRegistrationSecret : String → String → W → Except ClientError Secret × W
  CreateOrUpdateDeployment : Deployment → (Deployment → Ret Deployment) → W → W
  CreateOrUpdateDaemonSet : DaemonSet → (DaemonSet → DaemonSet) → W → W

/-- One call on the local cluster made by `updateDeployment` or
`configureLogging`; `createOrUpdate` calls carry the object as read and the
secret the mutate function was built with. -/
inductive ObjectCall where
  | getDeployment (ns name : String) (err : Option ClientError)
  | getDaemonSet (ns name : String) (err : Option ClientError)
  | getRegistrationSecret (ns name : String) (err : Option ClientError)
  | createOrUpdateDeployment (deployment : Deployment) (secretVersion : String)
  | createOrUpdateDaemonSet (daemonSet : DaemonSet) (regSecret : Secret)
  deriving DecidableEq, Repr

/-- Whether a call is a `CreateOrUpdate`. -/
def ObjectCall.isCreateOrUpdate : ObjectCall → Bool
  | .createOrUpdateDeployment _ _ => true
  | .createOrUpdateDaemonSet _ _ => true
  | _ => false

/-- The error of a `Get` result, for the trace. -/
def getError {α : Type} : Except ClientError α → Option ClientError
  | .error err => some err
  | .ok _ => none

/-- `updateDeployment` of mcagent.go; returns the world after the call and the
calls made on the local cluster, in order. -/
def updateDeployment (k : Constants) (l : LoggingConstants) (c : LocalObjects W)
    (name : String) (w : W) : W × List ObjectCall :=
  let g := c.GetDeployment k.VerrazzanoSystemNamespace name w
  let t1 := [ObjectCall.getDeployment k.VerrazzanoSystemNamespace name (getError g.1)]
  match g.1 with
  | .error _ => (g.2, t1)
  | .ok deployment =>
    if deployment.Containers.length < 1 then (g.2, t1)
    else
      let r := c.GetRegistrationSecret k.VerrazzanoSystemNamespace l.MCRegistrationSecret g.2
      let t2 := t1 ++ [ObjectCall.getRegistrationSecret k.VerrazzanoSystemNamespace
                          l.MCRegistrationSecret (getError r.1)]
      let version : Option String :=
        match r.1 with
        | .error regErr =>
          match IgnoreNotFoundWithLog regErr with
          | some _ => none
          | none => some ""
        | .ok regSecret => some regSecret.ResourceVersion
      match version with
      | none => (r.2, t2)
      | some secretVersion =>
        let secretVersionEnv := getEnvValue deployment.Containers registrationSecretVersion
        if secretVersionEnv ≠ secretVersion then
          (c.CreateOrUpdateDeployment deployment (mutateDeployment secretVersion) r.2,
           t2 ++ [ObjectCall.createOrUpdateDeployment deployment secretVersion])
        else (r.2, t2)

/-- `configureLogging` of mcagent.go; returns the world after the call and the
calls made on the local cluster, in order. When the registration secret is not
found the zero secret is used. -/
def configureLogging (k : Constants) (l : LoggingConstants) (c : LocalObjects W)
    (w : W) : W × List ObjectCall :=
  let g := c.GetDaemonSet k.VerrazzanoSystemNamespace "fluentd" w
  let t1 := [ObjectCall.getDaemonSet k.VerrazzanoSystemNamespace "fluentd" (getError g.1)]
  match g.1 with
  | .error _ => (g.2, t1)
  | .ok daemonSet =>
    let r := c.GetRegistrationSecret k.VerrazzanoSystemNamespace l.MCRegistrationSecret g.2
    let t2 := t1 ++ [ObjectCall.getRegistrationSecret k.VerrazzanoSystemNamespace
                        l.MCRegistrationSecret (getError r.1)]
    let secret : Option Secret :=
      match r.1 with
      | .error regErr =>
        match IgnoreNotFoundWithLog regErr with
        | some _ => none
        | none => some { Name := "", Namespace := "", ResourceVersion := "", Data := none }
      | .ok regSecret => some regSecret
    match secret with
    | none => (r.2, t2)
    | some regSecret =>
      (c.CreateOrUpdateDaemonSet daemonSet
          (updateLoggingDaemonSet k l l.MCRegistrationSecret regSecret) r.2,
       t2 ++ [ObjectCall.createOrUpdateDaemonSet daemonSet regSecret])

/-- The four variable names rewritten by `updateEnv` differ from the two names
written by `updateEnvValue`. -/
def FluentdNamesApart (l : LoggingConstants) : Prop :=
  ∀ n ∈ [l.FluentdClusterNameEnvVar, l.FluentdElasticsearchURLEnvVar,
         l.FluentdElasticsearchUserEnvVar, l.FluentdElasticsearchPwdEnvVar],
    n ≠ caFile ∧ n ≠ registrationSecretVersion

instance (l : LoggingConstants) : Decidable (FluentdNamesApart l) := by
  unfold FluentdNamesApart; infer_instance

/-- Sample names for the deployment and logging updates. -/
def sampleLogging : LoggingConstants :=
  { MCRegistrationSecret := "verrazzano-cluster-registration"
    CaBundleKey := "ca-bundle"
    CaFileOverride := "/fluentd/secret/ca-bundle"
    CaFileDefault := "/etc/ssl/certs/ca-bundle.crt"
    DefaultClusterName := "local"
    ElasticsearchURLData := "es-url"
    ElasticsearchUsernameData := "username"
    ElasticsearchPasswordData := "password"
    FluentdClusterNameEnvVar := "CLUSTER_NAME"
    FluentdElasticsearchURLEnvVar := "ELASTICSEARCH_URL"
    FluentdElasticsearchUserEnvVar := "ELASTICSEARCH_USER"
    FluentdElasticsearchPwdEnvVar := "ELASTICSEARCH_PASSWORD" }

/-- A registration secret with a CA bundle. -/
def registrationSecret (rv : String) : Secret :=
  { Name := "verrazzano-cluster-registration", Namespace := "verrazzano-system",
    ResourceVersion := rv,
    Data := some [("managed-cluster-name", "managed1"), ("es-url", "https://es.example.com"),
                  ("ca-bundle", "CERT")] }

/-- A fluentd DaemonSet with a sidecar container. -/
def sampleDaemonSet : DaemonSet :=
  { Volumes := [⟨"secret-volume", ⟨some ⟨"verrazzano", ""⟩, ""⟩⟩, ⟨"varlog", ⟨none, "hostPath"⟩⟩],
    Containers :=
      [ { Name := "fluentd",
          Env := [⟨"CLUSTER_NAME", "local", none⟩, ⟨"ELASTICSEARCH_USER", "", none⟩,
                  ⟨"CA_FILE", "old", none⟩],
          others := "image" },
        { Name := "sidecar", Env := [⟨"CA_FILE", "keep", none⟩], others := "" } ] }

/-- A deployment with two containers. -/
def sampleDeployment : Deployment :=
  { Containers :=
      [ { Name := "operator", Env := [⟨"A", "1", none⟩], others := "" },
        { Name := "second", Env := [⟨"REGISTRATION_SECRET_VERSION", "old", none⟩], others := "" } ] }

/-- A local cluster over the unit world that serves the given deployment and
registration secret version. -/
def deploymentCluster (deployment : Deployment) (rv : String) : LocalObjects Unit :=
  { GetDeployment := fun _ _ w => (.ok deployment, w)
    GetDaemonSet := fun _ _ w => (.ok sampleDaemonSet, w)
    GetRegistrationSecret := fun _ _ w => (.ok (registrationSecret rv), w)
    CreateOrUpdateDeployment := fun _ _ w => w
    CreateOrUpdateDaemonSet := fun _ _ w => w }

/-- The result of reading the registration secret gives `updateDeployment` the
secret version `v`: the secret was read and has that ResourceVersion, or it was
not found and `v` is the empty text (lines 246-252). -/
def ReadsVersion (r : Except ClientError Secret) (v : String) : Prop :=
  match r with
  | .ok regSecret => regSecret.ResourceVersion = v
  | .error regErr => regErr.notFound = true ∧ v = ""

instance (r : Except ClientError Secret) (v : String) : Decidable (ReadsVersion r v) := by
  cases r <;> (unfold ReadsVersion; infer_instance)

/-- A local cluster whose state is the stored deployment: reads return it, the
registration secret has the given version, and `CreateOrUpdateDeployment`
stores what the mutate function returns on the stored deployment. -/
def storedCluster (rv : String) : LocalObjects Deployment :=
  { GetDeployment := fun _ _ w => (.ok w, w)
    GetDaemonSet := fun _ _ w => (.ok sampleDaemonSet, w)
    GetRegistrationSecret := fun _ _ w => (.ok (registrationSecret rv), w)
    CreateOrUpdateDeployment := fun _ mutate w =>
      match mutate w with
      | .returned written => written
      | .panicked => w
    CreateOrUpdateDaemonSet := fun _ _ w => w }

/-- A cluster over the unit world that serves the given ingress for every
ingress name; the other calls succeed with empty results. -/
def ingressCluster (ingress : Ingress) : Cluster Unit Unit :=
  { sampleCluster (.ok (validSecret "1")) none with
    GetIngress := fun _ _ w => (.ok ingress, w) }

end mcagent

namespace thanos

/-! ## The component built by `NewComponent` -/

/-- What `NewComponent` and `isThanosReady` take from other packages, as
parameters: `constants.VerrazzanoMonitoringNamespace`, the directories returned
by `config.GetThirdPartyDir` and `config.GetHelmOverridesDir`, the component
names of `networkpolicies` and `nginx`, `filepath.Join` on two elements, and
`ready.DeploymentsAreReady` (names, expected replicas, log prefix) over the
cluster state `W`. -/
structure Platform (W : Type) where
  VerrazzanoMonitoringNamespace : String
  GetThirdPartyDir : String
  GetHelmOverridesDir : String
  networkpoliciesComponentName : String
  nginxComponentName : String
  Join : String → String → String
  DeploymentsAreReady : List NamespacedName → Int → String → W → Bool

variable {W : Type}

/-- The constant `ComponentName` of thanos_component.go. -/
def ComponentName : String := "thanos"

/-- The constant `ComponentNamespace` of thanos_component.go. -/
def ComponentNamespace (p : Platform W) : String := p.VerrazzanoMonitoringNamespace

/-- The constant `ComponentJSONName` of thanos_component.go. -/
def ComponentJSONName : String := "thanos"

/-- The constant `queryDeployment` of thanos_component.go. -/
def queryDeployment : String := "thanos-query"

/-- The constant `frontendDeployment` of thanos_component.go. -/
def frontendDeployment : String := "thanos-query"

/-- A `ready.AvailabilityObjects`, the field set by `NewComponent`. -/
structure AvailabilityObjects where
  DeploymentNames : List NamespacedName
  deriving DecidableEq, Repr

/-- A `helm.HelmComponent`, the fields set by `NewComponent` apart from the two
function-valued ones (`AppendOverridesFunc`, `GetInstallOverridesFunc`);
`AvailabilityObjects` is a pointer. -/
structure HelmComponent where
  ReleaseName : String
  JSONName : String
  ChartDir : String
  ChartNamespace : String
  IgnoreNamespaceOverride : Bool
  SupportsOperatorInstall : Bool
  SupportsOperatorUninstall : Bool
  ImagePullSecretKeyname : String
  ValuesFile : String
  Dependencies : List String
  AvailabilityObjects : Option AvailabilityObjects
  deriving DecidableEq, Repr

/-- `NewComponent` of thanos_component.go. -/
def NewComponent (p : Platform W) : HelmComponent :=
  { ReleaseName := ComponentName
    JSONName := ComponentJSONName
    ChartDir := p.Join p.GetThirdPartyDir ComponentName
    ChartNamespace := ComponentNamespace p
    IgnoreNamespaceOverride := true
    SupportsOperatorInstall := true
    SupportsOperatorUninstall := true
    ImagePullSecretKeyname := "image.pullSecrets[0]"
    ValuesFile := p.Join p.GetHelmOverridesDir "thanos-values.yaml"
    Dependencies := [p.networkpoliciesComponentName, p.nginxComponentName]
    AvailabilityObjects := some
      { DeploymentNames :=
          [ { Name := frontendDeployment, Namespace := ComponentNamespace p },
            { Name := queryDeployment, Namespace := ComponentNamespace p } ] } }

/-- `isThanosReady` of thanos_component.go; `component` is
`ctx.GetComponent()` and `w` the cluster behind `ctx.Client()`. The result is
`none` when the `AvailabilityObjects` pointer is nil (a nil dereference). -/
def isThanosReady (p : Platform W) (t : HelmComponent) (component : String) (w : W) :
    Option Bool :=
  let logPrefix := "Component " ++ component
  match t.AvailabilityObjects with
  | none => none
  | some objects => some (p.DeploymentsAreReady objects.DeploymentNames 1 logPrefix w)

/-- A platform whose cluster state is the list of ready deployments; a list of
names is ready when each of them is in the state. -/
def samplePlatform : Platform (List NamespacedName) :=
  { VerrazzanoMonitoringNamespace := "verrazzano-monitoring"
    GetThirdPartyDir := "/verrazzano/thirdparty/charts"
    GetHelmOverridesDir := "/verrazzano/helm_config/overrides"
    networkpoliciesComponentName := "verrazzano-network-policies"
    nginxComponentName := "ingress-controller"
    Join := fun dir file => dir ++ "/" ++ file
    DeploymentsAreReady := fun names _ _ w => names.all (fun n => decide (n ∈ w)) }

end thanos

namespace verrazzano

variable {W Ctx : Type}

/-! ## The loop body, path by path -/

/-- The six ways through the loop body: each gives the calls made, the
resource afterwards and what, if anything, was returned. -/
theorem upgradeComponent_cases (r : Reconciler W Ctx) (ctx : Ctx) (i : Nat)
    (comp : Component W Ctx) (cr : Verrazzano) (w : W) :
    (∃ b e q, (upgradeComponent r ctx i comp cr w).trace
          = [.isInstalled i b (some e), .newRequeueWithDelay] ∧
        (upgradeComponent r ctx i comp cr w).cr = cr ∧
        (upgradeComponent r ctx i comp cr w).ret = some (q, some e)) ∨
    ((upgradeComponent r ctx i comp cr w).trace = [.isInstalled i false none] ∧
        (upgradeComponent r ctx i comp cr w).cr = cr ∧
        (upgradeComponent r ctx i comp cr w).ret = none) ∨
    (∃ e, (upgradeComponent r ctx i comp cr w).trace
          = [.isInstalled i true none, .preUpgrade i (some e)] ∧
        (upgradeComponent r ctx i comp cr w).cr = cr ∧
        (upgradeComponent r ctx i comp cr w).ret = some (Result.empty, some e)) ∨
    (∃ e w3, (upgradeComponent r ctx i comp cr w).trace
          = [.isInstalled i true none, .preUpgrade i none, .upgrade i (some e),
              .updateStatus (failedMessage comp.Name cr.Generation e) ConditionType.UpgradeFailed
                (r.updateStatus cr (failedMessage comp.Name cr.Generation e)
                  ConditionType.UpgradeFailed w3).err] ∧
        (upgradeComponent r ctx i comp cr w).cr
          = (r.updateStatus cr (failedMessage comp.Name cr.Generation e)
              ConditionType.UpgradeFailed w3).cr ∧
        (upgradeComponent r ctx i comp cr w).ret
          = some (Result.empty, (r.updateStatus cr (failedMessage comp.Name cr.Generation e)
              ConditionType.UpgradeFailed w3).err)) ∨
    (∃ e, (upgradeComponent r ctx i comp cr w).trace
          = [.isInstalled i true none, .preUpgrade i none, .upgrade i none,
              .postUpgrade i (some e)] ∧
        (upgradeComponent r ctx i comp cr w).cr = cr ∧
        (upgradeComponent r ctx i comp cr w).ret = some (Result.empty, some e)) ∨
    ((upgradeComponent r ctx i comp cr w).trace
          = [.isInstalled i true none, .preUpgrade i none, .upgrade i none,
              .postUpgrade i none] ∧
        (upgradeComponent r ctx i comp cr w).cr = cr ∧
        (upgradeComponent r ctx i comp cr w).ret = none) := by
  unfold upgradeComponent
  simp only []
  split
  · exact Or.inl ⟨_, _, _, rfl, rfl, rfl⟩
  · exact Or.inr (Or.inl ⟨rfl, rfl, rfl⟩)
  · split
    · exact Or.inr (Or.inr (Or.inl ⟨_, rfl, rfl, rfl⟩))
    · split
      · exact Or.inr (Or.inr (Or.inr (Or.inl ⟨_, _, rfl, rfl, rfl⟩)))
      · split
        · exact Or.inr (Or.inr (Or.inr (Or.inr (Or.inl ⟨_, rfl, rfl, rfl⟩))))
        · exact Or.inr (Or.inr (Or.inr (Or.inr (Or.inr ⟨rfl, rfl, rfl⟩))))

/-- An iteration that does not return leaves the resource alone, and its
calls are calls on component `i` that returned no error. -/
theorem upgradeComponent_continue (r : Reconciler W Ctx) (ctx : Ctx) (i : Nat)
    (comp : Component W Ctx) (cr : Verrazzano) (w : W)
    (h : (upgradeComponent r ctx i comp cr w).ret = none) :
    (upgradeComponent r ctx i comp cr w).cr = cr ∧
    ((upgradeComponent r ctx i comp cr w).trace = [.isInstalled i false none] ∨
      (upgradeComponent r ctx i comp cr w).trace
        = [.isInstalled i true none, .preUpgrade i none, .upgrade i none,
            .postUpgrade i none]) := by
  rcases upgradeComponent_cases r ctx i comp cr w with
    ⟨_, _, _, _, _, h3⟩ | ⟨h1, h2, _⟩ | ⟨_, _, _, h3⟩ | ⟨_, _, _, _, h3⟩ | ⟨_, _, _, h3⟩ |
    ⟨h1, h2, _⟩
  · rw [h] at h3; cases h3
  · exact ⟨h2, Or.inl h1⟩
  · rw [h] at h3; cases h3
  · rw [h] at h3; cases h3
  · rw [h] at h3; cases h3
  · exact ⟨h2, Or.inr h1⟩

/-- Every call of an iteration is on component `i` or on no component. -/
theorem upgradeComponent_component (r : Reconciler W Ctx) (ctx : Ctx) (i : Nat)
    (comp : Component W Ctx) (cr : Verrazzano) (w : W) (ev : Call)
    (hev : ev ∈ (upgradeComponent r ctx i comp cr w).trace) (j : Nat)
    (hj : ev.component = some j) : j = i := by
  rcases upgradeComponent_cases r ctx i comp cr w with
    ⟨_, _, _, h1, _, _⟩ | ⟨h1, _, _⟩ | ⟨_, h1, _, _⟩ | ⟨_, _, h1, _, _⟩ | ⟨_, h1, _, _⟩ |
    ⟨h1, _, _⟩ <;>
  · rw [h1] at hev
    simp only [List.mem_cons, List.mem_singleton, List.not_mem_nil, or_false] at hev
    rcases hev with rfl | rfl | rfl | rfl <;> simp_all [Call.component]

/-- Every iteration starts by asking the component whether it is installed. -/
theorem upgradeComponent_head (r : Reconciler W Ctx) (ctx : Ctx) (i : Nat)
    (comp : Component W Ctx) (cr : Verrazzano) (w : W) :
    ∃ b e tl, (upgradeComponent r ctx i comp cr w).trace = .isInstalled i b e :: tl := by
  rcases upgradeComponent_cases r ctx i comp cr w with
    ⟨_, _, _, h1, _, _⟩ | ⟨h1, _, _⟩ | ⟨_, h1, _, _⟩ | ⟨_, _, h1, _, _⟩ | ⟨_, h1, _, _⟩ |
    ⟨h1, _, _⟩ <;>
  exact ⟨_, _, _, h1⟩

/-! ## The loop over the registry -/

theorem upgradeComponents_nil (r : Reconciler W Ctx) (ctx : Ctx) (i : Nat)
    (cr : Verrazzano) (w : W) :
    upgradeComponents r ctx i [] cr w = ⟨none, cr, w, []⟩ := rfl

/-- The loop when the first iteration returns. -/
theorem upgradeComponents_cons_return (r : Reconciler W Ctx) (ctx : Ctx) (i : Nat)
    (comp : Component W Ctx) (rest : List (Component W Ctx)) (cr : Verrazzano) (w : W)
    (ret : Result × Option Error)
    (h : (upgradeComponent r ctx i comp cr w).ret = some ret) :
    upgradeComponents r ctx i (comp :: rest) cr w
      = ⟨some ret, (upgradeComponent r ctx i comp cr w).cr,
          (upgradeComponent r ctx i comp cr w).world,
          (upgradeComponent r ctx i comp cr w).trace⟩ := by
  simp only [upgradeComponents, h]

/-- The loop when the first iteration goes on to the next component. -/
theorem upgradeComponents_cons_continue (r : Reconciler W Ctx) (ctx : Ctx) (i : Nat)
    (comp : Component W Ctx) (rest : List (Component W Ctx)) (cr : Verrazzano) (w : W)
    (h : (upgradeComponent r ctx i comp cr w).ret = none) :
    upgradeComponents r ctx i (comp :: rest) cr w
      = ⟨(upgradeComponents r ctx (i + 1) rest cr
            (upgradeComponent r ctx i comp cr w).world).ret,
          (upgradeComponents r ctx (i + 1) rest cr
            (upgradeComponent r ctx i comp cr w).world).cr,
          (upgradeComponents r ctx (i + 1) rest cr
            (upgradeComponent r ctx i comp cr w).world).world,
          (upgradeComponent r ctx i comp cr w).trace ++
            (upgradeComponents r ctx (i + 1) rest cr
              (upgradeComponent r ctx i comp cr w).world).trace⟩ := by
  simp only [upgradeComponents, h, (upgradeComponent_continue r ctx i comp cr w h).1]

/-- The calls of the loop from index `i` over `cs` are on components with
index in `[i, i + cs.length)`. -/
theorem upgradeComponents_component (r : Reconciler W Ctx) (ctx : Ctx)
    (cs : List (Component W Ctx)) :
    ∀ (i : Nat) (cr : Verrazzano) (w : W) (ev : Call),
      ev ∈ (upgradeComponents r ctx i cs cr w).trace →
      ∀ j, ev.component = some j → i ≤ j ∧ j < i + cs.length := by
  induction cs with
  | nil => intro i cr w ev hev; simp [upgradeComponents_nil] at hev
  | cons c rest ih =>
    intro i cr w ev hev j hj
    cases h : (upgradeComponent r ctx i c cr w).ret with
    | some ret =>
      rw [upgradeComponents_cons_return r ctx i c rest cr w ret h] at hev
      have := upgradeComponent_component r ctx i c cr w ev hev j hj
      simp only [List.length_cons]; omega
    | none =>
      rw [upgradeComponents_cons_continue r ctx i c rest cr w h] at hev
      rcases List.mem_append.1 hev with h1 | h1
      · have := upgradeComponent_component r ctx i c cr w ev h1 j hj
        simp only [List.length_cons]; omega
      · have := ih (i + 1) cr _ ev h1 j hj
        simp only [List.length_cons]; omega

/-- A loop that runs to its end leaves the resource alone and made only
component calls that returned no error. -/
theorem upgradeComponents_complete (r : Reconciler W Ctx) (ctx : Ctx)
    (cs : List (Component W Ctx)) :
    ∀ (i : Nat) (cr : Verrazzano) (w : W),
      (upgradeComponents r ctx i cs cr w).ret = none →
      (upgradeComponents r ctx i cs cr w).cr = cr ∧
      ∀ ev ∈ (upgradeComponents r ctx i cs cr w).trace,
        ev.failed = false ∧ ev.isUpdateStatus = false := by
  induction cs with
  | nil => intro i cr w _; simp [upgradeComponents_nil]
  | cons c rest ih =>
    intro i cr w hret
    cases h : (upgradeComponent r ctx i c cr w).ret with
    | some ret =>
      rw [upgradeComponents_cons_return r ctx i c rest cr w ret h] at hret
      cases hret
    | none =>
      rw [upgradeComponents_cons_continue r ctx i c rest cr w h] at hret ⊢
      obtain ⟨h1, h2⟩ := ih (i + 1) cr _ hret
      refine ⟨h1, ?_⟩
      intro ev hev
      rcases List.mem_append.1 hev with h3 | h3
      · rcases (upgradeComponent_continue r ctx i c cr w h).2 with h4 | h4 <;>
        · rw [h4] at h3
          simp only [List.mem_cons, List.mem_singleton, List.not_mem_nil, or_false] at h3
          rcases h3 with rfl | rfl | rfl | rfl <;> simp [Call.failed, Call.isUpdateStatus]
      · exact h2 ev h3

/-- A loop that returns does so in the iteration of one component `c`, after
the loop over the components before `c` ran to its end. -/
theorem upgradeComponents_return (r : Reconciler W Ctx) (ctx : Ctx)
    (cs : List (Component W Ctx)) :
    ∀ (i : Nat) (cr : Verrazzano) (w : W) (ret : Result × Option Error),
      (upgradeComponents r ctx i cs cr w).ret = some ret →
      ∃ pre c post, cs = pre ++ c :: post ∧
        (upgradeComponents r ctx i pre cr w).ret = none ∧
        (upgradeComponent r ctx (i + pre.length) c cr
          (upgradeComponents r ctx i pre cr w).world).ret = some ret ∧
        (upgradeComponents r ctx i cs cr w).trace
          = (upgradeComponents r ctx i pre cr w).trace ++
            (upgradeComponent r ctx (i + pre.length) c cr
              (upgradeComponents r ctx i pre cr w).world).trace ∧
        (upgradeComponents r ctx i cs cr w).cr
          = (upgradeComponent r ctx (i + pre.length) c cr
              (upgradeComponents r ctx i pre cr w).world).cr ∧
        (upgradeComponents r ctx i cs cr w).world
          = (upgradeComponent r ctx (i + pre.length) c cr
              (upgradeComponents r ctx i pre cr w).world).world := by
  induction cs with
  | nil => intro i cr w ret h; simp [upgradeComponents_nil] at h
  | cons c rest ih =>
    intro i cr w ret hret
    cases h : (upgradeComponent r ctx i c cr w).ret with
    | some ret2 =>
      rw [upgradeComponents_cons_return r ctx i c rest cr w ret2 h] at hret ⊢
      simp only [Option.some.injEq] at hret
      subst hret
      exact ⟨[], c, rest, rfl, rfl, by simpa [upgradeComponents_nil] using h,
        by simp [upgradeComponents_nil], by simp [upgradeComponents_nil],
        by simp [upgradeComponents_nil]⟩
    | none =>
      rw [upgradeComponents_cons_continue r ctx i c rest cr w h] at hret ⊢
      obtain ⟨pre, d, post, h1, h2, h3, h4, h5, h6⟩ := ih (i + 1) cr _ ret hret
      refine ⟨c :: pre, d, post, by rw [h1]; rfl, ?_, ?_, ?_, ?_, ?_⟩ <;>
        rw [upgradeComponents_cons_continue r ctx i c pre cr w h] <;>
        simp only [List.length_cons, List.append_assoc] <;>
        try rw [show i + (pre.length + 1) = i + 1 + pre.length by omega]
      · exact h2
      · exact h3
      · rw [h4]
      · exact h5
      · exact h6

/-! ## `isLastCondition` and the paths of `reconcileUpgrade` -/

/-- `isLastCondition` holds exactly when the log has a last entry and that
entry has the given type. -/
theorem isLastCondition_iff (st : VerrazzanoStatus) (t : ConditionType) :
    isLastCondition st t = true ↔ ∃ c, st.Conditions.getLast? = some c ∧ c.Type' = t := by
  unfold isLastCondition
  simp only [List.getLast?_eq_getElem?, List.get?_eq_getElem?]
  by_cases h : st.Conditions.length = 0
  · have : st.Conditions = [] := List.length_eq_zero.1 h
    simp [this]
  · simp only [h, if_false]
    cases h2 : st.Conditions[st.Conditions.length - 1]? with
    | none => simp
    | some c => simp

/-- The log after appending one entry ends with that entry. -/
theorem isLastCondition_append (st : VerrazzanoStatus) (cs : List Condition) (c : Condition)
    (t : ConditionType) (h : st.Conditions = cs ++ [c]) :
    isLastCondition st t = decide (c.Type' = t) := by
  by_cases hc : c.Type' = t
  · rw [decide_eq_true hc, isLastCondition_iff]
    exact ⟨c, by rw [h]; simp, hc⟩
  · rw [decide_eq_false hc]
    cases hl : isLastCondition st t with
    | false => rfl
    | true =>
      obtain ⟨d, h1, h2⟩ := (isLastCondition_iff st t).1 hl
      rw [h] at h1
      simp at h1
      exact absurd (h1 ▸ h2) hc

/-- The first pass: the last condition is not UpgradeStarted. -/
theorem reconcileUpgrade_first (r : Reconciler W Ctx) (cr : Verrazzano) (w : W)
    (h : isLastCondition cr.Status ConditionType.UpgradeStarted = false) :
    reconcileUpgrade r cr w
      = ⟨⟨true, 1⟩,
          (r.updateStatus cr (startedMessage cr) ConditionType.UpgradeStarted w).err,
          (r.updateStatus cr (startedMessage cr) ConditionType.UpgradeStarted w).cr,
          (r.updateStatus cr (startedMessage cr) ConditionType.UpgradeStarted w).world,
          [.updateStatus (startedMessage cr) ConditionType.UpgradeStarted
            (r.updateStatus cr (startedMessage cr) ConditionType.UpgradeStarted w).err]⟩ := by
  simp [reconcileUpgrade, h]

/-- A pass in the UpgradeStarted state in which `spi.NewContext` fails. -/
theorem reconcileUpgrade_context_error (r : Reconciler W Ctx) (cr : Verrazzano) (w w1 : W)
    (e : Error) (h : isLastCondition cr.Status ConditionType.UpgradeStarted = true)
    (hc : r.NewContext cr r.DryRun w = (.error e, w1)) :
    reconcileUpgrade r cr w
      = ⟨(r.newRequeueWithDelay w1).1, some e, cr, (r.newRequeueWithDelay w1).2,
          [.newContext (some e), .newRequeueWithDelay]⟩ := by
  simp [reconcileUpgrade, h, hc]

/-- A pass in the UpgradeStarted state in which the loop returns. -/
theorem reconcileUpgrade_loop_return (r : Reconciler W Ctx) (cr : Verrazzano) (w w1 : W)
    (ctx : Ctx) (ret : Result × Option Error)
    (h : isLastCondition cr.Status ConditionType.UpgradeStarted = true)
    (hc : r.NewContext cr r.DryRun w = (.ok ctx, w1))
    (hl : (upgradeComponents r ctx 0 r.GetComponents cr w1).ret = some ret) :
    reconcileUpgrade r cr w
      = ⟨ret.1, ret.2, (upgradeComponents r ctx 0 r.GetComponents cr w1).cr,
          (upgradeComponents r ctx 0 r.GetComponents cr w1).world,
          .newContext none :: (upgradeComponents r ctx 0 r.GetComponents cr w1).trace⟩ := by
  simp [reconcileUpgrade, h, hc, hl]

/-- A pass in the UpgradeStarted state in which the loop runs to its end and
the last `updateStatus` fails. -/
theorem reconcileUpgrade_complete_error (r : Reconciler W Ctx) (cr : Verrazzano) (w w1 : W)
    (ctx : Ctx) (e : Error)
    (h : isLastCondition cr.Status ConditionType.UpgradeStarted = true)
    (hc : r.NewContext cr r.DryRun w = (.ok ctx, w1))
    (hl : (upgradeComponents r ctx 0 r.GetComponents cr w1).ret = none)
    (hu : (r.updateStatus (setStatusVersion cr cr.Spec.Version) (completeMessage cr)
            ConditionType.UpgradeComplete
            (upgradeComponents r ctx 0 r.GetComponents cr w1).world).err = some e) :
    reconcileUpgrade r cr w
      = ⟨(r.newRequeueWithDelay (r.updateStatus (setStatusVersion cr cr.Spec.Version) (completeMessage cr)
            ConditionType.UpgradeComplete
            (upgradeComponents r ctx 0 r.GetComponents cr w1).world).world).1,
          some e,
          (r.updateStatus (setStatusVersion cr cr.Spec.Version) (completeMessage cr)
            ConditionType.UpgradeComplete
            (upgradeComponents r ctx 0 r.GetComponents cr w1).world).cr,
          (r.newRequeueWithDelay (r.updateStatus (setStatusVersion cr cr.Spec.Version) (completeMessage cr)
            ConditionType.UpgradeComplete
            (upgradeComponents r ctx 0 r.GetComponents cr w1).world).world).2,
          .newContext none :: (upgradeComponents r ctx 0 r.GetComponents cr w1).trace ++
            [.updateStatus (completeMessage cr) ConditionType.UpgradeComplete (some e),
              .newRequeueWithDelay]⟩ := by
  have hcr := (upgradeComponents_complete r ctx r.GetComponents 0 cr w1 hl).1
  simp [reconcileUpgrade, h, hc, hl, hcr, postUpgrade, hu]

/-- A pass in the UpgradeStarted state in which the loop runs to its end and
the last `updateStatus` succeeds. -/
theorem reconcileUpgrade_complete_ok (r : Reconciler W Ctx) (cr : Verrazzano) (w w1 : W)
    (ctx : Ctx)
    (h : isLastCondition cr.Status ConditionType.UpgradeStarted = true)
    (hc : r.NewContext cr r.DryRun w = (.ok ctx, w1))
    (hl : (upgradeComponents r ctx 0 r.GetComponents cr w1).ret = none)
    (hu : (r.updateStatus (setStatusVersion cr cr.Spec.Version) (completeMessage cr)
            ConditionType.UpgradeComplete
            (upgradeComponents r ctx 0 r.GetComponents cr w1).world).err = none) :
    reconcileUpgrade r cr w
      = ⟨Result.empty, none,
          (r.updateStatus (setStatusVersion cr cr.Spec.Version) (completeMessage cr)
            ConditionType.UpgradeComplete
            (upgradeComponents r ctx 0 r.GetComponents cr w1).world).cr,
          (r.updateStatus (setStatusVersion cr cr.Spec.Version) (completeMessage cr)
            ConditionType.UpgradeComplete
            (upgradeComponents r ctx 0 r.GetComponents cr w1).world).world,
          .newContext none :: (upgradeComponents r ctx 0 r.GetComponents cr w1).trace ++
            [.updateStatus (completeMessage cr) ConditionType.UpgradeComplete none]⟩ := by
  have hcr := (upgradeComponents_complete r ctx r.GetComponents 0 cr w1 hl).1
  simp [reconcileUpgrade, h, hc, hl, hcr, postUpgrade, hu]

/-- A loop over a non-empty list starts by asking its first component
whether it is installed. -/
theorem upgradeComponents_head (r : Reconciler W Ctx) (ctx : Ctx) (i : Nat)
    (c : Component W Ctx) (rest : List (Component W Ctx)) (cr : Verrazzano) (w : W) :
    ∃ b e tl, (upgradeComponents r ctx i (c :: rest) cr w).trace = .isInstalled i b e :: tl := by
  obtain ⟨b, e, tl, h1⟩ := upgradeComponent_head r ctx i c cr w
  cases h : (upgradeComponent r ctx i c cr w).ret with
  | some ret =>
    rw [upgradeComponents_cons_return r ctx i c rest cr w ret h]
    exact ⟨b, e, tl, h1⟩
  | none =>
    rw [upgradeComponents_cons_continue r ctx i c rest cr w h]
    exact ⟨b, e, tl ++ (upgradeComponents r ctx (i + 1) rest cr
      (upgradeComponent r ctx i c cr w).world).trace, by simp [h1]⟩

/-- In the loop, a component that answers `(false, nil)` to IsInstalled gets
no other call, and the loop goes on by asking the next component. -/
theorem upgradeComponents_skip (r : Reconciler W Ctx) (ctx : Ctx)
    (cs : List (Component W Ctx)) :
    ∀ (i : Nat) (cr : Verrazzano) (w : W) (k : Nat),
      Call.isInstalled k false none ∈ (upgradeComponents r ctx i cs cr w).trace →
      (∀ ev ∈ (upgradeComponents r ctx i cs cr w).trace,
        ev.component = some k → ev = .isInstalled k false none) ∧
      (k + 1 < i + cs.length → ∃ b e,
        [Call.isInstalled k false none, Call.isInstalled (k + 1) b e]
          <:+: (upgradeComponents r ctx i cs cr w).trace) := by
  induction cs with
  | nil => intro i cr w k hk; simp [upgradeComponents_nil] at hk
  | cons c rest ih =>
    intro i cr w k hk
    cases h : (upgradeComponent r ctx i c cr w).ret with
    | some ret =>
      rw [upgradeComponents_cons_return r ctx i c rest cr w ret h] at hk
      exfalso
      rcases upgradeComponent_cases r ctx i c cr w with
        ⟨_, _, _, h1, _, _⟩ | ⟨_, _, h3⟩ | ⟨_, h1, _, _⟩ | ⟨_, _, h1, _, _⟩ | ⟨_, h1, _, _⟩ |
        ⟨_, _, h3⟩
      · rw [h1] at hk; simp at hk
      · rw [h] at h3; cases h3
      · rw [h1] at hk; simp at hk
      · rw [h1] at hk; simp at hk
      · rw [h1] at hk; simp at hk
      · rw [h] at h3; cases h3
    | none =>
      rw [upgradeComponents_cons_continue r ctx i c rest cr w h] at hk ⊢
      simp only [List.length_cons]
      have hrest := upgradeComponents_component r ctx rest (i + 1) cr
        (upgradeComponent r ctx i c cr w).world
      have hbody := upgradeComponent_component r ctx i c cr w
      have key : (k = i ∧ (upgradeComponent r ctx i c cr w).trace = [.isInstalled i false none]) ∨
          Call.isInstalled k false none ∈ (upgradeComponents r ctx (i + 1) rest cr
            (upgradeComponent r ctx i c cr w).world).trace := by
        rcases List.mem_append.1 hk with h1 | h1
        · rcases (upgradeComponent_continue r ctx i c cr w h).2 with h4 | h4
          · rw [h4] at h1; simp at h1; exact Or.inl ⟨h1, h4⟩
          · rw [h4] at h1; simp at h1
        · exact Or.inr h1
      rcases key with ⟨rfl, h4⟩ | h1
      · constructor
        · intro ev hev hc
          rcases List.mem_append.1 hev with h5 | h5
          · rw [h4] at h5; simpa using h5
          · have := hrest ev h5 k hc; omega
        · intro hlen
          cases rest with
          | nil => simp at hlen
          | cons d rest2 =>
            obtain ⟨b, e, tl, h6⟩ := upgradeComponents_head r ctx (k + 1) d rest2 cr
              (upgradeComponent r ctx k c cr w).world
            exact ⟨b, e, [], tl, by rw [h4, h6]; simp⟩
      · have hk1 := hrest _ h1 k rfl
        obtain ⟨ih1, ih2⟩ := ih (i + 1) cr _ k h1
        constructor
        · intro ev hev hc
          rcases List.mem_append.1 hev with h5 | h5
          · have := hbody ev h5 k hc; omega
          · exact ih1 ev h5 hc
        · intro hlen
          obtain ⟨b, e, h7⟩ := ih2 (by omega)
          exact ⟨b, e, h7.trans (List.suffix_append _ _).isInfix⟩

/-- The calls of a pass: either none of them is on a component, or the pass
created the context, ran the loop over the registry and made, after the loop,
calls on no component; when the loop returned, the pass returned the same and
made no call after the loop. -/
theorem reconcileUpgrade_loop_view (r : Reconciler W Ctx) (cr : Verrazzano) (w : W) :
    (∀ ev ∈ (reconcileUpgrade r cr w).trace, ev.component = none) ∨
    ∃ ctx w1 tail,
      isLastCondition cr.Status ConditionType.UpgradeStarted = true ∧
      r.NewContext cr r.DryRun w = (.ok ctx, w1) ∧
      (reconcileUpgrade r cr w).trace
        = Call.newContext none :: (upgradeComponents r ctx 0 r.GetComponents cr w1).trace
            ++ tail ∧
      (∀ ev ∈ tail, ev.component = none) ∧
      (∀ ret, (upgradeComponents r ctx 0 r.GetComponents cr w1).ret = some ret →
        tail = [] ∧ (reconcileUpgrade r cr w).result = ret.1 ∧
        (reconcileUpgrade r cr w).err = ret.2 ∧
        (reconcileUpgrade r cr w).cr = (upgradeComponents r ctx 0 r.GetComponents cr w1).cr) := by
  cases h : isLastCondition cr.Status ConditionType.UpgradeStarted with
  | false =>
    left
    rw [reconcileUpgrade_first r cr w h]
    intro ev hev
    simp only [List.mem_singleton] at hev
    subst hev; rfl
  | true =>
    rcases hc : r.NewContext cr r.DryRun w with ⟨e | ctx, w1⟩
    · left
      rw [reconcileUpgrade_context_error r cr w w1 e h hc]
      intro ev hev
      simp only [List.mem_cons, List.mem_singleton, List.not_mem_nil, or_false] at hev
      rcases hev with rfl | rfl <;> rfl
    · right
      cases hl : (upgradeComponents r ctx 0 r.GetComponents cr w1).ret with
      | some ret =>
        refine ⟨ctx, w1, [], rfl, rfl, ?_, by simp, ?_⟩
        · rw [reconcileUpgrade_loop_return r cr w w1 ctx ret h hc hl]; simp
        · intro ret2 h2
          rw [hl] at h2
          cases h2
          rw [reconcileUpgrade_loop_return r cr w w1 ctx ret h hc hl]
          exact ⟨rfl, rfl, rfl, rfl⟩
      | none =>
        cases hu : (r.updateStatus (setStatusVersion cr cr.Spec.Version) (completeMessage cr)
            ConditionType.UpgradeComplete
            (upgradeComponents r ctx 0 r.GetComponents cr w1).world).err with
        | some e =>
          refine ⟨ctx, w1, [.updateStatus (completeMessage cr) ConditionType.UpgradeComplete
            (some e), .newRequeueWithDelay], rfl, rfl, ?_, ?_, ?_⟩
          · rw [reconcileUpgrade_complete_error r cr w w1 ctx e h hc hl hu]
          · intro ev hev
            simp only [List.mem_cons, List.mem_singleton, List.not_mem_nil, or_false] at hev
            rcases hev with rfl | rfl <;> rfl
          · intro ret2 h2; rw [hl] at h2; cases h2
        | none =>
          refine ⟨ctx, w1, [.updateStatus (completeMessage cr) ConditionType.UpgradeComplete
            none], rfl, rfl, ?_, ?_, ?_⟩
          · rw [reconcileUpgrade_complete_ok r cr w w1 ctx h hc hl hu]
          · intro ev hev
            simp only [List.mem_singleton] at hev
            subst hev; rfl
          · intro ret2 h2; rw [hl] at h2; cases h2

/-- A call on a component made in a pass is a call made in the loop of that
pass. -/
theorem reconcileUpgrade_component_call (r : Reconciler W Ctx) (cr : Verrazzano) (w : W)
    (ctx : Ctx) (w1 : W) (tail : List Call)
    (ht : (reconcileUpgrade r cr w).trace
        = Call.newContext none :: (upgradeComponents r ctx 0 r.GetComponents cr w1).trace
            ++ tail)
    (htail : ∀ ev ∈ tail, ev.component = none) (ev : Call)
    (hev : ev ∈ (reconcileUpgrade r cr w).trace) (k : Nat) (hk : ev.component = some k) :
    ev ∈ (upgradeComponents r ctx 0 r.GetComponents cr w1).trace := by
  rw [ht] at hev
  simp only [List.cons_append, List.mem_cons, List.mem_append] at hev
  rcases hev with rfl | h1 | h1
  · cases hk
  · exact h1
  · rw [htail ev h1] at hk; cases hk

/-! ## C1 -/

/-- C1: when the condition log is empty or its last condition is not
UpgradeStarted, `reconcileUpgrade` makes exactly one call, `updateStatus` with
condition type UpgradeStarted, returns `Requeue = true`, `RequeueAfter = 1`
and the error `updateStatus` returned, and calls no method of any registry
component. -/
theorem reconcileUpgrade_marks_started (r : Reconciler W Ctx) (cr : Verrazzano) (w : W)
    (h : cr.Status.Conditions = [] ∨
      ∃ c, cr.Status.Conditions.getLast? = some c ∧ c.Type' ≠ ConditionType.UpgradeStarted) :
    (reconcileUpgrade r cr w).trace
      = [.updateStatus (startedMessage cr) ConditionType.UpgradeStarted
          (r.updateStatus cr (startedMessage cr) ConditionType.UpgradeStarted w).err] ∧
    (reconcileUpgrade r cr w).result = ⟨true, 1⟩ ∧
    (reconcileUpgrade r cr w).err
      = (r.updateStatus cr (startedMessage cr) ConditionType.UpgradeStarted w).err ∧
    (∀ ev ∈ (reconcileUpgrade r cr w).trace, ev.component = none) := by
  have hl : isLastCondition cr.Status ConditionType.UpgradeStarted = false := by
    cases hl : isLastCondition cr.Status ConditionType.UpgradeStarted with
    | false => rfl
    | true =>
      obtain ⟨c, h1, h2⟩ := (isLastCondition_iff _ _).1 hl
      rcases h with h | ⟨d, h3, h4⟩
      · rw [h] at h1; cases h1
      · rw [h1] at h3; cases h3; exact absurd h2 h4
  rw [reconcileUpgrade_first r cr w hl]
  refine ⟨rfl, rfl, rfl, ?_⟩
  intro ev hev
  simp only [List.mem_singleton] at hev
  subst hev; rfl

/-- C1 on a resource whose last condition is UpgradeComplete, with a registry
of one installed component. -/
theorem reconcileUpgrade_marks_started_witness :
    (∃ c, (sampleCR "1.0.0" completeLog).Status.Conditions.getLast? = some c ∧
      c.Type' ≠ ConditionType.UpgradeStarted) ∧
    (reconcileUpgrade (constReconciler [constComponent "a" (true, none) none none none]
        none none) (sampleCR "1.0.0" completeLog) ()).result = ⟨true, 1⟩ :=
  ⟨⟨_, rfl, by decide⟩,
    (reconcileUpgrade_marks_started
      (constReconciler [constComponent "a" (true, none) none none none] none none)
      (sampleCR "1.0.0" completeLog) () (Or.inr ⟨_, rfl, by decide⟩)).2.1⟩

/-! ## C2 -/

/-- C2: in every pass, a component (at registry index `i`) whose IsInstalled
returns `(false, nil)` has none of PreUpgrade, Upgrade and PostUpgrade called
in that pass, and when it is not the last of the registry the very next call
of the pass is IsInstalled on the component at index `i + 1`. -/
theorem reconcileUpgrade_skips_not_installed (r : Reconciler W Ctx) (cr : Verrazzano) (w : W)
    (i : Nat) (h : Call.isInstalled i false none ∈ (reconcileUpgrade r cr w).trace) :
    (∀ e, Call.preUpgrade i e ∉ (reconcileUpgrade r cr w).trace ∧
      Call.upgrade i e ∉ (reconcileUpgrade r cr w).trace ∧
      Call.postUpgrade i e ∉ (reconcileUpgrade r cr w).trace) ∧
    (i + 1 < r.GetComponents.length → ∃ b e,
      [Call.isInstalled i false none, Call.isInstalled (i + 1) b e]
        <:+: (reconcileUpgrade r cr w).trace) := by
  rcases reconcileUpgrade_loop_view r cr w with hno | ⟨ctx, w1, tail, _, _, ht, htail, _⟩
  · have := hno _ h
    cases this
  · have hloop := reconcileUpgrade_component_call r cr w ctx w1 tail ht htail _ h i rfl
    obtain ⟨h1, h2⟩ := upgradeComponents_skip r ctx r.GetComponents 0 cr w1 i hloop
    constructor
    · intro e
      refine ⟨?_, ?_, ?_⟩ <;>
      · intro hmem
        have h3 := reconcileUpgrade_component_call r cr w ctx w1 tail ht htail _ hmem i rfl
        have h4 := h1 _ h3 rfl
        cases h4
    · intro hlen
      obtain ⟨b, e, h5⟩ := h2 (by omega)
      refine ⟨b, e, ?_⟩
      rw [ht]
      exact h5.trans (List.infix_append [Call.newContext none] _ tail)

/-- C2 on a registry of two components of which the first is not installed. -/
theorem reconcileUpgrade_skips_not_installed_witness :
    Call.isInstalled 0 false none ∈
      (reconcileUpgrade (constReconciler [constComponent "a" (false, none) none none none,
        constComponent "b" (true, none) none none none] none none)
        (sampleCR "1.0.0" startedLog) ()).trace ∧
    ∀ e, Call.preUpgrade 0 e ∉
      (reconcileUpgrade (constReconciler [constComponent "a" (false, none) none none none,
        constComponent "b" (true, none) none none none] none none)
        (sampleCR "1.0.0" startedLog) ()).trace :=
  ⟨by decide, fun e =>
    ((reconcileUpgrade_skips_not_installed
      (constReconciler [constComponent "a" (false, none) none none none,
        constComponent "b" (true, none) none none none] none none)
      (sampleCR "1.0.0" startedLog) () 0 (by decide)).1 e).1⟩

/-! ## C3 -/

/-- In the loop, once a call on component `k` returned an error, every call
of the loop is on a component of index at most `k`. -/
theorem upgradeComponents_error_last (r : Reconciler W Ctx) (ctx : Ctx)
    (cs : List (Component W Ctx)) (i : Nat) (cr : Verrazzano) (w : W) (ev : Call) (k : Nat)
    (hev : ev ∈ (upgradeComponents r ctx i cs cr w).trace) (hk : ev.component = some k)
    (hf : ev.failed = true) (ev2 : Call) (j : Nat)
    (hev2 : ev2 ∈ (upgradeComponents r ctx i cs cr w).trace) (hj : ev2.component = some j) :
    j ≤ k := by
  cases hl : (upgradeComponents r ctx i cs cr w).ret with
  | none =>
    have := ((upgradeComponents_complete r ctx cs i cr w hl).2 ev hev).1
    rw [this] at hf; cases hf
  | some ret =>
    obtain ⟨pre, c, post, _, h2, _, h4, _, _⟩ := upgradeComponents_return r ctx cs i cr w ret hl
    rw [h4] at hev hev2
    have hk2 : k = i + pre.length := by
      rcases List.mem_append.1 hev with h5 | h5
      · have := ((upgradeComponents_complete r ctx pre i cr w h2).2 ev h5).1
        rw [this] at hf; cases hf
      · exact upgradeComponent_component r ctx _ c cr _ ev h5 k hk
    rcases List.mem_append.1 hev2 with h5 | h5
    · have := upgradeComponents_component r ctx pre i cr w ev2 h5 j hj
      omega
    · have := upgradeComponent_component r ctx _ c cr _ ev2 h5 j hj
      omega

/-- C3: in every pass, if a call (IsInstalled, PreUpgrade, Upgrade or
PostUpgrade) on the component at registry index `i` returned an error, then
no call of the pass is on a component at an index greater than `i`. -/
theorem reconcileUpgrade_error_blocks_later (r : Reconciler W Ctx) (cr : Verrazzano) (w : W)
    (i : Nat) (ev : Call)
    (hev : ev ∈ (reconcileUpgrade r cr w).trace) (hi : ev.component = some i)
    (hf : ev.failed = true) :
    ∀ ev2 ∈ (reconcileUpgrade r cr w).trace, ∀ j, i < j → ev2.component ≠ some j := by
  intro ev2 hev2 j hij hj
  rcases reconcileUpgrade_loop_view r cr w with hno | ⟨ctx, w1, tail, _, _, ht, htail, _⟩
  · rw [hno _ hev] at hi
    cases hi
  · have := upgradeComponents_error_last r ctx r.GetComponents 0 cr w1 ev i
      (reconcileUpgrade_component_call r cr w ctx w1 tail ht htail ev hev i hi) hi hf ev2 j
      (reconcileUpgrade_component_call r cr w ctx w1 tail ht htail ev2 hev2 j hj) hj
    omega

/-- C3 on the registry `[a, b]` with the Upgrade of `a` failing: no call is
made on `b`. -/
theorem reconcileUpgrade_error_blocks_later_witness :
    Call.upgrade 0 (some "boom") ∈
      (reconcileUpgrade (constReconciler [constComponent "a" (true, none) none (some "boom") none,
        constComponent "b" (true, none) none none none] none none)
        (sampleCR "1.0.0" startedLog) ()).trace ∧
    ∀ ev2 ∈ (reconcileUpgrade (constReconciler
        [constComponent "a" (true, none) none (some "boom") none,
          constComponent "b" (true, none) none none none] none none)
        (sampleCR "1.0.0" startedLog) ()).trace, ∀ j, 0 < j → ev2.component ≠ some j :=
  ⟨by decide,
    reconcileUpgrade_error_blocks_later
      (constReconciler [constComponent "a" (true, none) none (some "boom") none,
        constComponent "b" (true, none) none none none] none none)
      (sampleCR "1.0.0" startedLog) () 0 (.upgrade 0 (some "boom")) (by decide) rfl rfl⟩

/-! ## Passes in which a component call fails -/

/-- In the loop, a component call that returned an error was made in the
iteration that returned from the loop; the calls before that iteration
returned no error, are not calls of `updateStatus`, and are on components of
smaller index. -/
theorem upgradeComponents_failure (r : Reconciler W Ctx) (ctx : Ctx)
    (cs : List (Component W Ctx)) (i : Nat) (cr : Verrazzano) (w : W) (ev : Call) (k : Nat)
    (hev : ev ∈ (upgradeComponents r ctx i cs cr w).trace) (hk : ev.component = some k)
    (hf : ev.failed = true) :
    ∃ c w2 before, cs.get? (k - i) = some c ∧ i ≤ k ∧
      (upgradeComponents r ctx i cs cr w).trace
        = before ++ (upgradeComponent r ctx k c cr w2).trace ∧
      (∀ ev2 ∈ before, ev2.isUpdateStatus = false ∧ ev2.failed = false ∧
        ∀ j, ev2.component = some j → j < k) ∧
      ev ∈ (upgradeComponent r ctx k c cr w2).trace ∧
      (upgradeComponents r ctx i cs cr w).ret = (upgradeComponent r ctx k c cr w2).ret ∧
      (upgradeComponents r ctx i cs cr w).cr = (upgradeComponent r ctx k c cr w2).cr := by
  cases hl : (upgradeComponents r ctx i cs cr w).ret with
  | none =>
    have := ((upgradeComponents_complete r ctx cs i cr w hl).2 ev hev).1
    rw [this] at hf; cases hf
  | some ret =>
    obtain ⟨pre, c, post, h1, h2, h3, h4, h5, _⟩ :=
      upgradeComponents_return r ctx cs i cr w ret hl
    have hpre := upgradeComponents_complete r ctx pre i cr w h2
    have hmem : ev ∈ (upgradeComponent r ctx (i + pre.length) c cr
        (upgradeComponents r ctx i pre cr w).world).trace := by
      rw [h4] at hev
      rcases List.mem_append.1 hev with h6 | h6
      · rw [(hpre.2 ev h6).1] at hf; cases hf
      · exact h6
    have hk2 : k = i + pre.length := upgradeComponent_component r ctx _ c cr _ ev hmem k hk
    subst hk2
    refine ⟨c, (upgradeComponents r ctx i pre cr w).world,
      (upgradeComponents r ctx i pre cr w).trace, ?_, by omega, h4, ?_, hmem, h3.symm, h5⟩
    · rw [h1, List.get?_eq_getElem?, Nat.add_sub_cancel_left,
        List.getElem?_append_right (Nat.le_refl _)]
      simp
    · intro ev2 hev2
      refine ⟨(hpre.2 ev2 hev2).2, (hpre.2 ev2 hev2).1, ?_⟩
      intro j hj
      exact (upgradeComponents_component r ctx pre i cr w ev2 hev2 j hj).2

/-- A pass in which a component call returned an error: the pass trace is
the context creation, calls that returned no error, and then the iteration
of that component, which is where the pass returned. -/
theorem reconcileUpgrade_failure (r : Reconciler W Ctx) (cr : Verrazzano) (w : W)
    (ev : Call) (k : Nat) (hev : ev ∈ (reconcileUpgrade r cr w).trace)
    (hk : ev.component = some k) (hf : ev.failed = true) :
    ∃ ctx c w2 before, r.GetComponents.get? k = some c ∧
      (reconcileUpgrade r cr w).trace = before ++ (upgradeComponent r ctx k c cr w2).trace ∧
      (∀ ev2 ∈ before, ev2.isUpdateStatus = false ∧ ev2.failed = false ∧
        ∀ j, ev2.component = some j → j < k) ∧
      ev ∈ (upgradeComponent r ctx k c cr w2).trace ∧
      (upgradeComponent r ctx k c cr w2).ret
        = some ((reconcileUpgrade r cr w).result, (reconcileUpgrade r cr w).err) ∧
      (reconcileUpgrade r cr w).cr = (upgradeComponent r ctx k c cr w2).cr := by
  rcases reconcileUpgrade_loop_view r cr w with hno | ⟨ctx, w1, tail, _, _, ht, htail, hret⟩
  · rw [hno _ hev] at hk
    cases hk
  · have hloop := reconcileUpgrade_component_call r cr w ctx w1 tail ht htail ev hev k hk
    obtain ⟨c, w2, before, h1, _, h3, h4, h5, h6, h7⟩ :=
      upgradeComponents_failure r ctx r.GetComponents 0 cr w1 ev k hloop hk hf
    cases hb : (upgradeComponent r ctx k c cr w2).ret with
    | none =>
      obtain ⟨_, h8⟩ := upgradeComponent_continue r ctx k c cr w2 hb
      rcases h8 with h8 | h8 <;>
      · rw [h8] at h5
        simp only [List.mem_cons, List.mem_singleton, List.not_mem_nil, or_false] at h5
        rcases h5 with rfl | rfl | rfl | rfl <;> cases hf
    | some ret =>
      rw [hb] at h6
      obtain ⟨h9, h10, h11, h12⟩ := hret ret h6
      refine ⟨ctx, c, w2, Call.newContext none :: before, by simpa using h1, ?_, ?_, h5, ?_, ?_⟩
      · rw [ht, h9, h3]; simp
      · intro ev2 hev2
        rcases List.mem_cons.1 hev2 with rfl | h13
        · exact ⟨rfl, rfl, fun j hj => by cases hj⟩
        · exact h4 ev2 h13
      · rw [hb, h10, h11]
      · rw [h12, h7]

/-- A pass in which PreUpgrade or PostUpgrade of a component returned the
error `e`: the pass returns `e` with the empty result, makes no call of
`updateStatus` and leaves the resource as it was. -/
theorem reconcileUpgrade_hook_failure (r : Reconciler W Ctx) (cr : Verrazzano) (w : W)
    (i : Nat) (e : Error)
    (h : Call.preUpgrade i (some e) ∈ (reconcileUpgrade r cr w).trace ∨
      Call.postUpgrade i (some e) ∈ (reconcileUpgrade r cr w).trace) :
    (reconcileUpgrade r cr w).err = some e ∧
    (reconcileUpgrade r cr w).result = Result.empty ∧
    (∀ ev ∈ (reconcileUpgrade r cr w).trace, ev.isUpdateStatus = false) ∧
    (reconcileUpgrade r cr w).cr = cr := by
  have key : ∃ ev, ev ∈ (reconcileUpgrade r cr w).trace ∧ ev.component = some i ∧
      ev.failed = true ∧ (ev = .preUpgrade i (some e) ∨ ev = .postUpgrade i (some e)) := by
    rcases h with h | h
    · exact ⟨_, h, rfl, rfl, Or.inl rfl⟩
    · exact ⟨_, h, rfl, rfl, Or.inr rfl⟩
  obtain ⟨ev, hev, hk, hf, hshape⟩ := key
  obtain ⟨ctx, c, w2, before, _, h2, h3, h4, h5, h6⟩ :=
    reconcileUpgrade_failure r cr w ev i hev hk hf
  have hbody : (upgradeComponent r ctx i c cr w2).ret = some (Result.empty, some e) ∧
      (upgradeComponent r ctx i c cr w2).cr = cr ∧
      ∀ ev2 ∈ (upgradeComponent r ctx i c cr w2).trace, ev2.isUpdateStatus = false := by
    rcases upgradeComponent_cases r ctx i c cr w2 with
      ⟨_, _, _, t1, _, _⟩ | ⟨t1, _, _⟩ | ⟨e2, t1, t2, t3⟩ | ⟨_, _, t1, _, _⟩ | ⟨e2, t1, t2, t3⟩ |
      ⟨t1, _, _⟩
    · rw [t1] at h4; rcases hshape with rfl | rfl <;> simp at h4
    · rw [t1] at h4; rcases hshape with rfl | rfl <;> simp at h4
    · rw [t1] at h4 ⊢
      rcases hshape with rfl | rfl
      · simp at h4; subst h4
        exact ⟨t3, t2, by simp [Call.isUpdateStatus]⟩
      · simp at h4
    · rw [t1] at h4; rcases hshape with rfl | rfl <;> simp at h4
    · rw [t1] at h4 ⊢
      rcases hshape with rfl | rfl
      · simp at h4
      · simp at h4; subst h4
        exact ⟨t3, t2, by simp [Call.isUpdateStatus]⟩
    · rw [t1] at h4; rcases hshape with rfl | rfl <;> simp at h4
  obtain ⟨b1, b2, b3⟩ := hbody
  rw [b1] at h5
  simp only [Option.some.injEq, Prod.mk.injEq] at h5
  refine ⟨h5.2.symm, h5.1.symm, ?_, by rw [h6, b2]⟩
  intro ev2 hev2
  rw [h2] at hev2
  rcases List.mem_append.1 hev2 with h7 | h7
  · exact (h3 ev2 h7).1
  · exact b3 ev2 h7

/-- A pass in which the Upgrade of the component at index `i` returned the
error `e`: the pass ends with the calls of that iteration, the last of them
`updateStatus` with UpgradeFailed, and returns what that call returned. -/
theorem reconcileUpgrade_upgrade_failure (r : Reconciler W Ctx) (cr : Verrazzano) (w : W)
    (i : Nat) (e : Error) (h : Call.upgrade i (some e) ∈ (reconcileUpgrade r cr w).trace) :
    ∃ c w3 before, r.GetComponents.get? i = some c ∧
      (reconcileUpgrade r cr w).trace
        = before ++ [.isInstalled i true none, .preUpgrade i none, .upgrade i (some e),
            .updateStatus (failedMessage c.Name cr.Generation e) ConditionType.UpgradeFailed
              (r.updateStatus cr (failedMessage c.Name cr.Generation e)
                ConditionType.UpgradeFailed w3).err] ∧
      (∀ ev2 ∈ before, ev2.isUpdateStatus = false ∧ ev2.failed = false ∧
        ∀ j, ev2.component = some j → j < i) ∧
      (reconcileUpgrade r cr w).result = Result.empty ∧
      (reconcileUpgrade r cr w).err
        = (r.updateStatus cr (failedMessage c.Name cr.Generation e)
            ConditionType.UpgradeFailed w3).err ∧
      (reconcileUpgrade r cr w).cr
        = (r.updateStatus cr (failedMessage c.Name cr.Generation e)
            ConditionType.UpgradeFailed w3).cr := by
  obtain ⟨ctx, c, w2, before, h1, h2, h3, h4, h5, h6⟩ :=
    reconcileUpgrade_failure r cr w _ i h rfl rfl
  rcases upgradeComponent_cases r ctx i c cr w2 with
    ⟨_, _, _, t1, _, _⟩ | ⟨t1, _, _⟩ | ⟨_, t1, _, _⟩ | ⟨e2, w3, t1, t2, t3⟩ | ⟨_, t1, _, _⟩ |
    ⟨t1, _, _⟩
  · rw [t1] at h4; simp at h4
  · rw [t1] at h4; simp at h4
  · rw [t1] at h4; simp at h4
  · rw [t1] at h4
    simp at h4
    subst h4
    rw [t3] at h5
    simp only [Option.some.injEq, Prod.mk.injEq] at h5
    exact ⟨c, w3, before, h1, by rw [h2, t1], h3, h5.1.symm, h5.2.symm, by rw [h6, t2]⟩
  · rw [t1] at h4; simp at h4
  · rw [t1] at h4; simp at h4

/-- The UpgradeFailed message names the component. -/
theorem failedMessage_contains_name (compName : String) (gen : Int) (e : Error) :
    Contains (failedMessage compName gen e) compName := by
  refine ⟨"Error upgrading component ".data,
    " - ".data ++ (fmtGeneration gen).data ++ "\".  Error is ".data ++ e.data, ?_⟩
  simp [failedMessage, String.data_append]

/-- The UpgradeFailed message holds the generation as `generation:<decimal>`. -/
theorem failedMessage_contains_generation (compName : String) (gen : Int) (e : Error) :
    Contains (failedMessage compName gen e) ("generation:" ++ formatInt gen) := by
  refine ⟨"Error upgrading component ".data ++ compName.data ++ " - ".data,
    "\".  Error is ".data ++ e.data, ?_⟩
  simp [failedMessage, fmtGeneration, String.data_append]

/-- The UpgradeFailed message holds the text of the error. -/
theorem failedMessage_contains_error (compName : String) (gen : Int) (e : Error) :
    Contains (failedMessage compName gen e) e := by
  refine ⟨"Error upgrading component ".data ++ compName.data ++ " - ".data ++
    (fmtGeneration gen).data ++ "\".  Error is ".data, [], ?_⟩
  simp [failedMessage, String.data_append]

/-! ## C4 -/

/-- C4: in every pass in which PreUpgrade or PostUpgrade of a component
returns an error `e`, `reconcileUpgrade` returns exactly `e` with the empty
result (`Requeue = false`, `RequeueAfter = 0`), makes no call of
`updateStatus`, and leaves the resource, so also its condition log, as it
was. -/
theorem reconcileUpgrade_hook_error_fatal (r : Reconciler W Ctx) (cr : Verrazzano) (w : W)
    (i : Nat) (e : Error)
    (h : Call.preUpgrade i (some e) ∈ (reconcileUpgrade r cr w).trace ∨
      Call.postUpgrade i (some e) ∈ (reconcileUpgrade r cr w).trace) :
    (reconcileUpgrade r cr w).err = some e ∧
    (reconcileUpgrade r cr w).result = ⟨false, 0⟩ ∧
    (∀ msg t ue, Call.updateStatus msg t ue ∉ (reconcileUpgrade r cr w).trace) ∧
    (reconcileUpgrade r cr w).cr.Status.Conditions = cr.Status.Conditions := by
  obtain ⟨h1, h2, h3, h4⟩ := reconcileUpgrade_hook_failure r cr w i e h
  refine ⟨h1, h2, ?_, by rw [h4]⟩
  intro msg t ue hmem
  have := h3 _ hmem
  cases this

/-- C4 on a registry whose second component fails in PostUpgrade. -/
theorem reconcileUpgrade_hook_error_fatal_witness :
    Call.postUpgrade 1 (some "post failed") ∈
      (reconcileUpgrade (constReconciler [constComponent "a" (true, none) none none none,
        constComponent "b" (true, none) none none (some "post failed")] none none)
        (sampleCR "1.0.0" startedLog) ()).trace ∧
    (reconcileUpgrade (constReconciler [constComponent "a" (true, none) none none none,
        constComponent "b" (true, none) none none (some "post failed")] none none)
        (sampleCR "1.0.0" startedLog) ()).err = some "post failed" :=
  ⟨by decide,
    (reconcileUpgrade_hook_error_fatal
      (constReconciler [constComponent "a" (true, none) none none none,
        constComponent "b" (true, none) none none (some "post failed")] none none)
      (sampleCR "1.0.0" startedLog) () 1 "post failed" (Or.inr (by decide))).1⟩

/-! ## C5 -/

/-- C5: in every pass in which the Upgrade of the component at index `i`,
named `c.Name`, returns an error `e`, `updateStatus` is called exactly once,
with condition type UpgradeFailed and a message that contains the component
name, the text of `e` and the generation as `generation:<decimal>`; that call
is the last call of the pass, so PostUpgrade of the component is not called,
and the pass returns the empty result with the error of that call. -/
theorem reconcileUpgrade_upgrade_error_recorded (r : Reconciler W Ctx) (cr : Verrazzano)
    (w : W) (i : Nat) (e : Error)
    (h : Call.upgrade i (some e) ∈ (reconcileUpgrade r cr w).trace) :
    ∃ c msg, r.GetComponents.get? i = some c ∧
      (reconcileUpgrade r cr w).trace.filter Call.isUpdateStatus
        = [.updateStatus msg ConditionType.UpgradeFailed (reconcileUpgrade r cr w).err] ∧
      Contains msg c.Name ∧ Contains msg e ∧
      Contains msg ("generation:" ++ formatInt cr.Generation) ∧
      (reconcileUpgrade r cr w).trace.getLast?
        = some (.updateStatus msg ConditionType.UpgradeFailed (reconcileUpgrade r cr w).err) ∧
      (∀ e2, Call.postUpgrade i e2 ∉ (reconcileUpgrade r cr w).trace) ∧
      (reconcileUpgrade r cr w).result = ⟨false, 0⟩ := by
  obtain ⟨c, w3, before, h1, h2, h3, h4, h5, _⟩ := reconcileUpgrade_upgrade_failure r cr w i e h
  refine ⟨c, failedMessage c.Name cr.Generation e, h1, ?_, failedMessage_contains_name _ _ _,
    failedMessage_contains_error _ _ _, failedMessage_contains_generation _ _ _, ?_, ?_, h4⟩
  · have hb : before.filter Call.isUpdateStatus = [] := by
      rw [List.filter_eq_nil_iff]
      intro ev2 hev2
      rw [(h3 ev2 hev2).1]
      simp
    rw [h2, List.filter_append, hb, h5]
    simp [List.filter, Call.isUpdateStatus]
  · rw [h2, h5]
    simp
  · intro e2 hmem
    rw [h2] at hmem
    rcases List.mem_append.1 hmem with h7 | h7
    · have := (h3 _ h7).2.2 i rfl
      omega
    · simp at h7

/-- C5 on a registry whose only component, `keycloak`, fails in Upgrade with
the error `timeout`, on a resource at generation 3. -/
theorem reconcileUpgrade_upgrade_error_recorded_witness :
    Call.upgrade 0 (some "timeout") ∈
      (reconcileUpgrade (constReconciler
        [constComponent "keycloak" (true, none) none (some "timeout") none] none none)
        (sampleCR "1.0.0" startedLog) ()).trace ∧
    ∃ c msg, (constReconciler
        [constComponent "keycloak" (true, none) none (some "timeout") none] none
          none).GetComponents.get? 0 = some c ∧
      (reconcileUpgrade (constReconciler
        [constComponent "keycloak" (true, none) none (some "timeout") none] none none)
        (sampleCR "1.0.0" startedLog) ()).trace.filter Call.isUpdateStatus
        = [.updateStatus msg ConditionType.UpgradeFailed
            (reconcileUpgrade (constReconciler
              [constComponent "keycloak" (true, none) none (some "timeout") none] none none)
              (sampleCR "1.0.0" startedLog) ()).err] ∧
      Contains msg c.Name ∧ Contains msg "timeout" ∧
      Contains msg ("generation:" ++ formatInt (sampleCR "1.0.0" startedLog).Generation) :=
  ⟨by decide,
    (reconcileUpgrade_upgrade_error_recorded
      (constReconciler [constComponent "keycloak" (true, none) none (some "timeout") none]
        none none)
      (sampleCR "1.0.0" startedLog) () 0 "timeout" (by decide)).imp
      fun _ hc => hc.imp fun _ hm => ⟨hm.1, hm.2.1, hm.2.2.1, hm.2.2.2.1, hm.2.2.2.2.1⟩⟩

/-! ## C6 -/

/-- C6, as stated, fails: with a registry whose only component fails in
Upgrade and an `updateStatus` that succeeds, the pass records UpgradeFailed
and returns a nil error. -/
theorem reconcileUpgrade_upgrade_error_not_returned :
    Call.upgrade 0 (some "timeout") ∈
      (reconcileUpgrade (constReconciler
        [constComponent "keycloak" (true, none) none (some "timeout") none] none none)
        (sampleCR "1.0.0" startedLog) ()).trace ∧
    (reconcileUpgrade (constReconciler
        [constComponent "keycloak" (true, none) none (some "timeout") none] none none)
        (sampleCR "1.0.0" startedLog) ()).err = none := by
  decide

/-- C6, amended: in every pass in which PreUpgrade or PostUpgrade of a
component returns an error `e`, `reconcileUpgrade` returns `e`; in every pass
in which the Upgrade of a component returns an error `e`, `reconcileUpgrade`
calls `updateStatus` with UpgradeFailed and a message holding the text of `e`,
and returns the error of that `updateStatus` call (nil when it succeeds). -/
theorem reconcileUpgrade_error_surfaced (r : Reconciler W Ctx) (cr : Verrazzano) (w : W)
    (i : Nat) (e : Error) :
    ((Call.preUpgrade i (some e) ∈ (reconcileUpgrade r cr w).trace ∨
        Call.postUpgrade i (some e) ∈ (reconcileUpgrade r cr w).trace) →
      (reconcileUpgrade r cr w).err = some e) ∧
    (Call.upgrade i (some e) ∈ (reconcileUpgrade r cr w).trace →
      ∃ msg, Contains msg e ∧
        Call.updateStatus msg ConditionType.UpgradeFailed (reconcileUpgrade r cr w).err
          ∈ (reconcileUpgrade r cr w).trace) := by
  constructor
  · intro h
    exact (reconcileUpgrade_hook_failure r cr w i e h).1
  · intro h
    obtain ⟨c, w3, before, _, h2, _, _, h5, _⟩ := reconcileUpgrade_upgrade_failure r cr w i e h
    refine ⟨failedMessage c.Name cr.Generation e, failedMessage_contains_error _ _ _, ?_⟩
    rw [h2, h5]
    simp

/-- C6, amended, on a registry whose only component fails in PreUpgrade. -/
theorem reconcileUpgrade_error_surfaced_witness :
    Call.preUpgrade 0 (some "not ready") ∈
      (reconcileUpgrade (constReconciler
        [constComponent "keycloak" (true, none) (some "not ready") none none] none none)
        (sampleCR "1.0.0" startedLog) ()).trace ∧
    (reconcileUpgrade (constReconciler
        [constComponent "keycloak" (true, none) (some "not ready") none none] none none)
        (sampleCR "1.0.0" startedLog) ()).err = some "not ready" :=
  ⟨by decide,
    (reconcileUpgrade_error_surfaced
      (constReconciler [constComponent "keycloak" (true, none) (some "not ready") none none]
        none none)
      (sampleCR "1.0.0" startedLog) () 0 "not ready").1 (Or.inl (by decide))⟩

/-! ## C7 -/

/-- An iteration that returns made a call on its component that returned an
error. -/
theorem upgradeComponent_return_failed (r : Reconciler W Ctx) (ctx : Ctx) (i : Nat)
    (comp : Component W Ctx) (cr : Verrazzano) (w : W) (ret : Result × Option Error)
    (h : (upgradeComponent r ctx i comp cr w).ret = some ret) :
    ∃ ev ∈ (upgradeComponent r ctx i comp cr w).trace,
      ev.component = some i ∧ ev.failed = true := by
  rcases upgradeComponent_cases r ctx i comp cr w with
    ⟨b, e, _, t1, _, _⟩ | ⟨_, _, t3⟩ | ⟨e, t1, _, _⟩ | ⟨e, _, t1, _, _⟩ | ⟨e, t1, _, _⟩ |
    ⟨_, _, t3⟩
  · exact ⟨.isInstalled i b (some e), by rw [t1]; simp, rfl, rfl⟩
  · rw [h] at t3; cases t3
  · exact ⟨.preUpgrade i (some e), by rw [t1]; simp, rfl, rfl⟩
  · exact ⟨.upgrade i (some e), by rw [t1]; simp, rfl, rfl⟩
  · exact ⟨.postUpgrade i (some e), by rw [t1]; simp, rfl, rfl⟩
  · rw [h] at t3; cases t3

/-- A loop that returns made a component call that returned an error. -/
theorem upgradeComponents_return_failed (r : Reconciler W Ctx) (ctx : Ctx)
    (cs : List (Component W Ctx)) (i : Nat) (cr : Verrazzano) (w : W)
    (ret : Result × Option Error) (h : (upgradeComponents r ctx i cs cr w).ret = some ret) :
    ∃ ev ∈ (upgradeComponents r ctx i cs cr w).trace,
      ev.component ≠ none ∧ ev.failed = true := by
  obtain ⟨pre, c, post, _, _, h3, h4, _, _⟩ := upgradeComponents_return r ctx cs i cr w ret h
  obtain ⟨ev, h5, h6, h7⟩ := upgradeComponent_return_failed r ctx _ c cr _ ret h3
  exact ⟨ev, by rw [h4]; exact List.mem_append_right _ h5, by rw [h6]; simp, h7⟩

/-- A pass in the UpgradeStarted state in which no call returns an error
runs to the end: one `updateStatus`, with UpgradeComplete, on the resource
with the recorded version set, and the empty result with a nil error. -/
theorem reconcileUpgrade_no_failure (r : Reconciler W Ctx) (cr : Verrazzano) (w : W)
    (hs : isLastCondition cr.Status ConditionType.UpgradeStarted = true)
    (hctx : ∀ e, Call.newContext (some e) ∉ (reconcileUpgrade r cr w).trace)
    (hcomp : ∀ ev ∈ (reconcileUpgrade r cr w).trace, ev.component ≠ none → ev.failed = false)
    (hstatus : ∀ msg t e, Call.updateStatus msg t (some e) ∉ (reconcileUpgrade r cr w).trace) :
    (∃ w2, (reconcileUpgrade r cr w).cr
        = (r.updateStatus (setStatusVersion cr cr.Spec.Version) (completeMessage cr)
            ConditionType.UpgradeComplete w2).cr) ∧
    (setStatusVersion cr cr.Spec.Version).Status.Version
      = (setStatusVersion cr cr.Spec.Version).Spec.Version ∧
    (reconcileUpgrade r cr w).trace.filter Call.isUpdateStatus
      = [.updateStatus (completeMessage cr) ConditionType.UpgradeComplete none] ∧
    (reconcileUpgrade r cr w).result = ⟨false, 0⟩ ∧
    (reconcileUpgrade r cr w).err = none := by
  rcases hc : r.NewContext cr r.DryRun w with ⟨e | ctx, w1⟩
  · exfalso
    apply hctx e
    rw [reconcileUpgrade_context_error r cr w w1 e hs hc]
    simp
  · cases hl : (upgradeComponents r ctx 0 r.GetComponents cr w1).ret with
    | some ret =>
      exfalso
      obtain ⟨ev, h1, h2, h3⟩ :=
        upgradeComponents_return_failed r ctx r.GetComponents 0 cr w1 ret hl
      have h4 : ev ∈ (reconcileUpgrade r cr w).trace := by
        rw [reconcileUpgrade_loop_return r cr w w1 ctx ret hs hc hl]
        exact List.mem_cons_of_mem _ h1
      rw [hcomp ev h4 h2] at h3
      cases h3
    | none =>
      cases hu : (r.updateStatus (setStatusVersion cr cr.Spec.Version) (completeMessage cr)
          ConditionType.UpgradeComplete
          (upgradeComponents r ctx 0 r.GetComponents cr w1).world).err with
      | some e =>
        exfalso
        apply hstatus (completeMessage cr) ConditionType.UpgradeComplete e
        rw [reconcileUpgrade_complete_error r cr w w1 ctx e hs hc hl hu]
        simp
      | none =>
        rw [reconcileUpgrade_complete_ok r cr w w1 ctx hs hc hl hu]
        refine ⟨⟨_, rfl⟩, rfl, ?_, rfl, rfl⟩
        have hb : (upgradeComponents r ctx 0 r.GetComponents cr w1).trace.filter
            Call.isUpdateStatus = [] := by
          rw [List.filter_eq_nil_iff]
          intro ev2 hev2
          rw [((upgradeComponents_complete r ctx r.GetComponents 0 cr w1 hl).2 ev2 hev2).2]
          simp
        simp [List.filter, Call.isUpdateStatus, hb]

/-- C7, as stated, fails: with an `updateStatus` that succeeds, a pass in the
UpgradeStarted state in which `spi.NewContext` fails returns that error with
a requeue, does not call `updateStatus` and leaves the recorded version as it
was, both with an empty registry and with a registry whose only component is
not installed. -/
theorem reconcileUpgrade_context_error_incomplete :
    isLastCondition (sampleCR "1.0.0" startedLog).Status ConditionType.UpgradeStarted = true ∧
    (reconcileUpgrade (constReconciler [] (some "no effective CR") none)
        (sampleCR "1.0.0" startedLog) ()).err = some "no effective CR" ∧
    (reconcileUpgrade (constReconciler [] (some "no effective CR") none)
        (sampleCR "1.0.0" startedLog) ()).result = ⟨true, 2000000000⟩ ∧
    (reconcileUpgrade (constReconciler [] (some "no effective CR") none)
        (sampleCR "1.0.0" startedLog) ()).trace = [.newContext (some "no effective CR"),
          .newRequeueWithDelay] ∧
    (reconcileUpgrade (constReconciler [] (some "no effective CR") none)
        (sampleCR "1.0.0" startedLog) ()).cr.Status.Version = "1.0.0" ∧
    (reconcileUpgrade (constReconciler [constComponent "a" (false, none) none none none]
        (some "no effective CR") none) (sampleCR "1.0.0" startedLog) ()).err
      = some "no effective CR" ∧
    (reconcileUpgrade (constReconciler [constComponent "a" (false, none) none none none]
        (some "no effective CR") none) (sampleCR "1.0.0" startedLog) ()).trace
      = [.newContext (some "no effective CR"), .newRequeueWithDelay] ∧
    (reconcileUpgrade (constReconciler [constComponent "a" (false, none) none none none]
        (some "no effective CR") none) (sampleCR "1.0.0" startedLog) ()).cr.Status.Version
      = "1.0.0" := by
  decide

/-- C7, amended: in every pass in the UpgradeStarted state in which
`spi.NewContext` succeeds, no component call returns an error (every
component is not installed or completes PreUpgrade, Upgrade and PostUpgrade)
and `updateStatus` succeeds: `Status.Version` is set to `Spec.Version` on the
resource handed to `updateStatus`, `updateStatus` is called exactly once, with
type UpgradeComplete, and the pass returns the empty result and a nil error. -/
theorem reconcileUpgrade_completes (r : Reconciler W Ctx) (cr : Verrazzano) (w : W)
    (hs : isLastCondition cr.Status ConditionType.UpgradeStarted = true)
    (hctx : ∀ e, Call.newContext (some e) ∉ (reconcileUpgrade r cr w).trace)
    (hcomp : ∀ ev ∈ (reconcileUpgrade r cr w).trace, ev.component ≠ none → ev.failed = false)
    (hstatus : ∀ msg t e, Call.updateStatus msg t (some e) ∉ (reconcileUpgrade r cr w).trace) :
    (∃ w2, (reconcileUpgrade r cr w).cr
        = (r.updateStatus (setStatusVersion cr cr.Spec.Version) (completeMessage cr)
            ConditionType.UpgradeComplete w2).cr) ∧
    (setStatusVersion cr cr.Spec.Version).Status.Version
      = (setStatusVersion cr cr.Spec.Version).Spec.Version ∧
    (reconcileUpgrade r cr w).trace.filter Call.isUpdateStatus
      = [.updateStatus (completeMessage cr) ConditionType.UpgradeComplete none] ∧
    (reconcileUpgrade r cr w).result = ⟨false, 0⟩ ∧
    (reconcileUpgrade r cr w).err = none :=
  reconcileUpgrade_no_failure r cr w hs hctx hcomp hstatus

/-- C7, amended, on a registry of a component that is not installed and one
that upgrades without error: the pass returns a nil error and the recorded
version is the target version `1.1.0`. -/
theorem reconcileUpgrade_completes_witness :
    isLastCondition (sampleCR "1.0.0" startedLog).Status ConditionType.UpgradeStarted = true ∧
    (reconcileUpgrade (constReconciler [constComponent "a" (false, none) none none none,
        constComponent "b" (true, none) none none none] none none)
        (sampleCR "1.0.0" startedLog) ()).err = none ∧
    (reconcileUpgrade (constReconciler [constComponent "a" (false, none) none none none,
        constComponent "b" (true, none) none none none] none none)
        (sampleCR "1.0.0" startedLog) ()).cr.Status.Version = "1.1.0" :=
  ⟨by decide,
    (reconcileUpgrade_completes
      (constReconciler [constComponent "a" (false, none) none none none,
        constComponent "b" (true, none) none none none] none none)
      (sampleCR "1.0.0" startedLog) () (by decide)
      (fun e hmem => by revert hmem; simp [reconcileUpgrade, upgradeComponents,
        upgradeComponent, constReconciler, constComponent, sampleCR, startedLog,
        isLastCondition, postUpgrade])
      (fun ev hmem hc => by
        revert hmem hc; simp [reconcileUpgrade, upgradeComponents,
          upgradeComponent, constReconciler, constComponent, sampleCR, startedLog,
          isLastCondition, postUpgrade]
        rintro (rfl | rfl | rfl | rfl | rfl | rfl | rfl) <;> simp [Call.component, Call.failed])
      (fun msg t e hmem => by revert hmem; simp [reconcileUpgrade, upgradeComponents,
        upgradeComponent, constReconciler, constComponent, sampleCR, startedLog,
        isLastCondition, postUpgrade])).2.2.2.2,
    by decide⟩

/-! ## What a pass does to the resource -/

/-- A list of calls none of which is `updateStatus` has an empty filter. -/
theorem filter_isUpdateStatus_nil (l : List Call)
    (h : ∀ ev ∈ l, ev.isUpdateStatus = false) : l.filter Call.isUpdateStatus = [] := by
  rw [List.filter_eq_nil_iff]
  intro ev hev
  rw [h ev hev]
  simp

/-- An iteration either leaves the resource alone and does not call
`updateStatus`, or returns after one `updateStatus` call, with UpgradeFailed,
on the resource as it was. -/
theorem upgradeComponent_status_effect (r : Reconciler W Ctx) (ctx : Ctx) (i : Nat)
    (comp : Component W Ctx) (cr : Verrazzano) (w : W) :
    ((upgradeComponent r ctx i comp cr w).cr = cr ∧
      ∀ ev ∈ (upgradeComponent r ctx i comp cr w).trace, ev.isUpdateStatus = false) ∨
    ∃ msg w3,
      (upgradeComponent r ctx i comp cr w).cr
        = (r.updateStatus cr msg ConditionType.UpgradeFailed w3).cr ∧
      (upgradeComponent r ctx i comp cr w).ret
        = some (Result.empty, (r.updateStatus cr msg ConditionType.UpgradeFailed w3).err) ∧
      (upgradeComponent r ctx i comp cr w).trace.filter Call.isUpdateStatus
        = [.updateStatus msg ConditionType.UpgradeFailed
            (r.updateStatus cr msg ConditionType.UpgradeFailed w3).err] := by
  rcases upgradeComponent_cases r ctx i comp cr w with
    ⟨_, _, _, t1, t2, _⟩ | ⟨t1, t2, _⟩ | ⟨_, t1, t2, _⟩ | ⟨e, w3, t1, t2, t3⟩ | ⟨_, t1, t2, _⟩ |
    ⟨t1, t2, _⟩
  · left; rw [t1]; exact ⟨t2, by simp [Call.isUpdateStatus]⟩
  · left; rw [t1]; exact ⟨t2, by simp [Call.isUpdateStatus]⟩
  · left; rw [t1]; exact ⟨t2, by simp [Call.isUpdateStatus]⟩
  · right
    refine ⟨_, w3, t2, t3, ?_⟩
    rw [t1]
    simp [List.filter, Call.isUpdateStatus]
  · left; rw [t1]; exact ⟨t2, by simp [Call.isUpdateStatus]⟩
  · left; rw [t1]; exact ⟨t2, by simp [Call.isUpdateStatus]⟩

/-- A pass either leaves the resource alone and does not call `updateStatus`,
or calls `updateStatus` exactly once, on a resource with the condition log
and the desired state it was given, and hands back the resource and the
error of that call.  The condition type is UpgradeStarted outside the
UpgradeStarted state, and UpgradeFailed or UpgradeComplete inside it. -/
theorem reconcileUpgrade_status_effect (r : Reconciler W Ctx) (cr : Verrazzano) (w : W) :
    ((reconcileUpgrade r cr w).cr = cr ∧
      (reconcileUpgrade r cr w).trace.filter Call.isUpdateStatus = []) ∨
    ∃ cr2 msg t w2,
      cr2.Status.Conditions = cr.Status.Conditions ∧ cr2.Spec = cr.Spec ∧
      (reconcileUpgrade r cr w).cr = (r.updateStatus cr2 msg t w2).cr ∧
      (reconcileUpgrade r cr w).err = (r.updateStatus cr2 msg t w2).err ∧
      (reconcileUpgrade r cr w).trace.filter Call.isUpdateStatus
        = [.updateStatus msg t (r.updateStatus cr2 msg t w2).err] ∧
      ((t = ConditionType.UpgradeStarted ∧ cr2 = cr ∧
          isLastCondition cr.Status ConditionType.UpgradeStarted = false) ∨
        (t = ConditionType.UpgradeFailed ∧ cr2 = cr ∧
          isLastCondition cr.Status ConditionType.UpgradeStarted = true) ∨
        (t = ConditionType.UpgradeComplete ∧ cr2 = setStatusVersion cr cr.Spec.Version ∧
          isLastCondition cr.Status ConditionType.UpgradeStarted = true)) := by
  cases hs : isLastCondition cr.Status ConditionType.UpgradeStarted with
  | false =>
    right
    rw [reconcileUpgrade_first r cr w hs]
    exact ⟨cr, _, _, w, rfl, rfl, rfl, rfl, by simp [List.filter, Call.isUpdateStatus],
      Or.inl ⟨rfl, rfl, rfl⟩⟩
  | true =>
    rcases hc : r.NewContext cr r.DryRun w with ⟨e | ctx, w1⟩
    · left
      rw [reconcileUpgrade_context_error r cr w w1 e hs hc]
      exact ⟨rfl, by simp [List.filter, Call.isUpdateStatus]⟩
    · cases hl : (upgradeComponents r ctx 0 r.GetComponents cr w1).ret with
      | some ret =>
        obtain ⟨pre, c, post, _, h2, h3, h4, h5, _⟩ :=
          upgradeComponents_return r ctx r.GetComponents 0 cr w1 ret hl
        have hpre := filter_isUpdateStatus_nil _
          (fun ev hev => ((upgradeComponents_complete r ctx pre 0 cr w1 h2).2 ev hev).2)
        rw [reconcileUpgrade_loop_return r cr w w1 ctx ret hs hc hl]
        simp only [h4, h5]
        rcases upgradeComponent_status_effect r ctx (0 + pre.length) c cr
            (upgradeComponents r ctx 0 pre cr w1).world with ⟨b1, b2⟩ | ⟨msg, w3, b1, b2, b3⟩
        · left
          refine ⟨b1, ?_⟩
          rw [List.filter_cons, List.filter_append, hpre, filter_isUpdateStatus_nil _ b2]
          simp [Call.isUpdateStatus]
        · right
          rw [h3] at b2
          simp only [Option.some.injEq] at b2
          refine ⟨cr, msg, _, w3, rfl, rfl, b1, by rw [b2], ?_, Or.inr (Or.inl ⟨rfl, rfl, trivial⟩)⟩
          rw [List.filter_cons, List.filter_append, hpre, b3]
          simp [Call.isUpdateStatus]
      | none =>
        have hloop := filter_isUpdateStatus_nil _
          (fun ev hev =>
            ((upgradeComponents_complete r ctx r.GetComponents 0 cr w1 hl).2 ev hev).2)
        right
        cases hu : (r.updateStatus (setStatusVersion cr cr.Spec.Version) (completeMessage cr)
            ConditionType.UpgradeComplete
            (upgradeComponents r ctx 0 r.GetComponents cr w1).world).err with
        | some e =>
          rw [reconcileUpgrade_complete_error r cr w w1 ctx e hs hc hl hu]
          refine ⟨setStatusVersion cr cr.Spec.Version, completeMessage cr, _,
            (upgradeComponents r ctx 0 r.GetComponents cr w1).world, rfl, rfl, rfl, by rw [hu],
            ?_, Or.inr (Or.inr ⟨rfl, rfl, rfl⟩)⟩
          rw [hu, List.cons_append, List.filter_cons, List.filter_append, hloop]
          simp [List.filter, Call.isUpdateStatus]
        | none =>
          rw [reconcileUpgrade_complete_ok r cr w w1 ctx hs hc hl hu]
          refine ⟨setStatusVersion cr cr.Spec.Version, completeMessage cr, _,
            (upgradeComponents r ctx 0 r.GetComponents cr w1).world, rfl, rfl, rfl, by rw [hu],
            ?_, Or.inr (Or.inr ⟨rfl, rfl, rfl⟩)⟩
          rw [hu, List.cons_append, List.filter_cons, List.filter_append, hloop]
          simp [List.filter, Call.isUpdateStatus]

/-- With an `updateStatus` that appends, a pass leaves the condition log as
it was or appends one condition to it, of type UpgradeStarted outside the
UpgradeStarted state and of type UpgradeFailed or UpgradeComplete inside. -/
theorem reconcileUpgrade_conditions (r : Reconciler W Ctx) (cr : Verrazzano) (w : W)
    (happ : AppendsCondition r) :
    (reconcileUpgrade r cr w).cr.Status.Conditions = cr.Status.Conditions ∨
    ∃ c, (reconcileUpgrade r cr w).cr.Status.Conditions = cr.Status.Conditions ++ [c] ∧
      ((c.Type' = ConditionType.UpgradeStarted ∧
          isLastCondition cr.Status ConditionType.UpgradeStarted = false) ∨
        ((c.Type' = ConditionType.UpgradeFailed ∨ c.Type' = ConditionType.UpgradeComplete) ∧
          isLastCondition cr.Status ConditionType.UpgradeStarted = true)) := by
  rcases reconcileUpgrade_status_effect r cr w with ⟨h1, _⟩ |
    ⟨cr2, msg, t, w2, h1, _, h3, _, _, h6⟩
  · left; rw [h1]
  · right
    obtain ⟨c, c1, _, c3⟩ := happ cr2 msg t w2
    refine ⟨c, by rw [h3, c3, h1], ?_⟩
    rcases h6 with ⟨rfl, _, hs⟩ | ⟨rfl, _, hs⟩ | ⟨rfl, _, hs⟩
    · exact Or.inl ⟨c1, hs⟩
    · exact Or.inr ⟨Or.inl c1, hs⟩
    · exact Or.inr ⟨Or.inr c1, hs⟩

/-! ## C8 -/

/-- C8, as stated, fails: on a resource that is fully upgraded (last condition
UpgradeComplete, recorded version equal to the target version), the first of
two invocations appends an UpgradeStarted condition, and the second upgrades
the installed component again before appending UpgradeComplete. -/
theorem reconcileUpgrade_twice_appends_started :
    isLastCondition (sampleCR "1.1.0" completeLog).Status ConditionType.UpgradeComplete = true ∧
    (sampleCR "1.1.0" completeLog).Status.Version = (sampleCR "1.1.0" completeLog).Spec.Version ∧
    (reconcileUpgrade (constReconciler [constComponent "a" (true, none) none none none]
        none none) (sampleCR "1.1.0" completeLog) ()).cr.Status.Conditions
      = completeLog ++
          [⟨ConditionType.UpgradeStarted, "Verrazzano upgrade to version 1.1.0 in progress", ""⟩] ∧
    Call.upgrade 0 none ∈
      (reconcileUpgrade (constReconciler [constComponent "a" (true, none) none none none]
        none none)
        (reconcileUpgrade (constReconciler [constComponent "a" (true, none) none none none]
          none none) (sampleCR "1.1.0" completeLog) ()).cr ()).trace ∧
    (reconcileUpgrade (constReconciler [constComponent "a" (true, none) none none none]
        none none)
        (reconcileUpgrade (constReconciler [constComponent "a" (true, none) none none none]
          none none) (sampleCR "1.1.0" completeLog) ()).cr ()).cr.Status.Conditions
      = completeLog ++
          [⟨ConditionType.UpgradeStarted, "Verrazzano upgrade to version 1.1.0 in progress", ""⟩,
            ⟨ConditionType.UpgradeComplete, "Verrazzano upgraded to version 1.1.0 successfully",
              ""⟩] := by
  decide

/-- C8, amended: on a resource that is fully upgraded (last condition
UpgradeComplete; the recorded version plays no part), with an
`updateStatus` that appends and succeeds, the first of two successive
invocations appends exactly one condition, of type UpgradeStarted, calls no
component method and returns a nil error with a requeue; the second runs an
upgrade pass over the registry, appends at most one condition, of type
UpgradeFailed or UpgradeComplete, and, when no call of that pass returns an
error, appends UpgradeComplete and returns a nil error. -/
theorem reconcileUpgrade_twice_after_complete (r : Reconciler W Ctx) (cr : Verrazzano) (w : W)
    (hlast : ∃ c, cr.Status.Conditions.getLast? = some c ∧
      c.Type' = ConditionType.UpgradeComplete)
    (happ : AppendsCondition r)
    (hok : ∀ cr2 msg t w2, (r.updateStatus cr2 msg t w2).err = none) :
    (∃ c1, c1.Type' = ConditionType.UpgradeStarted ∧
      (reconcileUpgrade r cr w).cr.Status.Conditions = cr.Status.Conditions ++ [c1]) ∧
    (reconcileUpgrade r cr w).err = none ∧
    (reconcileUpgrade r cr w).result = ⟨true, 1⟩ ∧
    (∀ ev ∈ (reconcileUpgrade r cr w).trace, ev.component = none) ∧
    ((reconcileUpgrade r (reconcileUpgrade r cr w).cr
          (reconcileUpgrade r cr w).world).cr.Status.Conditions
        = (reconcileUpgrade r cr w).cr.Status.Conditions ∨
      ∃ c2, (c2.Type' = ConditionType.UpgradeFailed ∨ c2.Type' = ConditionType.UpgradeComplete) ∧
        (reconcileUpgrade r (reconcileUpgrade r cr w).cr
          (reconcileUpgrade r cr w).world).cr.Status.Conditions
          = (reconcileUpgrade r cr w).cr.Status.Conditions ++ [c2]) ∧
    ((∀ ev ∈ (reconcileUpgrade r (reconcileUpgrade r cr w).cr
          (reconcileUpgrade r cr w).world).trace, ev.failed = false) →
      (reconcileUpgrade r (reconcileUpgrade r cr w).cr (reconcileUpgrade r cr w).world).err
        = none ∧
      ∃ c2, c2.Type' = ConditionType.UpgradeComplete ∧
        (reconcileUpgrade r (reconcileUpgrade r cr w).cr
          (reconcileUpgrade r cr w).world).cr.Status.Conditions
          = (reconcileUpgrade r cr w).cr.Status.Conditions ++ [c2]) := by
  have hs : isLastCondition cr.Status ConditionType.UpgradeStarted = false := by
    cases hs : isLastCondition cr.Status ConditionType.UpgradeStarted with
    | false => rfl
    | true =>
      obtain ⟨c, h1, h2⟩ := (isLastCondition_iff _ _).1 hs
      obtain ⟨d, h3, h4⟩ := hlast
      rw [h1] at h3; cases h3
      rw [h2] at h4; cases h4
  obtain ⟨c1, a1, _, a3⟩ := happ cr (startedMessage cr) ConditionType.UpgradeStarted w
  have hcr : (reconcileUpgrade r cr w).cr.Status.Conditions
      = cr.Status.Conditions ++ [c1] := by
    rw [reconcileUpgrade_first r cr w hs]; exact a3
  have hs2 : isLastCondition (reconcileUpgrade r cr w).cr.Status
      ConditionType.UpgradeStarted = true := by
    rw [isLastCondition_append _ cr.Status.Conditions c1 _ hcr, a1]
    rfl
  refine ⟨⟨c1, a1, hcr⟩, ?_, ?_, ?_, ?_, ?_⟩
  · rw [reconcileUpgrade_first r cr w hs]; exact hok _ _ _ _
  · rw [reconcileUpgrade_first r cr w hs]
  · rw [reconcileUpgrade_first r cr w hs]
    intro ev hev
    simp only [List.mem_singleton] at hev
    subst hev; rfl
  · rcases reconcileUpgrade_conditions r (reconcileUpgrade r cr w).cr
        (reconcileUpgrade r cr w).world happ with h1 | ⟨c2, h1, h2⟩
    · exact Or.inl h1
    · right
      rcases h2 with ⟨_, h3⟩ | ⟨h3, _⟩
      · rw [hs2] at h3; cases h3
      · exact ⟨c2, h3, h1⟩
  · intro hnf
    obtain ⟨⟨w2, b1⟩, _, _, _, b5⟩ := reconcileUpgrade_no_failure r (reconcileUpgrade r cr w).cr
      (reconcileUpgrade r cr w).world hs2
      (fun e hmem => by have := hnf _ hmem; cases this)
      (fun ev hmem _ => hnf ev hmem)
      (fun msg t e hmem => by have := hnf _ hmem; cases this)
    refine ⟨b5, ?_⟩
    obtain ⟨c2, d1, _, d3⟩ := happ
      (setStatusVersion (reconcileUpgrade r cr w).cr (reconcileUpgrade r cr w).cr.Spec.Version)
      (completeMessage (reconcileUpgrade r cr w).cr) ConditionType.UpgradeComplete w2
    exact ⟨c2, d1, by rw [b1, d3]; rfl⟩

/-- The concrete reconcilers append: their `updateStatus` is `appendCondition`. -/
theorem constReconciler_appends (comps : List (Component Unit String))
    (ctxErr statusErr : Option Error) :
    AppendsCondition (constReconciler comps ctxErr statusErr) :=
  fun _ msg t _ => ⟨⟨t, msg, ""⟩, rfl, rfl, rfl⟩

/-- C8, amended, on a fully upgraded resource with one installed component:
the first invocation returns a nil error. -/
theorem reconcileUpgrade_twice_after_complete_witness :
    (∃ c, (sampleCR "1.1.0" completeLog).Status.Conditions.getLast? = some c ∧
      c.Type' = ConditionType.UpgradeComplete) ∧
    (reconcileUpgrade (constReconciler [constComponent "a" (true, none) none none none]
        none none) (sampleCR "1.1.0" completeLog) ()).err = none :=
  ⟨⟨_, rfl, rfl⟩,
    (reconcileUpgrade_twice_after_complete
      (constReconciler [constComponent "a" (true, none) none none none] none none)
      (sampleCR "1.1.0" completeLog) () ⟨_, rfl, rfl⟩
      (constReconciler_appends _ _ _) (fun _ _ _ _ => rfl)).2.1⟩

/-! ## C9 -/

/-- The loop reaches a component only by walking over every component before
it: each of them was asked IsInstalled and either answered `(false, nil)` or
answered `(true, nil)` and had PreUpgrade, Upgrade and PostUpgrade called. -/
theorem upgradeComponents_walks_prefix (r : Reconciler W Ctx) (ctx : Ctx)
    (cs : List (Component W Ctx)) :
    ∀ (i : Nat) (cr : Verrazzano) (w : W) (ev : Call) (k : Nat),
      ev ∈ (upgradeComponents r ctx i cs cr w).trace → ev.component = some k →
      ∀ j, i ≤ j → j < k →
        Call.isInstalled j false none ∈ (upgradeComponents r ctx i cs cr w).trace ∨
        (Call.isInstalled j true none ∈ (upgradeComponents r ctx i cs cr w).trace ∧
          Call.preUpgrade j none ∈ (upgradeComponents r ctx i cs cr w).trace ∧
          Call.upgrade j none ∈ (upgradeComponents r ctx i cs cr w).trace ∧
          Call.postUpgrade j none ∈ (upgradeComponents r ctx i cs cr w).trace) := by
  induction cs with
  | nil => intro i cr w ev k hev; simp [upgradeComponents_nil] at hev
  | cons c rest ih =>
    intro i cr w ev k hev hk j hij hjk
    cases h : (upgradeComponent r ctx i c cr w).ret with
    | some ret =>
      rw [upgradeComponents_cons_return r ctx i c rest cr w ret h] at hev
      have := upgradeComponent_component r ctx i c cr w ev hev k hk
      omega
    | none =>
      rw [upgradeComponents_cons_continue r ctx i c rest cr w h] at hev ⊢
      simp only [List.mem_append]
      rcases List.mem_append.1 hev with h1 | h1
      · have := upgradeComponent_component r ctx i c cr w ev h1 k hk
        omega
      · by_cases hji : j = i
        · subst hji
          rcases (upgradeComponent_continue r ctx j c cr w h).2 with h4 | h4
          · left; left; rw [h4]; simp
          · right
            rw [h4]
            simp
        · rcases ih (i + 1) cr _ ev k h1 hk j (by omega) hjk with h5 | ⟨h5, h6, h7, h8⟩
          · exact Or.inl (Or.inr h5)
          · exact Or.inr ⟨Or.inr h5, Or.inr h6, Or.inr h7, Or.inr h8⟩

/-- C9, as stated, fails: with the registry `[a, c]`, `a` installed and
upgrading without error and the Upgrade of `c` failing, the pass after the
failed one only appends UpgradeStarted, and the pass after that calls
PreUpgrade, Upgrade and PostUpgrade of `a` again before it reaches `c`. -/
theorem reconcileUpgrade_retry_repeats_earlier :
    Call.upgrade 1 (some "boom") ∈
      (reconcileUpgrade (constReconciler [constComponent "a" (true, none) none none none,
        constComponent "c" (true, none) none (some "boom") none] none none)
        (sampleCR "1.0.0" startedLog) ()).trace ∧
    Call.upgrade 0 none ∈
      (reconcileUpgrade (constReconciler [constComponent "a" (true, none) none none none,
        constComponent "c" (true, none) none (some "boom") none] none none)
        (sampleCR "1.0.0" startedLog) ()).trace ∧
    (reconcileUpgrade (constReconciler [constComponent "a" (true, none) none none none,
        constComponent "c" (true, none) none (some "boom") none] none none)
      (reconcileUpgrade (constReconciler [constComponent "a" (true, none) none none none,
        constComponent "c" (true, none) none (some "boom") none] none none)
        (sampleCR "1.0.0" startedLog) ()).cr ()).trace
      = [.updateStatus "Verrazzano upgrade to version 1.1.0 in progress"
          ConditionType.UpgradeStarted none] ∧
    (reconcileUpgrade (constReconciler [constComponent "a" (true, none) none none none,
        constComponent "c" (true, none) none (some "boom") none] none none)
      (reconcileUpgrade (constReconciler [constComponent "a" (true, none) none none none,
        constComponent "c" (true, none) none (some "boom") none] none none)
        (reconcileUpgrade (constReconciler [constComponent "a" (true, none) none none none,
          constComponent "c" (true, none) none (some "boom") none] none none)
          (sampleCR "1.0.0" startedLog) ()).cr ()).cr ()).trace.take 6
      = [.newContext none, .isInstalled 0 true none, .preUpgrade 0 none, .upgrade 0 none,
          .postUpgrade 0 none, .isInstalled 1 true none] := by
  decide

/-- C9, amended: after a pass that terminated because the Upgrade of the
component at index `i` failed (with an `updateStatus` that appends), the next
invocation only appends UpgradeStarted and calls no component method; and no
pass resumes at a component: a pass that makes any call on the component at
index `k` has, before that, asked IsInstalled of every component at an index
`j < k`, and has called PreUpgrade, Upgrade and PostUpgrade again on each of
them that answered installed (a preceding component is skipped only when
its IsInstalled returns false). -/
theorem reconcileUpgrade_retry_restarts (r : Reconciler W Ctx) (cr : Verrazzano) (w : W)
    (i : Nat) (e : Error) (happ : AppendsCondition r)
    (h : Call.upgrade i (some e) ∈ (reconcileUpgrade r cr w).trace) :
    (∀ w2, ∃ msg ue, (reconcileUpgrade r (reconcileUpgrade r cr w).cr w2).trace
        = [.updateStatus msg ConditionType.UpgradeStarted ue]) ∧
    (∀ (cr3 : Verrazzano) (w3 : W) (ev : Call) (k : Nat),
      ev ∈ (reconcileUpgrade r cr3 w3).trace → ev.component = some k →
      ∀ j, j < k →
        Call.isInstalled j false none ∈ (reconcileUpgrade r cr3 w3).trace ∨
        (Call.isInstalled j true none ∈ (reconcileUpgrade r cr3 w3).trace ∧
          Call.preUpgrade j none ∈ (reconcileUpgrade r cr3 w3).trace ∧
          Call.upgrade j none ∈ (reconcileUpgrade r cr3 w3).trace ∧
          Call.postUpgrade j none ∈ (reconcileUpgrade r cr3 w3).trace)) := by
  constructor
  · intro w2
    obtain ⟨c, w3, _, _, _, _, _, _, h6⟩ := reconcileUpgrade_upgrade_failure r cr w i e h
    obtain ⟨d, d1, _, d3⟩ := happ cr (failedMessage c.Name cr.Generation e)
      ConditionType.UpgradeFailed w3
    have hs : isLastCondition (reconcileUpgrade r cr w).cr.Status
        ConditionType.UpgradeStarted = false := by
      rw [isLastCondition_append _ cr.Status.Conditions d _ (by rw [h6, d3]), d1]
      rfl
    rw [reconcileUpgrade_first r _ w2 hs]
    exact ⟨_, _, rfl⟩
  · intro cr3 w3 ev k hev hk j hjk
    rcases reconcileUpgrade_loop_view r cr3 w3 with hno | ⟨ctx, w1, tail, _, _, ht, htail, _⟩
    · rw [hno _ hev] at hk
      cases hk
    · have hloop := reconcileUpgrade_component_call r cr3 w3 ctx w1 tail ht htail ev hev k hk
      have hsub : ∀ x, x ∈ (upgradeComponents r ctx 0 r.GetComponents cr3 w1).trace →
          x ∈ (reconcileUpgrade r cr3 w3).trace := by
        intro x hx
        rw [ht]
        exact List.mem_append_left _ (List.mem_cons_of_mem _ hx)
      rcases upgradeComponents_walks_prefix r ctx r.GetComponents 0 cr3 w1 ev k hloop hk j
          (Nat.zero_le _) hjk with h5 | ⟨h5, h6, h7, h8⟩
      · exact Or.inl (hsub _ h5)
      · exact Or.inr ⟨hsub _ h5, hsub _ h6, hsub _ h7, hsub _ h8⟩

/-- C9, amended, on the registry `[a, c]` with the Upgrade of `c` failing:
the invocation after the failed pass makes one call, `updateStatus` with
UpgradeStarted. -/
theorem reconcileUpgrade_retry_restarts_witness :
    Call.upgrade 1 (some "boom") ∈
      (reconcileUpgrade (constReconciler [constComponent "a" (true, none) none none none,
        constComponent "c" (true, none) none (some "boom") none] none none)
        (sampleCR "1.0.0" startedLog) ()).trace ∧
    ∀ w2, ∃ msg ue,
      (reconcileUpgrade (constReconciler [constComponent "a" (true, none) none none none,
        constComponent "c" (true, none) none (some "boom") none] none none)
        (reconcileUpgrade (constReconciler [constComponent "a" (true, none) none none none,
          constComponent "c" (true, none) none (some "boom") none] none none)
          (sampleCR "1.0.0" startedLog) ()).cr w2).trace
        = [.updateStatus msg ConditionType.UpgradeStarted ue] :=
  ⟨by decide,
    (reconcileUpgrade_retry_restarts
      (constReconciler [constComponent "a" (true, none) none none none,
        constComponent "c" (true, none) none (some "boom") none] none none)
      (sampleCR "1.0.0" startedLog) () 1 "boom" (constReconciler_appends _ _ _)
      (by decide)).1⟩

/-! ## C10 -/

/-- C10: in every invocation `reconcileUpgrade` calls `updateStatus` at most
once; when it does not call it the condition log is left as it was, and when
it calls it the resource handed back is the one `updateStatus` leaves, called
on a resource with the condition log as it was before the invocation.  So,
with an `updateStatus` that appends one condition, the log before the
invocation is a prefix of the log after it and the log grows by at most one
entry, on passes that return an error as on the others. -/
theorem reconcileUpgrade_log_append_only (r : Reconciler W Ctx) (cr : Verrazzano) (w : W) :
    ((reconcileUpgrade r cr w).trace.filter Call.isUpdateStatus).length ≤ 1 ∧
    ((reconcileUpgrade r cr w).trace.filter Call.isUpdateStatus = [] →
      (reconcileUpgrade r cr w).cr.Status.Conditions = cr.Status.Conditions) ∧
    (∀ msg t ue,
      (reconcileUpgrade r cr w).trace.filter Call.isUpdateStatus = [.updateStatus msg t ue] →
      ∃ cr2 w2, cr2.Status.Conditions = cr.Status.Conditions ∧
        (reconcileUpgrade r cr w).cr = (r.updateStatus cr2 msg t w2).cr) ∧
    (AppendsCondition r →
      cr.Status.Conditions <+: (reconcileUpgrade r cr w).cr.Status.Conditions ∧
      (reconcileUpgrade r cr w).cr.Status.Conditions.length
        ≤ cr.Status.Conditions.length + 1) := by
  refine ⟨?_, ?_, ?_, ?_⟩
  · rcases reconcileUpgrade_status_effect r cr w with ⟨_, h2⟩ | ⟨_, _, _, _, _, _, _, _, h5, _⟩
    · rw [h2]; simp
    · rw [h5]; simp
  · intro hnil
    rcases reconcileUpgrade_status_effect r cr w with ⟨h1, _⟩ | ⟨_, _, _, _, _, _, _, _, h5, _⟩
    · rw [h1]
    · rw [h5] at hnil; cases hnil
  · intro msg t ue hone
    rcases reconcileUpgrade_status_effect r cr w with ⟨_, h2⟩ |
      ⟨cr2, msg2, t2, w2, h1, _, h3, _, h5, _⟩
    · rw [h2] at hone; cases hone
    · rw [h5] at hone
      simp only [List.cons.injEq, Call.updateStatus.injEq, and_true] at hone
      obtain ⟨rfl, rfl, _⟩ := hone
      exact ⟨cr2, w2, h1, h3⟩
  · intro happ
    rcases reconcileUpgrade_conditions r cr w happ with h1 | ⟨c, h1, _⟩
    · rw [h1]; exact ⟨List.prefix_refl _, Nat.le_succ _⟩
    · rw [h1]; exact ⟨List.prefix_append _ _, by simp⟩

/-- C10 on a pass that returns an error (PostUpgrade of the second component
fails): the log before is a prefix of the log after. -/
theorem reconcileUpgrade_log_append_only_witness :
    AppendsCondition (constReconciler [constComponent "a" (true, none) none none none,
        constComponent "b" (true, none) none none (some "post failed")] none none) ∧
    (sampleCR "1.0.0" startedLog).Status.Conditions <+:
      (reconcileUpgrade (constReconciler [constComponent "a" (true, none) none none none,
        constComponent "b" (true, none) none none (some "post failed")] none none)
        (sampleCR "1.0.0" startedLog) ()).cr.Status.Conditions :=
  ⟨constReconciler_appends _ _ _,
    ((reconcileUpgrade_log_append_only
      (constReconciler [constComponent "a" (true, none) none none none,
        constComponent "b" (true, none) none none (some "post failed")] none none)
      (sampleCR "1.0.0" startedLog) ()).2.2.2 (constReconciler_appends _ _ _)).1⟩

end verrazzano

namespace mysql

variable {W : Type}

/-! ## The readiness-gate count -/

/-- The inner loop over the gates adds, to the count it starts from, the
number of gates matched by the condition. -/
theorem gates_foldl_count (condition : PodCondition) (gates : List String) :
    ∀ n : Nat,
      gates.foldl (fun count2 gate =>
        if condition.Type' = gate ∧ condition.Status = ConditionTrue then count2 + 1
        else count2) n
      = n + gates.countP
          (fun gate => decide (condition.Type' = gate ∧ condition.Status = ConditionTrue)) := by
  induction gates with
  | nil => intro n; simp
  | cons g rest ih =>
    intro n
    rw [List.foldl_cons, ih, List.countP_cons]
    by_cases h : condition.Type' = g ∧ condition.Status = ConditionTrue
    · simp only [h, and_self, if_true, decide_True]; omega
    · simp only [h, if_false, decide_False]; simp

/-- A left fold that adds `f` of each element is the sum of `f` over the list. -/
theorem foldl_add_eq_sum {α : Type} (f : α → Nat) (l : List α) :
    ∀ n : Nat, l.foldl (fun acc a => acc + f a) n = n + (l.map f).sum := by
  induction l with
  | nil => intro n; simp
  | cons a rest ih => intro n; rw [List.foldl_cons, ih]; simp; omega

/-- Counting matching pairs row by row or column by column gives the same
number. -/
theorem sum_countP_comm {α β : Type} (P : α → β → Bool) (l : List α) (m : List β) :
    (l.map (fun a => m.countP (fun b => P a b))).sum
      = (m.map (fun b => l.countP (fun a => P a b))).sum := by
  induction l with
  | nil => simp
  | cons a rest ih =>
    simp only [List.map_cons, List.sum_cons, ih, List.countP_cons]
    clear ih
    induction m with
    | nil => simp
    | cons b m2 ih2 =>
      simp only [List.countP_cons, List.map_cons, List.sum_cons]
      rw [← ih2]
      omega

/-- The count of line 85 is the sum, over the readiness gates, of the number
of status conditions of the gate's type with status True. -/
theorem readyCount_eq_sum (pod : Pod) :
    readyCount pod
      = (pod.ReadinessGates.map (fun gate => pod.Conditions.countP
          (fun condition =>
            decide (condition.Type' = gate ∧ condition.Status = ConditionTrue)))).sum := by
  unfold readyCount
  have h1 : (fun (count : Nat) (condition : PodCondition) =>
      pod.ReadinessGates.foldl (fun count2 gate =>
        if condition.Type' = gate ∧ condition.Status = ConditionTrue then count2 + 1
        else count2) count)
      = fun count condition => count + pod.ReadinessGates.countP
          (fun gate => decide (condition.Type' = gate ∧ condition.Status = ConditionTrue)) := by
    funext count condition
    exact gates_foldl_count condition pod.ReadinessGates count
  rw [h1, foldl_add_eq_sum, Nat.zero_add]
  exact sum_countP_comm
    (fun (condition : PodCondition) (gate : String) =>
      decide (condition.Type' = gate ∧ condition.Status = ConditionTrue))
    pod.Conditions pod.ReadinessGates

/-- With pairwise distinct condition types, a gate is matched by at most one
status condition. -/
theorem countP_gate_le_one (conds : List PodCondition) (gate : String)
    (hnd : (conds.map (fun c => c.Type')).Nodup) :
    conds.countP (fun condition =>
      decide (condition.Type' = gate ∧ condition.Status = ConditionTrue)) ≤ 1 := by
  induction conds with
  | nil => simp
  | cons c rest ih =>
    rw [List.map_cons, List.nodup_cons] at hnd
    rw [List.countP_cons]
    by_cases h : c.Type' = gate ∧ c.Status = ConditionTrue
    · have hz : rest.countP (fun condition =>
          decide (condition.Type' = gate ∧ condition.Status = ConditionTrue)) = 0 := by
        rw [List.countP_eq_zero]
        intro d hd hdec
        simp only [decide_eq_true_eq] at hdec
        apply hnd.1
        rw [h.1, ← hdec.1]
        exact List.mem_map_of_mem _ hd
      rw [hz]
      simp [h]
    · have := ih hnd.2
      simp only [h, decide_False]
      simpa using this

/-- A sum of numbers that are each at most one falls short of the length
exactly when one of them is zero. -/
theorem length_ne_sum_iff {α : Type} (f : α → Nat) (l : List α) (h : ∀ a ∈ l, f a ≤ 1) :
    l.length ≠ (l.map f).sum ↔ ∃ a ∈ l, f a = 0 := by
  have hle : ∀ l : List α, (∀ a ∈ l, f a ≤ 1) → (l.map f).sum ≤ l.length := by
    intro l
    induction l with
    | nil => intro _; simp
    | cons a rest ih =>
      intro h
      have h1 := h a (List.mem_cons_self _ _)
      have h2 := ih (fun b hb => h b (List.mem_cons_of_mem _ hb))
      simp only [List.map_cons, List.sum_cons, List.length_cons]
      omega
  induction l with
  | nil => simp
  | cons a rest ih =>
    have h1 := h a (List.mem_cons_self _ _)
    have h2 : ∀ b ∈ rest, f b ≤ 1 := fun b hb => h b (List.mem_cons_of_mem _ hb)
    have h3 := hle rest h2
    have ih2 := ih h2
    simp only [List.map_cons, List.sum_cons, List.length_cons, List.mem_cons, exists_eq_or_imp]
    constructor
    · intro hne
      by_cases ha : f a = 0
      · exact Or.inl ha
      · right
        apply ih2.1
        omega
    · rintro (ha | hex)
      · omega
      · have := ih2.2 hex
        omega

/-- With pairwise distinct condition types, the count of line 85 differs from
the number of readiness gates exactly when some gate has no status condition
of its type with status True. -/
theorem length_ne_readyCount_iff (pod : Pod)
    (hnd : (pod.Conditions.map (fun c => c.Type')).Nodup) :
    pod.ReadinessGates.length ≠ readyCount pod ↔
      ∃ gate ∈ pod.ReadinessGates, ∀ condition ∈ pod.Conditions,
        ¬ (condition.Type' = gate ∧ condition.Status = ConditionTrue) := by
  rw [readyCount_eq_sum, length_ne_sum_iff _ _ (fun g _ => countP_gate_le_one _ g hnd)]
  constructor
  · rintro ⟨g, hg, hz⟩
    rw [List.countP_eq_zero] at hz
    exact ⟨g, hg, fun c hc => by simpa using hz c hc⟩
  · rintro ⟨g, hg, hz⟩
    refine ⟨g, hg, ?_⟩
    rw [List.countP_eq_zero]
    intro c hc
    simpa using hz c hc

/-- When every pod has status conditions, the loop over the pods returns no
error, and returns true exactly when the count of some pod differs from the
number of its readiness gates. -/
theorem podsWaiting_iff (pods : List Pod) (hc : ∀ p ∈ pods, p.Conditions ≠ []) :
    (podsWaiting pods).2 = none ∧
    ((podsWaiting pods).1 = true ↔ ∃ p ∈ pods, p.ReadinessGates.length ≠ readyCount p) := by
  induction pods with
  | nil => simp [podsWaiting]
  | cons p rest ih =>
    have h1 : p.Conditions.length ≠ 0 := by
      intro h0
      exact hc p (List.mem_cons_self _ _) (List.length_eq_zero.1 h0)
    have ih2 := ih (fun q hq => hc q (List.mem_cons_of_mem _ hq))
    unfold podsWaiting
    simp only [h1, if_false]
    by_cases h2 : p.ReadinessGates.length ≠ readyCount p
    · rw [if_pos h2]
      simp only [List.mem_cons, exists_eq_or_imp]
      exact ⟨trivial, fun _ => Or.inl h2, fun _ => trivial⟩
    · rw [if_neg h2]
      simp only [List.mem_cons, exists_eq_or_imp]
      exact ⟨ih2.1, fun h => Or.inr (ih2.2.1 h), fun h => h.elim (fun h3 => absurd h3 h2) ih2.2.2⟩

/-- On a list that shows stuck pods the loop returns `(true, nil)`. -/
theorem podsWaiting_stuck (pods : List Pod) (h : StuckPods pods) :
    podsWaiting pods = (true, none) := by
  obtain ⟨_, h2, h3⟩ := h
  obtain ⟨e1, e2⟩ := podsWaiting_iff pods h2
  have e3 := e2.2 h3
  exact Prod.ext e3 e1

/-! ## The paths of the two functions -/

/-- `After` the expiry time, in terms of the time elapsed since the timer
was started. -/
theorem after_add_iff (now timer : Time) (d : Int) :
    now.After (timer.Add d) = true ↔ d < now.ns - timer.ns := by
  simp only [Time.After, Time.Add, decide_eq_true_eq]
  omega

/-- With the timer unset the timer is started and nothing else is done. -/
theorem waiting_unset (c : Cluster W) (timer : Time) (w : W) (h : timer.IsZero = true) :
    mySQLPodsWaitingForReadinessGates c timer w
      = ⟨false, none, (c.Now w).1, (c.Now w).2, [.now (c.Now w).1]⟩ := by
  simp [mySQLPodsWaitingForReadinessGates, h]

/-- With the timer set and the wait period not exceeded only the clock is
read. -/
theorem waiting_not_expired (c : Cluster W) (timer : Time) (w : W)
    (h : timer.IsZero = false)
    (hn : (c.Now w).1.After (timer.Add (5 * Minute)) = false) :
    mySQLPodsWaitingForReadinessGates c timer w
      = ⟨false, none, timer, (c.Now w).2, [.now (c.Now w).1]⟩ := by
  simp [mySQLPodsWaitingForReadinessGates, h, hn]

/-- With the timer set and the wait period exceeded the MySQL pods are listed;
on a non-empty list the result is that of the loop over the pods. -/
theorem waiting_expired (c : Cluster W) (timer : Time) (w : W) (items : List Pod)
    (h : timer.IsZero = false)
    (hn : (c.Now w).1.After (timer.Add (5 * Minute)) = true)
    (hl : (c.GetPodsList c.ComponentNamespace (mySQLSelector c) (c.Now w).2).1 = some items)
    (hne : items ≠ []) :
    mySQLPodsWaitingForReadinessGates c timer w
      = ⟨(podsWaiting items).1, (podsWaiting items).2, timer,
          (c.GetPodsList c.ComponentNamespace (mySQLSelector c) (c.Now w).2).2,
          [.now (c.Now w).1,
            .getPodsList c.ComponentNamespace (mySQLSelector c) (some items)]⟩ := by
  have hlen : items.length ≠ 0 := fun h0 => hne (List.length_eq_zero.1 h0)
  simp [mySQLPodsWaitingForReadinessGates, h, hn, hl, hlen]

/-- With the timer set, `mySQLPodsWaitingForReadinessGates` leaves the timer
as it is and deletes nothing. -/
theorem waiting_set_frame (c : Cluster W) (timer : Time) (w : W) (h : timer.IsZero = false) :
    (mySQLPodsWaitingForReadinessGates c timer w).timer = timer ∧
    ∀ ev ∈ (mySQLPodsWaitingForReadinessGates c timer w).trace, ev.isDeleted = false := by
  unfold mySQLPodsWaitingForReadinessGates
  simp only [h, Bool.false_eq_true, if_false]
  split
  · split
    · refine ⟨rfl, ?_⟩
      intro ev hev
      simp only [List.mem_cons, List.mem_singleton, List.not_mem_nil, or_false] at hev
      rcases hev with rfl | rfl <;> rfl
    · split <;>
      · refine ⟨rfl, ?_⟩
        intro ev hev
        simp only [List.mem_cons, List.mem_singleton, List.not_mem_nil, or_false] at hev
        rcases hev with rfl | rfl <;> rfl
  · refine ⟨rfl, ?_⟩
    intro ev hev
    simp only [List.mem_singleton] at hev
    subst hev; rfl

/-- `getMySQLOperatorPod` makes one call: it lists the mysql-operator pods. -/
theorem getMySQLOperatorPod_trace (c : Cluster W) (w : W) :
    (getMySQLOperatorPod c w).trace
      = [.getPodsList c.operatorComponentNamespace (operSelector c)
          (c.GetPodsList c.operatorComponentNamespace (operSelector c) w).1] := by
  unfold getMySQLOperatorPod
  simp only []
  split <;> rfl

/-- A poll with the timer unset starts the timer and does nothing else. -/
theorem repair_unset (c : Cluster W) (timer : Time) (w : W) (h : timer.IsZero = true) :
    repairMySQLPodsWaitingReadinessGates c timer w
      = ⟨none, (c.Now w).1, (c.Now w).2, [.now (c.Now w).1]⟩ := by
  simp [repairMySQLPodsWaitingReadinessGates, waiting_unset c timer w h]

/-- A poll with the timer set and the wait period not exceeded reads the
clock and does nothing else. -/
theorem repair_not_expired (c : Cluster W) (timer : Time) (w : W)
    (h : timer.IsZero = false)
    (hn : (c.Now w).1.After (timer.Add (5 * Minute)) = false) :
    repairMySQLPodsWaitingReadinessGates c timer w
      = ⟨none, timer, (c.Now w).2, [.now (c.Now w).1]⟩ := by
  simp [repairMySQLPodsWaitingReadinessGates, waiting_not_expired c timer w h hn]

/-- A poll of a stalled cluster with the timer set and the wait period
exceeded deletes the mysql-operator pod and clears the timer. -/
theorem repair_expired_stalled (c : Cluster W) (timer : Time) (w : W)
    (h : timer.IsZero = false)
    (hn : (c.Now w).1.After (timer.Add (5 * Minute)) = true)
    (hst : StalledCluster c) :
    ∃ pods p w2, StuckPods pods ∧
      repairMySQLPodsWaitingReadinessGates c timer w
        = ⟨none, Time.zero, w2,
            [.now (c.Now w).1,
              .getPodsList c.ComponentNamespace (mySQLSelector c) (some pods),
              .getPodsList c.operatorComponentNamespace (operSelector c) (some [p]),
              .delete p none]⟩ := by
  obtain ⟨h1, h2, h3⟩ := hst
  obtain ⟨pods, hl, hs⟩ := h1 (c.Now w).2
  obtain ⟨p, hp⟩ := h2 (c.GetPodsList c.ComponentNamespace (mySQLSelector c) (c.Now w).2).2
  refine ⟨pods, p, (c.Delete p (c.GetPodsList c.operatorComponentNamespace (operSelector c)
    (c.GetPodsList c.ComponentNamespace (mySQLSelector c) (c.Now w).2).2).2).2, hs, ?_⟩
  have hw := waiting_expired c timer w pods h hn hl hs.1
  rw [podsWaiting_stuck pods hs] at hw
  have hg : getMySQLOperatorPod c
      (c.GetPodsList c.ComponentNamespace (mySQLSelector c) (c.Now w).2).2
      = ⟨.ok p, (c.GetPodsList c.operatorComponentNamespace (operSelector c)
            (c.GetPodsList c.ComponentNamespace (mySQLSelector c) (c.Now w).2).2).2,
          [.getPodsList c.operatorComponentNamespace (operSelector c) (some [p])]⟩ := by
    simp [getMySQLOperatorPod, hp]
  simp [repairMySQLPodsWaitingReadinessGates, hw, hg, h3]

/-- A poll leaves the timer as `mySQLPodsWaitingForReadinessGates` left it,
or deletes a pod successfully and clears the timer. -/
theorem repair_timer_cases (c : Cluster W) (timer : Time) (w : W) :
    (repairMySQLPodsWaitingReadinessGates c timer w).timer
        = (mySQLPodsWaitingForReadinessGates c timer w).timer ∨
    ∃ p, Call.delete p none ∈ (repairMySQLPodsWaitingReadinessGates c timer w).trace ∧
      (repairMySQLPodsWaitingReadinessGates c timer w).timer = Time.zero := by
  unfold repairMySQLPodsWaitingReadinessGates
  simp only []
  split
  · exact Or.inl rfl
  · split
    · split
      · exact Or.inl rfl
      · split
        · exact Or.inl rfl
        · rename_i operPod _ _ _
          exact Or.inr ⟨operPod, by simp, rfl⟩
    · exact Or.inl rfl

/-- While the wait period is not exceeded, the polls of a run read the clock
and do nothing else. -/
theorem runPolls_waiting (c : Cluster W) (t0 : Time) (h0 : t0.IsZero = false)
    (pre rest : List W) (hpre : ∀ v ∈ pre, (c.Now v).1.ns - t0.ns ≤ 5 * Minute) :
    runPolls c t0 (pre ++ rest)
      = pre.map (fun v => ⟨none, t0, (c.Now v).2, [.now (c.Now v).1]⟩) ++ runPolls c t0 rest := by
  induction pre with
  | nil => rfl
  | cons v vs ih =>
    have hv : (c.Now v).1.After (t0.Add (5 * Minute)) = false := by
      cases hA : (c.Now v).1.After (t0.Add (5 * Minute)) with
      | false => rfl
      | true =>
        have := (after_add_iff _ _ _).1 hA
        have := hpre v (List.mem_cons_self _ _)
        omega
    have hr := repair_not_expired c t0 v h0 hv
    have ih2 := ih (fun u hu => hpre u (List.mem_cons_of_mem _ hu))
    simp only [List.cons_append, runPolls, List.map_cons, hr, List.cons.injEq, true_and]
    exact ih2

/-- The concrete cluster with a stuck pod is stalled. -/
theorem clockCluster_stalled : StalledCluster (clockCluster (some [stuckPod]) none) := by
  refine ⟨fun w => ⟨[stuckPod], rfl, ?_⟩, fun w => ⟨operatorPod, rfl⟩, fun _ _ => rfl⟩
  exact ⟨by simp, by decide, by decide⟩

/-! ## C11 -/

/-- C11: with the stall timer unset, `mySQLPodsWaitingForReadinessGates` sets
the timer to the current time and returns `(false, nil)` after reading the
clock only, without listing pods, and `repairMySQLPodsWaitingReadinessGates`
makes no `Delete` call and returns nil on that poll. -/
theorem repair_timer_unset_starts_timer (c : Cluster W) (timer : Time) (w : W)
    (h : timer.IsZero = true) :
    (mySQLPodsWaitingForReadinessGates c timer w).waiting = false ∧
    (mySQLPodsWaitingForReadinessGates c timer w).err = none ∧
    (mySQLPodsWaitingForReadinessGates c timer w).timer = (c.Now w).1 ∧
    (mySQLPodsWaitingForReadinessGates c timer w).trace = [.now (c.Now w).1] ∧
    (repairMySQLPodsWaitingReadinessGates c timer w).err = none ∧
    (repairMySQLPodsWaitingReadinessGates c timer w).trace = [.now (c.Now w).1] ∧
    (∀ p e, Call.delete p e ∉ (repairMySQLPodsWaitingReadinessGates c timer w).trace) ∧
    (repairMySQLPodsWaitingReadinessGates c timer w).timer = (c.Now w).1 := by
  rw [waiting_unset c timer w h, repair_unset c timer w h]
  refine ⟨rfl, rfl, rfl, rfl, rfl, rfl, ?_, rfl⟩
  intro p e hmem
  simp at hmem

/-- C11 on the concrete cluster, polled at clock reading 1000 with the timer
unset. -/
theorem repair_timer_unset_starts_timer_witness :
    Time.zero.IsZero = true ∧
    (repairMySQLPodsWaitingReadinessGates (clockCluster (some [stuckPod]) none)
      Time.zero ⟨1000⟩).timer = ⟨1000⟩ :=
  ⟨rfl, (repair_timer_unset_starts_timer (clockCluster (some [stuckPod]) none)
    Time.zero ⟨1000⟩ rfl).2.2.2.2.2.2.2⟩

/-! ## C12 -/

/-- C12, as stated, fails: with the timer started at clock reading 1000 and
a stuck pod, a poll at exactly five minutes after the start (elapsed time
equal to the threshold) deletes nothing and leaves the timer as it is; the
mysql-operator pod is deleted by a poll one nanosecond later. -/
theorem repair_at_threshold_waits :
    podsWaiting [stuckPod] = (true, none) ∧
    (5 * Minute ≤ (1000 + 5 * Minute) - 1000) ∧
    (repairMySQLPodsWaitingReadinessGates (clockCluster (some [stuckPod]) none)
      ⟨1000⟩ ⟨1000 + 5 * Minute⟩).trace = [.now ⟨1000 + 5 * Minute⟩] ∧
    (repairMySQLPodsWaitingReadinessGates (clockCluster (some [stuckPod]) none)
      ⟨1000⟩ ⟨1000 + 5 * Minute⟩).timer = ⟨1000⟩ ∧
    (repairMySQLPodsWaitingReadinessGates (clockCluster (some [stuckPod]) none)
      ⟨1000⟩ ⟨1001 + 5 * Minute⟩).trace.filter Call.isDeleted
      = [.delete operatorPod none] := by
  decide

/-- C12, amended: with the timer started at `t0`, a stalled cluster (MySQL
pods stuck at every listing, exactly one mysql-operator pod, `Delete`
succeeding) and a sequence of polls of which all but the last are made at
times `t` with `t - t0` at most five minutes and the last at a time with
`t - t0` greater than five minutes: no earlier poll deletes a pod or changes
the timer, the last poll deletes the mysql-operator pod, once, the timer is
the zero time after it, and the polls of the sequence make exactly one
successful `Delete` together. -/
theorem repair_fires_once_past_threshold (c : Cluster W) (t0 : Time) (pre : List W) (w : W)
    (h0 : t0.IsZero = false) (hst : StalledCluster c)
    (hpre : ∀ v ∈ pre, (c.Now v).1.ns - t0.ns ≤ 5 * Minute)
    (hw : 5 * Minute < (c.Now w).1.ns - t0.ns) :
    (∀ o ∈ runPolls c t0 pre, o.trace.filter Call.isDeleted = [] ∧ o.timer = t0) ∧
    runPolls c t0 (pre ++ [w])
      = runPolls c t0 pre ++ [repairMySQLPodsWaitingReadinessGates c t0 w] ∧
    (∃ p, Call.getPodsList c.operatorComponentNamespace (operSelector c) (some [p])
        ∈ (repairMySQLPodsWaitingReadinessGates c t0 w).trace ∧
      (repairMySQLPodsWaitingReadinessGates c t0 w).trace.filter Call.isDeleted
        = [.delete p none]) ∧
    (repairMySQLPodsWaitingReadinessGates c t0 w).timer = Time.zero ∧
    ((runPolls c t0 (pre ++ [w])).map
      (fun o => (o.trace.filter Call.isDeleted).length)).sum = 1 := by
  have hpre2 := runPolls_waiting c t0 h0 pre [] hpre
  rw [List.append_nil, show runPolls c t0 [] = [] from rfl, List.append_nil] at hpre2
  have hall := runPolls_waiting c t0 h0 pre [w] hpre
  obtain ⟨pods, p, w2, _, hr⟩ := repair_expired_stalled c t0 w h0
    ((after_add_iff _ _ _).2 hw) hst
  have hlast : runPolls c t0 [w] = [repairMySQLPodsWaitingReadinessGates c t0 w] := rfl
  refine ⟨?_, ?_, ⟨p, ?_, ?_⟩, ?_, ?_⟩
  · intro o ho
    rw [hpre2] at ho
    obtain ⟨v, _, rfl⟩ := List.mem_map.1 ho
    exact ⟨by simp [List.filter, Call.isDeleted], rfl⟩
  · rw [hall, hpre2, hlast]
  · rw [hr]; simp
  · rw [hr]; simp [List.filter, Call.isDeleted]
  · rw [hr]
  · rw [hall, hlast, hr]
    have hz : ((fun o : Repair W => (o.trace.filter Call.isDeleted).length) ∘
        fun v => (⟨none, t0, (c.Now v).2, [.now (c.Now v).1]⟩ : Repair W)) = fun _ => 0 := by
      funext v
      simp [List.filter, Call.isDeleted]
    simp [List.filter, Call.isDeleted, hz]

/-- C12, amended, on the concrete cluster with the timer started at clock
reading 1000: polls at two and at five minutes wait, the poll one nanosecond
after five minutes clears the timer. -/
theorem repair_fires_once_past_threshold_witness :
    StalledCluster (clockCluster (some [stuckPod]) none) ∧
    (repairMySQLPodsWaitingReadinessGates (clockCluster (some [stuckPod]) none)
      ⟨1000⟩ ⟨1001 + 5 * Minute⟩).timer = Time.zero :=
  ⟨clockCluster_stalled,
    (repair_fires_once_past_threshold (clockCluster (some [stuckPod]) none) ⟨1000⟩
      [⟨1000 + 2 * Minute⟩, ⟨1000 + 5 * Minute⟩] ⟨1001 + 5 * Minute⟩ rfl clockCluster_stalled
      (by decide) (by decide)).2.2.2.1⟩

/-! ## C13 -/

/-- C13: starting from an unset timer, three polls of a stalled cluster (MySQL
pods stuck at every listing, exactly one mysql-operator pod, `Delete`
succeeding) made at `base`, two minutes later and six minutes later: the first
two polls delete nothing, the third deletes the mysql-operator pod, once, and
the timer is the zero time after the third poll. -/
theorem repair_three_polls (c : Cluster W) (base : Time) (w1 w2 w3 : W)
    (hb : base.IsZero = false) (hst : StalledCluster c)
    (h1 : (c.Now w1).1 = base)
    (h2 : (c.Now w2).1 = base.Add (2 * Minute))
    (h3 : (c.Now w3).1 = base.Add (6 * Minute)) :
    ∃ o1 o2 o3, runPolls c Time.zero [w1, w2, w3] = [o1, o2, o3] ∧
      (∀ p e, Call.delete p e ∉ o1.trace) ∧
      (∀ p e, Call.delete p e ∉ o2.trace) ∧
      (∃ p, Call.getPodsList c.operatorComponentNamespace (operSelector c) (some [p])
          ∈ o3.trace ∧
        o3.trace.filter Call.isDeleted = [.delete p none]) ∧
      o3.timer = Time.zero := by
  have hr1 := repair_unset c Time.zero w1 rfl
  rw [h1] at hr1
  have hn2 : (c.Now w2).1.After (base.Add (5 * Minute)) = false := by
    cases hA : (c.Now w2).1.After (base.Add (5 * Minute)) with
    | false => rfl
    | true =>
      have := (after_add_iff _ _ _).1 hA
      rw [h2] at this
      simp only [Time.Add, Minute] at this
      omega
  have hr2 := repair_not_expired c base w2 hb hn2
  have hn3 : (c.Now w3).1.After (base.Add (5 * Minute)) = true := by
    rw [after_add_iff, h3]
    simp only [Time.Add, Minute]
    omega
  obtain ⟨pods, p, w4, _, hr3⟩ := repair_expired_stalled c base w3 hb hn3 hst
  refine ⟨_, _, _, rfl, ?_, ?_, ⟨p, ?_, ?_⟩, ?_⟩
  · intro q e hmem
    rw [hr1] at hmem
    simp at hmem
  · intro q e hmem
    rw [hr1, hr2] at hmem
    simp at hmem
  · rw [hr1, hr2, hr3]; simp
  · rw [hr1, hr2, hr3]; simp [List.filter, Call.isDeleted]
  · rw [hr1, hr2, hr3]

/-- C13 on the concrete cluster, polled at clock readings 1000, 1000 + 2 min
and 1000 + 6 min. -/
theorem repair_three_polls_witness :
    StalledCluster (clockCluster (some [stuckPod]) none) ∧
    ∃ o1 o2 o3, runPolls (clockCluster (some [stuckPod]) none) Time.zero
        [⟨1000⟩, Time.Add ⟨1000⟩ (2 * Minute), Time.Add ⟨1000⟩ (6 * Minute)] = [o1, o2, o3] ∧
      (∀ p e, Call.delete p e ∉ o1.trace) ∧
      (∀ p e, Call.delete p e ∉ o2.trace) ∧
      (∃ p, Call.getPodsList "mysql-operator" ⟨"name", LabelSelectorOpIn, ["mysql-operator"]⟩
          (some [p]) ∈ o3.trace ∧
        o3.trace.filter Call.isDeleted = [.delete p none]) ∧
      o3.timer = Time.zero :=
  ⟨clockCluster_stalled,
    repair_three_polls (clockCluster (some [stuckPod]) none) ⟨1000⟩
      ⟨1000⟩ (Time.Add ⟨1000⟩ (2 * Minute)) (Time.Add ⟨1000⟩ (6 * Minute))
      rfl clockCluster_stalled rfl rfl rfl⟩

/-! ## C14 -/

/-- C14: a poll that starts with the timer set and in which no `Delete` call
succeeds (whatever the reason: wait period not exceeded, no pod found stuck,
an error from the listing or from a pod without conditions, the
mysql-operator pod not found as the only one, or `Delete` failing) leaves
the timer as it was. -/
theorem repair_without_delete_keeps_timer (c : Cluster W) (timer : Time) (w : W)
    (h : timer.IsZero = false)
    (hnd : ∀ p, Call.delete p none ∉ (repairMySQLPodsWaitingReadinessGates c timer w).trace) :
    (repairMySQLPodsWaitingReadinessGates c timer w).timer = timer := by
  rcases repair_timer_cases c timer w with h1 | ⟨p, h1, _⟩
  · rw [h1]
    exact (waiting_set_frame c timer w h).1
  · exact absurd h1 (hnd p)

/-- C14 on the concrete cluster with a failing `Delete`: the wait period is
exceeded and the pods are stuck, and the timer stays as it was. -/
theorem repair_without_delete_keeps_timer_witness :
    (repairMySQLPodsWaitingReadinessGates
      (clockCluster (some [stuckPod]) (some "forbidden")) ⟨1000⟩ ⟨1000 + 6 * Minute⟩).err
        = some "forbidden" ∧
    (repairMySQLPodsWaitingReadinessGates
      (clockCluster (some [stuckPod]) (some "forbidden")) ⟨1000⟩ ⟨1000 + 6 * Minute⟩).timer
        = ⟨1000⟩ :=
  ⟨by decide,
    repair_without_delete_keeps_timer (clockCluster (some [stuckPod]) (some "forbidden"))
      ⟨1000⟩ ⟨1000 + 6 * Minute⟩ rfl (fun p hmem => by
        have hf : (repairMySQLPodsWaitingReadinessGates
            (clockCluster (some [stuckPod]) (some "forbidden")) ⟨1000⟩
            ⟨1000 + 6 * Minute⟩).trace.filter Call.isDeleted = [] := by decide
        have hin := List.mem_filter.2 ⟨hmem, (rfl : (Call.delete p none).isDeleted = true)⟩
        rw [hf] at hin
        cases hin)⟩

/-! ## C18 -/

/-- C18 evaluated on the code, on pods with two status conditions of one type:
the loop counts the pairs of a condition and a gate that match and compares
the count with the number of gates. After the wait period, for a pod with one
readiness gate and two True conditions of the gate's type the call returns
true though every readiness gate has a True condition of its type (against
the comment "All readiness gates must be true"); and for a pod with two
readiness gates, two True conditions of the type of the first and none of the
type of the second, the call returns false. -/
theorem waiting_counts_duplicate_conditions :
    (∀ gate ∈ doubledPod.ReadinessGates, ∃ condition ∈ doubledPod.Conditions,
      condition.Type' = gate ∧ condition.Status = ConditionTrue) ∧
    (mySQLPodsWaitingForReadinessGates (clockCluster (some [doubledPod]) none)
      ⟨1000⟩ ⟨1000 + 6 * Minute⟩).waiting = true ∧
    (mySQLPodsWaitingForReadinessGates (clockCluster (some [doubledPod]) none)
      ⟨1000⟩ ⟨1000 + 6 * Minute⟩).err = none ∧
    (∃ gate ∈ maskedPod.ReadinessGates, ∀ condition ∈ maskedPod.Conditions,
      ¬ (condition.Type' = gate ∧ condition.Status = ConditionTrue)) ∧
    (mySQLPodsWaitingForReadinessGates (clockCluster (some [maskedPod]) none)
      ⟨1000⟩ ⟨1000 + 6 * Minute⟩).waiting = false ∧
    (mySQLPodsWaitingForReadinessGates (clockCluster (some [maskedPod]) none)
      ⟨1000⟩ ⟨1000 + 6 * Minute⟩).err = none := by
  decide

/-- Where no pod has two status conditions of the same type the count is
right: for every call made with the timer set and the five-minute wait period
exceeded, on a non-empty pod list in which every pod has at least one status
condition and no pod has two status conditions of the same type, the call
returns no error, and returns true if and only if some pod has a readiness
gate for which it has no status condition of the gate's condition type with
status True. -/
theorem waiting_iff_gate_unmet (c : Cluster W) (timer : Time) (w : W) (pods : List Pod)
    (h : timer.IsZero = false)
    (hn : (c.Now w).1.After (timer.Add (5 * Minute)) = true)
    (hl : (c.GetPodsList c.ComponentNamespace (mySQLSelector c) (c.Now w).2).1 = some pods)
    (hne : pods ≠ [])
    (hc : ∀ p ∈ pods, p.Conditions ≠ [])
    (hnd : ∀ p ∈ pods, (p.Conditions.map (fun condition => condition.Type')).Nodup) :
    (mySQLPodsWaitingForReadinessGates c timer w).err = none ∧
    ((mySQLPodsWaitingForReadinessGates c timer w).waiting = true ↔
      ∃ p ∈ pods, ∃ gate ∈ p.ReadinessGates, ∀ condition ∈ p.Conditions,
        ¬ (condition.Type' = gate ∧ condition.Status = ConditionTrue)) := by
  rw [waiting_expired c timer w pods h hn hl hne]
  obtain ⟨e1, e2⟩ := podsWaiting_iff pods hc
  refine ⟨e1, e2.trans ?_⟩
  constructor
  · rintro ⟨p, hp, hlen⟩
    exact ⟨p, hp, (length_ne_readyCount_iff p (hnd p hp)).1 hlen⟩
  · rintro ⟨p, hp, hg⟩
    exact ⟨p, hp, (length_ne_readyCount_iff p (hnd p hp)).2 hg⟩

/-- The same on the concrete cluster with the stuck pod, six minutes after the
timer was started: the call returns no error. -/
theorem waiting_iff_gate_unmet_witness :
    (clockCluster (some [stuckPod]) none).Now ⟨1000 + 6 * Minute⟩
      = (⟨1000 + 6 * Minute⟩, ⟨1000 + 6 * Minute⟩) ∧
    (mySQLPodsWaitingForReadinessGates (clockCluster (some [stuckPod]) none)
      ⟨1000⟩ ⟨1000 + 6 * Minute⟩).err = none :=
  ⟨rfl,
    (waiting_iff_gate_unmet (clockCluster (some [stuckPod]) none) ⟨1000⟩ ⟨1000 + 6 * Minute⟩
      [stuckPod] rfl (by decide) rfl (by simp) (by decide) (by decide)).1⟩

end mysql

namespace mcagent

open verrazzano (Contains)

variable {W AC : Type}

/-! ## C15 -/

/-- Reading a key from a list of pairs finds a value exactly when the key is
among the keys. -/
theorem pairs_lookup_none_iff (m : List (String × String)) (key : String) :
    m.lookup key = none ↔ key ∉ m.map Prod.fst := by
  induction m with
  | nil => simp
  | cons kv rest ih =>
    obtain ⟨a, b⟩ := kv
    by_cases h : key = a
    · subst h
      simp [List.lookup]
    · have hb : (key == a) = false := by simpa using h
      simp [List.lookup, hb, ih, h]

/-- The map read is absent exactly when the secret's data does not contain the
key. -/
theorem secret_lookup_none_iff (secret : Secret) (key : String) :
    secret.lookup key = none ↔ ¬ secret.hasKey key := by
  unfold Secret.lookup Secret.hasKey
  cases hd : secret.Data with
  | none => simp
  | some m =>
    simp only [Option.some.injEq, exists_eq_left']
    exact pairs_lookup_none_iff m key

/-- C15: `validateAgentSecret` returns nil if and only if the secret's data
contains both the cluster-name key and the admin-kubeconfig key; when the
cluster-name key is missing (with or without the other) the error text
contains `missing the required field` followed by the cluster-name key, and
when only the admin-kubeconfig key is missing it contains that text followed
by the admin-kubeconfig key. -/
theorem validateAgentSecret_both_fields (k : Constants) (secret : Secret) :
    (validateAgentSecret k secret = none ↔
      secret.hasKey k.ClusterNameData ∧ secret.hasKey k.AdminKubeconfigData) ∧
    (¬ secret.hasKey k.ClusterNameData →
      ∃ e, validateAgentSecret k secret = some e ∧
        Contains e ("missing the required field " ++ k.ClusterNameData)) ∧
    (secret.hasKey k.ClusterNameData → ¬ secret.hasKey k.AdminKubeconfigData →
      ∃ e, validateAgentSecret k secret = some e ∧
        Contains e ("missing the required field " ++ k.AdminKubeconfigData)) := by
  have h1 := secret_lookup_none_iff secret k.ClusterNameData
  have h2 := secret_lookup_none_iff secret k.AdminKubeconfigData
  unfold validateAgentSecret
  cases hc : secret.lookup k.ClusterNameData with
  | none =>
    have hn := h1.1 hc
    refine ⟨by simp [hn], fun _ => ⟨_, rfl, ?_⟩, fun hk => absurd hk hn⟩
    exact ⟨("the secret named " ++ secret.Name ++ " in namespace " ++ secret.Namespace ++
      " is ").data, [], by simp [String.data_append]⟩
  | some v =>
    have hk : secret.hasKey k.ClusterNameData := by
      by_contra hcon
      rw [h1.2 hcon] at hc
      cases hc
    cases ha : secret.lookup k.AdminKubeconfigData with
    | none =>
      have hn := h2.1 ha
      refine ⟨by simp [hn], fun hcon => absurd hk hcon, fun _ _ => ⟨_, rfl, ?_⟩⟩
      exact ⟨("the secret named " ++ secret.Name ++ " in namespace " ++ secret.Namespace ++
        " is ").data, [], by simp [String.data_append]⟩
    | some v2 =>
      have hk2 : secret.hasKey k.AdminKubeconfigData := by
        by_contra hcon
        rw [h2.2 hcon] at ha
        cases ha
      exact ⟨by simp [hk, hk2], fun hcon => absurd hk hcon, fun _ hcon => absurd hk2 hcon⟩

/-- C15 on the secrets of `TestValidateSecret`: the valid secret passes, and
the secret without a cluster name is refused. -/
theorem validateAgentSecret_both_fields_witness :
    validateAgentSecret sampleConstants (validSecret "") = none ∧
    ∃ e, validateAgentSecret sampleConstants
        { validSecret "" with Data := some [("admin-kubeconfig", "kubeconfig")] } = some e ∧
      Contains e ("missing the required field " ++ sampleConstants.ClusterNameData) :=
  ⟨(validateAgentSecret_both_fields sampleConstants (validSecret "")).1.2
      ⟨⟨_, rfl, by decide⟩, ⟨_, rfl, by decide⟩⟩,
    (validateAgentSecret_both_fields sampleConstants
      { validSecret "" with Data := some [("admin-kubeconfig", "kubeconfig")] }).2.1
      (by rintro ⟨m, hm, hmem⟩; cases hm; revert hmem; decide)⟩

/-! ## C16 -/

/-- C16: when fetching the agent secret fails, `ProcessAgentThread` returns a
nil error after that one client call; when the failure is a not-found error
and `AgentSecretFound` was true, the two flags `AgentSecretFound` and
`AgentSecretValid` are set to false (and nothing else of the Syncer changes),
and otherwise the Syncer is left as it was. -/
theorem processAgentThread_secret_error (k : Constants) (c : Cluster W AC) (s : Syncer AC)
    (w : W) (err : ClientError)
    (h : (c.GetSecret k.VerrazzanoSystemNamespace k.MCAgentSecret w).1 = .error err) :
    (ProcessAgentThread k c s w).ret = .returned none ∧
    (ProcessAgentThread k c s w).trace
      = [.getSecret k.VerrazzanoSystemNamespace k.MCAgentSecret (some err)] ∧
    (err.notFound = true ∧ s.AgentSecretFound = true →
      (ProcessAgentThread k c s w).s
        = { s with AgentSecretFound := false, AgentSecretValid := false }) ∧
    (¬ (err.notFound = true ∧ s.AgentSecretFound = true) →
      (ProcessAgentThread k c s w).s = s) := by
  unfold ProcessAgentThread
  simp only [h]
  by_cases hc : err.notFound = true ∧ s.AgentSecretFound = true
  · have hi : ((IgnoreNotFoundWithLog err).isNone && s.AgentSecretFound) = true := by
      simp [IgnoreNotFoundWithLog, hc.1, hc.2]
    simp only [hi, if_true]
    exact ⟨trivial, trivial, fun _ => trivial, fun hcon => absurd hc hcon⟩
  · have hi : ((IgnoreNotFoundWithLog err).isNone && s.AgentSecretFound) = false := by
      by_cases hn : err.notFound = true
      · have : s.AgentSecretFound = false := by
          cases hs : s.AgentSecretFound with
          | false => rfl
          | true => exact absurd ⟨hn, hs⟩ hc
        simp [this]
      · simp [IgnoreNotFoundWithLog, hn]
    simp only [hi, Bool.false_eq_true, if_false]
    exact ⟨trivial, trivial, fun hcon => absurd hcon hc, fun _ => trivial⟩

/-- C16 on `TestProcessAgentThreadSecretDeleted`: the secret is not found and
`AgentSecretFound` was true. -/
theorem processAgentThread_secret_error_witness :
    (ProcessAgentThread sampleConstants (sampleCluster (.error ⟨true, "not found"⟩) none)
      (sampleSyncer true "") ()).ret = .returned none ∧
    (ProcessAgentThread sampleConstants (sampleCluster (.error ⟨true, "not found"⟩) none)
      (sampleSyncer true "") ()).s.AgentSecretFound = false :=
  ⟨(processAgentThread_secret_error sampleConstants
      (sampleCluster (.error ⟨true, "not found"⟩) none) (sampleSyncer true "") ()
      ⟨true, "not found"⟩ rfl).1,
    by decide⟩

/-! ## C17 -/

/-- `GetAPIServerURL` builds no admin client. -/
theorem GetAPIServerURL_trace (k : Constants) (c : Cluster W AC) (w : W) :
    ∀ ev ∈ (GetAPIServerURL k c w).trace, ev.isGetAdminClient = false := by
  intro ev hev
  unfold GetAPIServerURL at hev
  simp only [] at hev
  split at hev
  · simp only [List.mem_singleton] at hev; subst hev; rfl
  · split at hev
    · simp only [List.mem_singleton] at hev; subst hev; rfl
    · split at hev <;>
      · simp only [List.mem_singleton] at hev; subst hev; rfl

/-- `GetPrometheusHost` builds no admin client. -/
theorem GetPrometheusHost_trace (k : Constants) (c : Cluster W AC) (w : W) :
    ∀ ev ∈ (GetPrometheusHost k c w).trace, ev.isGetAdminClient = false := by
  intro ev hev
  unfold GetPrometheusHost at hev
  simp only [] at hev
  split at hev
  · simp only [List.mem_singleton] at hev; subst hev; rfl
  · split at hev
    · simp only [List.mem_singleton] at hev; subst hev; rfl
    · split at hev <;>
      · simp only [List.mem_singleton] at hev; subst hev; rfl

/-- `updateVMCStatus` builds no admin client. -/
theorem updateVMCStatus_trace (k : Constants) (c : Cluster W AC) (s : Syncer AC) (w : W) :
    ∀ ev ∈ (updateVMCStatus k c s w).trace, ev.isGetAdminClient = false := by
  intro ev hev
  unfold updateVMCStatus at hev
  simp only [] at hev
  have ha := GetAPIServerURL_trace k c
  have hp := GetPrometheusHost_trace k c
  split at hev
  · simp at hev
  · split at hev
    · simp only [List.mem_singleton] at hev; subst hev; rfl
    · split at hev
      · simp only [List.mem_append, List.mem_cons, List.mem_singleton, List.not_mem_nil,
          or_false] at hev
        rcases hev with (rfl | rfl) | h1
        · rfl
        · rfl
        · exact ha _ ev h1
      · simp only [List.mem_append, List.mem_cons, List.mem_singleton, List.not_mem_nil,
          or_false] at hev
        rcases hev with (rfl | rfl) | h1
        · rfl
        · rfl
        · exact ha _ ev h1
      · split at hev
        · simp only [List.mem_append, List.mem_cons, List.mem_singleton, List.not_mem_nil,
            or_false] at hev
          rcases hev with ((rfl | rfl) | h1) | h1
          · rfl
          · rfl
          · exact ha _ ev h1
          · exact hp _ ev h1
        · simp only [List.mem_append, List.mem_cons, List.mem_singleton, List.not_mem_nil,
            or_false] at hev
          rcases hev with ((rfl | rfl) | h1) | h1
          · rfl
          · rfl
          · exact ha _ ev h1
          · exact hp _ ev h1
        · simp only [List.mem_append, List.mem_cons, List.mem_singleton, List.not_mem_nil,
            or_false] at hev
          rcases hev with (((rfl | rfl) | h1) | h1) | rfl
          · rfl
          · rfl
          · exact ha _ ev h1
          · exact hp _ ev h1
          · rfl

/-- `GetAPIServerURL` returns when the ingress has a first host. -/
theorem GetAPIServerURL_returns (k : Constants) (c : Cluster W AC) (w : W)
    (h : HostsPresent c) : ∃ v, (GetAPIServerURL k c w).ret = .returned v := by
  unfold GetAPIServerURL
  simp only []
  cases hg : (c.GetIngress k.VerrazzanoSystemNamespace k.VzConsoleIngress w).1 with
  | error err => exact ⟨_, rfl⟩
  | ok ingress =>
    obtain ⟨tls, rest, host, hosts, h1, h2⟩ := h _ _ _ ingress hg
    simp only [h1, h2]
    exact ⟨_, rfl⟩

/-- `GetPrometheusHost` returns when the ingress has a first host. -/
theorem GetPrometheusHost_returns (k : Constants) (c : Cluster W AC) (w : W)
    (h : HostsPresent c) : ∃ v, (GetPrometheusHost k c w).ret = .returned v := by
  unfold GetPrometheusHost
  simp only []
  cases hg : (c.GetIngress k.VerrazzanoSystemNamespace k.VzPrometheusIngress w).1 with
  | error err => exact ⟨_, rfl⟩
  | ok ingress =>
    obtain ⟨tls, rest, host, hosts, h1, h2⟩ := h _ _ _ ingress hg
    simp only [h1, h2]
    exact ⟨_, rfl⟩

/-- `updateVMCStatus` returns when the admin client is set and the ingresses
have a first host. -/
theorem updateVMCStatus_returns (k : Constants) (c : Cluster W AC) (s : Syncer AC) (w : W)
    (hc : s.AdminClient ≠ none) (h : HostsPresent c) :
    (updateVMCStatus k c s w).ret ≠ .panicked := by
  unfold updateVMCStatus
  simp only []
  cases hac : s.AdminClient with
  | none => exact absurd hac hc
  | some ac =>
    simp only []
    cases hg : (c.AdminGetVMC ac k.VerrazzanoMultiClusterNamespace s.ManagedClusterName w).1 with
    | error err => simp
    | ok vmc =>
      simp only []
      obtain ⟨⟨url, e1⟩, ha⟩ := GetAPIServerURL_returns k c
        (c.Now (c.AdminGetVMC ac k.VerrazzanoMultiClusterNamespace s.ManagedClusterName w).2).2 h
      rw [ha]
      cases e1 with
      | some err => simp
      | none =>
        simp only []
        obtain ⟨⟨host, e2⟩, hp⟩ := GetPrometheusHost_returns k c
          (GetAPIServerURL k c (c.Now
            (c.AdminGetVMC ac k.VerrazzanoMultiClusterNamespace s.ManagedClusterName w).2).2).world
          h
        rw [hp]
        cases e2 with
        | some err => simp
        | none => simp

/-- The loop over the project namespaces builds no admin client. -/
theorem syncNamespaces_trace (c : Cluster W AC) (s : Syncer AC) (nss : List String) :
    ∀ (w : W), ∀ ev ∈ (syncNamespaces c s nss w).2, ev.isGetAdminClient = false := by
  induction nss with
  | nil => intro w ev hev; simp [syncNamespaces] at hev
  | cons ns rest ih =>
    intro w ev hev
    simp only [syncNamespaces, syncNamespace, List.mem_append, List.mem_cons,
      List.mem_singleton, List.not_mem_nil, or_false] at hev
    rcases hev with (rfl | rfl | rfl | rfl | rfl) | h1
    · rfl
    · rfl
    · rfl
    · rfl
    · rfl
    · exact ih _ ev h1

/-- Lines 111-120 of `ProcessAgentThread` return a nil error unless
`updateVMCStatus` panics, write no field of the Syncer but
`ProjectNamespaces`, and build no admin client. -/
theorem connectAndSync_spec (k : Constants) (c : Cluster W AC) (s : Syncer AC) (w : W)
    (t : List Call) :
    ((connectAndSync k c s w t).ret = .returned none ∨
      ((connectAndSync k c s w t).ret = .panicked ∧
        (updateVMCStatus k c s w).ret = .panicked)) ∧
    ((updateVMCStatus k c s w).ret ≠ .panicked →
      (connectAndSync k c s w t).ret = .returned none) ∧
    (connectAndSync k c s w t).s.AdminClient = s.AdminClient ∧
    (connectAndSync k c s w t).s.ManagedClusterName = s.ManagedClusterName ∧
    (connectAndSync k c s w t).s.AgentSecretFound = s.AgentSecretFound ∧
    (connectAndSync k c s w t).s.AgentSecretValid = s.AgentSecretValid ∧
    (connectAndSync k c s w t).s.SecretResourceVersion = s.SecretResourceVersion ∧
    ∃ tail, (connectAndSync k c s w t).trace = t ++ tail ∧
      ∀ ev ∈ tail, ev.isGetAdminClient = false := by
  unfold connectAndSync
  simp only []
  cases hu : (updateVMCStatus k c s w).ret with
  | panicked =>
    refine ⟨Or.inr ⟨rfl, rfl⟩, fun h => absurd rfl h, rfl, rfl, rfl, rfl, rfl,
      (updateVMCStatus k c s w).trace, rfl, updateVMCStatus_trace k c s w⟩
  | returned e =>
    refine ⟨Or.inl rfl, fun _ => rfl, rfl, rfl, rfl, rfl, rfl,
      (updateVMCStatus k c s w).trace ++
        (SyncMultiClusterResources c s (updateVMCStatus k c s w).world).trace,
      by simp, ?_⟩
    intro ev hev
    rcases List.mem_append.1 hev with h1 | h1
    · exact updateVMCStatus_trace k c s w ev h1
    · simp only [SyncMultiClusterResources, List.mem_cons] at h1
      rcases h1 with rfl | h1
      · rfl
      · exact syncNamespaces_trace c _ _ _ ev h1

/-- After lines 94-99 the recorded cluster name is the given one. -/
theorem recordClusterName_eq (s : Syncer AC) (name : String) :
    recordClusterName s name = { s with ManagedClusterName := name } := by
  unfold recordClusterName
  by_cases hm : name = s.ManagedClusterName
  · subst hm
    simp
  · simp [hm]

/-- `ProcessAgentThread` on a valid secret whose resource version is the
recorded one. -/
theorem processAgentThread_same_version (k : Constants) (c : Cluster W AC) (s : Syncer AC)
    (w : W) (secret : Secret)
    (hget : (c.GetSecret k.VerrazzanoSystemNamespace k.MCAgentSecret w).1 = .ok secret)
    (hv : validateAgentSecret k secret = none)
    (hrv : secret.ResourceVersion = s.SecretResourceVersion) :
    ProcessAgentThread k c s w
      = connectAndSync k c
          { s with AgentSecretFound := true, AgentSecretValid := true,
                   ManagedClusterName := secret.text k.ClusterNameData }
          (c.GetSecret k.VerrazzanoSystemNamespace k.MCAgentSecret w).2
          [Call.getSecret k.VerrazzanoSystemNamespace k.MCAgentSecret none] := by
  unfold ProcessAgentThread
  simp only [hget, hv, recordClusterName_eq, hrv, ne_eq, not_true_eq_false, if_false]

/-- `ProcessAgentThread` on a valid secret whose resource version differs from
the recorded one, when the admin client can be built. -/
theorem processAgentThread_new_version (k : Constants) (c : Cluster W AC) (s : Syncer AC)
    (w : W) (secret : Secret) (ac : AC)
    (hget : (c.GetSecret k.VerrazzanoSystemNamespace k.MCAgentSecret w).1 = .ok secret)
    (hv : validateAgentSecret k secret = none)
    (hrv : secret.ResourceVersion ≠ s.SecretResourceVersion)
    (hac : (c.getAdminClient secret
      (c.GetSecret k.VerrazzanoSystemNamespace k.MCAgentSecret w).2).1 = .ok ac) :
    ProcessAgentThread k c s w
      = connectAndSync k c
          { s with AgentSecretFound := true, AgentSecretValid := true,
                   ManagedClusterName := secret.text k.ClusterNameData,
                   AdminClient := some ac, SecretResourceVersion := secret.ResourceVersion }
          (c.getAdminClient secret
            (c.GetSecret k.VerrazzanoSystemNamespace k.MCAgentSecret w).2).2
          ([Call.getSecret k.VerrazzanoSystemNamespace k.MCAgentSecret none] ++
            [Call.getAdminClient none]) := by
  unfold ProcessAgentThread
  simp only [hget, hv, recordClusterName_eq, ne_eq, hrv, not_false_eq_true, if_true, hac]

/-- C17: when the agent secret is fetched, contains both required fields, and
the admin client can be built when it is needed: every error
`ProcessAgentThread` returns is nil, whatever `updateVMCStatus` returns, and
the call returns unless `updateVMCStatus` panics, which it does not when
there is an admin client and the ingresses have a first host; afterwards `AgentSecretFound` and `AgentSecretValid` are true,
`ManagedClusterName` is the secret's cluster-name data,
`SecretResourceVersion` is the secret's `ResourceVersion`, and the admin
client was built in this call exactly when the secret's `ResourceVersion`
differed from the recorded `SecretResourceVersion` (otherwise the client is
the one the Syncer had). -/
theorem processAgentThread_valid_secret (k : Constants) (c : Cluster W AC) (s : Syncer AC)
    (w : W) (secret : Secret)
    (hget : (c.GetSecret k.VerrazzanoSystemNamespace k.MCAgentSecret w).1 = .ok secret)
    (hname : secret.hasKey k.ClusterNameData)
    (hconf : secret.hasKey k.AdminKubeconfigData)
    (hadmin : secret.ResourceVersion ≠ s.SecretResourceVersion →
      ∃ ac, (c.getAdminClient secret
        (c.GetSecret k.VerrazzanoSystemNamespace k.MCAgentSecret w).2).1 = .ok ac) :
    (∀ e, (ProcessAgentThread k c s w).ret = .returned e → e = none) ∧
    ((ProcessAgentThread k c s w).ret = .returned none ∨
      ((ProcessAgentThread k c s w).ret = .panicked ∧
        ∃ s3 w3, (updateVMCStatus k c s3 w3).ret = .panicked)) ∧
    (s.AdminClient ≠ none ∨ secret.ResourceVersion ≠ s.SecretResourceVersion →
      HostsPresent c → (ProcessAgentThread k c s w).ret = .returned none) ∧
    (ProcessAgentThread k c s w).s.AgentSecretFound = true ∧
    (ProcessAgentThread k c s w).s.AgentSecretValid = true ∧
    (ProcessAgentThread k c s w).s.ManagedClusterName = secret.text k.ClusterNameData ∧
    (ProcessAgentThread k c s w).s.SecretResourceVersion = secret.ResourceVersion ∧
    ((∃ e, Call.getAdminClient e ∈ (ProcessAgentThread k c s w).trace) ↔
      secret.ResourceVersion ≠ s.SecretResourceVersion) ∧
    (secret.ResourceVersion = s.SecretResourceVersion →
      (ProcessAgentThread k c s w).s.AdminClient = s.AdminClient) := by
  have hv : validateAgentSecret k secret = none :=
    (validateAgentSecret_both_fields k secret).1.2 ⟨hname, hconf⟩
  by_cases hrv : secret.ResourceVersion = s.SecretResourceVersion
  · rw [processAgentThread_same_version k c s w secret hget hv hrv]
    obtain ⟨c1, c2, c3, c4, c5, c6, c7, tail, c8, c9⟩ := connectAndSync_spec k c
      { s with AgentSecretFound := true, AgentSecretValid := true,
               ManagedClusterName := secret.text k.ClusterNameData }
      (c.GetSecret k.VerrazzanoSystemNamespace k.MCAgentSecret w).2
      [Call.getSecret k.VerrazzanoSystemNamespace k.MCAgentSecret none]
    refine ⟨?_, ?_, ?_, c5, c6, c4, c7.trans hrv.symm, ?_, fun _ => c3⟩
    · intro e he
      rcases c1 with h1 | ⟨h1, _⟩
      · rw [h1] at he; cases he; rfl
      · rw [h1] at he; cases he
    · rcases c1 with h1 | ⟨h1, h2⟩
      · exact Or.inl h1
      · exact Or.inr ⟨h1, _, _, h2⟩
    · intro hcl hh
      rcases hcl with hcl | hcl
      · exact c2 (updateVMCStatus_returns k c _ _ hcl hh)
      · exact absurd hrv hcl
    · constructor
      · rintro ⟨e, he⟩
        rw [c8] at he
        simp only [List.mem_append, List.mem_singleton] at he
        rcases he with he | he
        · cases he
        · have := c9 _ he
          cases this
      · intro hne
        exact absurd hrv hne
  · obtain ⟨ac, hac⟩ := hadmin hrv
    rw [processAgentThread_new_version k c s w secret ac hget hv hrv hac]
    obtain ⟨c1, c2, c3, c4, c5, c6, c7, tail, c8, c9⟩ := connectAndSync_spec k c
      { s with AgentSecretFound := true, AgentSecretValid := true,
               ManagedClusterName := secret.text k.ClusterNameData,
               AdminClient := some ac, SecretResourceVersion := secret.ResourceVersion }
      (c.getAdminClient secret (c.GetSecret k.VerrazzanoSystemNamespace k.MCAgentSecret w).2).2
      ([Call.getSecret k.VerrazzanoSystemNamespace k.MCAgentSecret none] ++
        [Call.getAdminClient none])
    refine ⟨?_, ?_, ?_, c5, c6, c4, c7, ?_, fun h => absurd h hrv⟩
    · intro e he
      rcases c1 with h1 | ⟨h1, _⟩
      · rw [h1] at he; cases he; rfl
      · rw [h1] at he; cases he
    · rcases c1 with h1 | ⟨h1, h2⟩
      · exact Or.inl h1
      · exact Or.inr ⟨h1, _, _, h2⟩
    · intro _ hh
      exact c2 (updateVMCStatus_returns k c _ _ (by simp) hh)
    · constructor
      · intro _
        exact hrv
      · intro _
        exact ⟨none, by rw [c8]; simp⟩

/-- The ingresses of the concrete cluster have a first host. -/
theorem sampleCluster_hosts (secret : Except ClientError Secret)
    (updateErr : Option ClientError) : HostsPresent (sampleCluster secret updateErr) := by
  intro ns name w ingress h
  cases h
  exact ⟨_, _, _, _, rfl, rfl⟩

/-- C17 on the valid secret of mcagent_test.go at resource version `7`, with a
Syncer that recorded no version and a VMC status update that fails: the call
returns a nil error and records the version. -/
theorem processAgentThread_valid_secret_witness :
    (sampleCluster (.ok (validSecret "7")) (some ⟨false, "conflict"⟩)).GetSecret
        sampleConstants.VerrazzanoSystemNamespace sampleConstants.MCAgentSecret ()
      = (.ok (validSecret "7"), ()) ∧
    Call.adminUpdateVMCStatus (some ⟨false, "conflict"⟩) ∈
      (ProcessAgentThread sampleConstants
        (sampleCluster (.ok (validSecret "7")) (some ⟨false, "conflict"⟩))
        (sampleSyncer false "") ()).trace ∧
    (ProcessAgentThread sampleConstants
      (sampleCluster (.ok (validSecret "7")) (some ⟨false, "conflict"⟩))
      (sampleSyncer false "") ()).ret = .returned none ∧
    (ProcessAgentThread sampleConstants
      (sampleCluster (.ok (validSecret "7")) (some ⟨false, "conflict"⟩))
      (sampleSyncer false "") ()).s.SecretResourceVersion = "7" :=
  ⟨rfl, by decide,
    (processAgentThread_valid_secret sampleConstants
      (sampleCluster (.ok (validSecret "7")) (some ⟨false, "conflict"⟩))
      (sampleSyncer false "") () (validSecret "7") rfl
      ⟨_, rfl, by decide⟩ ⟨_, rfl, by decide⟩ (fun _ => ⟨(), rfl⟩)).2.2.1
      (Or.inr (by decide)) (sampleCluster_hosts _ _),
    (processAgentThread_valid_secret sampleConstants
      (sampleCluster (.ok (validSecret "7")) (some ⟨false, "conflict"⟩))
      (sampleSyncer false "") () (validSecret "7") rfl
      ⟨_, rfl, by decide⟩ ⟨_, rfl, by decide⟩ (fun _ => ⟨(), rfl⟩)).2.2.2.2.2.2.1⟩

end mcagent

namespace thanos

variable {CR : Type}

/-! ## C20 -/

/-- C20: `GetIngressNames` and `GetCertificateNames` both return the empty
list unless Thanos and NGINX are both enabled in the effective CR; when both
are enabled each returns exactly one entry, the Thanos query ingress name and
the query certificate name, in the auth-proxy component namespace if the auth
proxy is enabled and in the Verrazzano system namespace otherwise; so the two
results have the same length and the same namespaces. -/
theorem ingress_and_certificate_names (k : Settings CR) (effectiveCR : CR) :
    (¬ (k.IsThanosEnabled effectiveCR = true ∧ k.IsNGINXEnabled effectiveCR = true) →
      GetIngressNames k effectiveCR = [] ∧ GetCertificateNames k effectiveCR = []) ∧
    (k.IsThanosEnabled effectiveCR = true ∧ k.IsNGINXEnabled effectiveCR = true →
      GetIngressNames k effectiveCR
        = [⟨if k.IsAuthProxyEnabled effectiveCR then k.authproxyComponentNamespace
            else k.VerrazzanoSystemNamespace, k.ThanosQueryIngress⟩] ∧
      GetCertificateNames k effectiveCR
        = [⟨if k.IsAuthProxyEnabled effectiveCR then k.authproxyComponentNamespace
            else k.VerrazzanoSystemNamespace, k.queryCertificateName⟩]) ∧
    (GetIngressNames k effectiveCR).length = (GetCertificateNames k effectiveCR).length ∧
    (GetIngressNames k effectiveCR).map (fun n => n.Namespace)
      = (GetCertificateNames k effectiveCR).map (fun n => n.Namespace) := by
  unfold GetIngressNames GetCertificateNames
  cases ht : k.IsThanosEnabled effectiveCR <;> cases hn : k.IsNGINXEnabled effectiveCR <;>
    simp

/-- C20 on sample settings with Thanos, NGINX and the auth proxy enabled. -/
theorem ingress_and_certificate_names_witness :
    GetIngressNames sampleSettings ⟨true, true, true⟩
      = [⟨"verrazzano-authproxy", "thanos-query-frontend"⟩] ∧
    GetCertificateNames sampleSettings ⟨true, true, true⟩
      = [⟨"verrazzano-authproxy", "system-tls-thanos-query"⟩] :=
  (ingress_and_certificate_names sampleSettings ⟨true, true, true⟩).2.1 ⟨rfl, rfl⟩

end thanos

namespace verrazzano

variable {W Ctx : Type}

/-! ## C19 -/

/-- A list is ordered by a relation that holds between any two of its
elements. -/
theorem pairwise_of_forall_mem {α : Type} (R : α → α → Prop) (l : List α)
    (h : ∀ a ∈ l, ∀ b ∈ l, R a b) : l.Pairwise R := by
  induction l with
  | nil => exact List.Pairwise.nil
  | cons x rest ih =>
    rw [List.pairwise_cons]
    exact ⟨fun b hb => h x (List.mem_cons_self _ _) b (List.mem_cons_of_mem _ hb),
      ih (fun a ha b hb => h a (List.mem_cons_of_mem _ ha) b (List.mem_cons_of_mem _ hb))⟩

/-- In the calls of the loop the component indices never go down. -/
theorem upgradeComponents_ordered (r : Reconciler W Ctx) (ctx : Ctx)
    (cs : List (Component W Ctx)) :
    ∀ (i : Nat) (cr : Verrazzano) (w : W),
      (upgradeComponents r ctx i cs cr w).trace.Pairwise
        (fun a b => ∀ j1 j2, a.component = some j1 → b.component = some j2 → j1 ≤ j2) := by
  induction cs with
  | nil => intro i cr w; simp [upgradeComponents_nil]
  | cons c rest ih =>
    intro i cr w
    have hbody : (upgradeComponent r ctx i c cr w).trace.Pairwise
        (fun a b => ∀ j1 j2, a.component = some j1 → b.component = some j2 → j1 ≤ j2) := by
      apply pairwise_of_forall_mem
      intro a ha b hb j1 j2 h1 h2
      have e1 := upgradeComponent_component r ctx i c cr w a ha j1 h1
      have e2 := upgradeComponent_component r ctx i c cr w b hb j2 h2
      omega
    cases h : (upgradeComponent r ctx i c cr w).ret with
    | some ret =>
      rw [upgradeComponents_cons_return r ctx i c rest cr w ret h]
      exact hbody
    | none =>
      rw [upgradeComponents_cons_continue r ctx i c rest cr w h]
      rw [List.pairwise_append]
      refine ⟨hbody, ih _ _ _, ?_⟩
      intro a ha b hb j1 j2 h1 h2
      have e1 := upgradeComponent_component r ctx i c cr w a ha j1 h1
      have e2 := upgradeComponents_component r ctx rest (i + 1) cr _ b hb j2 h2
      omega

/-- The methods called on component `k` in a list without calls on `k`. -/
theorem methodsOn_eq_nil (k : Nat) (l : List Call) (h : ∀ ev ∈ l, ev.component ≠ some k) :
    methodsOn k l = [] := by
  unfold methodsOn
  have : l.filter (fun ev => decide (ev.component = some k)) = [] := by
    rw [List.filter_eq_nil_iff]
    intro ev hev
    simpa using h ev hev
  rw [this]
  rfl

/-- The methods called on a component over two lists of calls. -/
theorem methodsOn_append (k : Nat) (l1 l2 : List Call) :
    methodsOn k (l1 ++ l2) = methodsOn k l1 ++ methodsOn k l2 := by
  simp [methodsOn, List.filter_append, List.filterMap_append]

/-- The methods called on its component by one iteration of the loop are
IsInstalled, PreUpgrade, Upgrade, PostUpgrade, in this order, up to some
point. -/
theorem upgradeComponent_methods (r : Reconciler W Ctx) (ctx : Ctx) (i : Nat)
    (comp : Component W Ctx) (cr : Verrazzano) (w : W) :
    methodsOn i (upgradeComponent r ctx i comp cr w).trace
      <+: [Method.IsInstalled, Method.PreUpgrade, Method.Upgrade, Method.PostUpgrade] := by
  rcases upgradeComponent_cases r ctx i comp cr w with
    ⟨_, _, _, t1, _, _⟩ | ⟨t1, _, _⟩ | ⟨_, t1, _, _⟩ | ⟨_, _, t1, _, _⟩ | ⟨_, t1, _, _⟩ |
    ⟨t1, _, _⟩ <;>
  · rw [t1]
    simp only [methodsOn, List.filter, Call.component, decide_True, decide_False,
      List.filterMap, Call.method, reduceCtorEq]
    decide

/-- The methods called on a component by the loop are IsInstalled, PreUpgrade,
Upgrade, PostUpgrade, in this order, up to some point. -/
theorem upgradeComponents_methods (r : Reconciler W Ctx) (ctx : Ctx)
    (cs : List (Component W Ctx)) (k : Nat) :
    ∀ (i : Nat) (cr : Verrazzano) (w : W),
      methodsOn k (upgradeComponents r ctx i cs cr w).trace
        <+: [Method.IsInstalled, Method.PreUpgrade, Method.Upgrade, Method.PostUpgrade] := by
  induction cs with
  | nil => intro i cr w; simp [upgradeComponents_nil, methodsOn]
  | cons c rest ih =>
    intro i cr w
    have hbody : methodsOn k (upgradeComponent r ctx i c cr w).trace
        <+: [Method.IsInstalled, Method.PreUpgrade, Method.Upgrade, Method.PostUpgrade] := by
      by_cases hk : k = i
      · subst hk
        exact upgradeComponent_methods r ctx k c cr w
      · rw [methodsOn_eq_nil]
        · exact List.nil_prefix
        · intro ev hev hc
          exact hk (upgradeComponent_component r ctx i c cr w ev hev k hc)
    cases h : (upgradeComponent r ctx i c cr w).ret with
    | some ret =>
      rw [upgradeComponents_cons_return r ctx i c rest cr w ret h]
      exact hbody
    | none =>
      rw [upgradeComponents_cons_continue r ctx i c rest cr w h]
      simp only [methodsOn_append]
      by_cases hk : k = i
      · subst hk
        rw [methodsOn_eq_nil k (upgradeComponents r ctx (k + 1) rest cr _).trace, List.append_nil]
        · exact hbody
        · intro ev hev hc
          have := upgradeComponents_component r ctx rest (k + 1) cr _ ev hev k hc
          omega
      · rw [methodsOn_eq_nil k (upgradeComponent r ctx i c cr w).trace, List.nil_append]
        · exact ih _ _ _
        · intro ev hev hc
          exact hk (upgradeComponent_component r ctx i c cr w ev hev k hc)

/-- One iteration of the loop whose calls return what the responses `ρ` give
makes the component calls the specification prescribes for its component,
and goes on to the next component exactly when the specification does. -/
theorem upgradeComponent_expected (r : Reconciler W Ctx) (ctx : Ctx) (i : Nat)
    (comp : Component W Ctx) (cr : Verrazzano) (w : W) (ρ : Nat → Responses)
    (h : ∀ ev ∈ (upgradeComponent r ctx i comp cr w).trace, ev.agrees ρ) :
    componentTrace (upgradeComponent r ctx i comp cr w).trace = (componentCalls (ρ i) i).1 ∧
    ((componentCalls (ρ i) i).2 = true ↔ (upgradeComponent r ctx i comp cr w).ret = none) := by
  rcases upgradeComponent_cases r ctx i comp cr w with
    ⟨b, e, q, t1, _, t3⟩ | ⟨t1, _, t3⟩ | ⟨e, t1, _, t3⟩ | ⟨e, w3, t1, _, t3⟩ | ⟨e, t1, _, t3⟩ |
    ⟨t1, _, t3⟩
  · rw [t1] at h
    have a1 : (ρ i).IsInstalled = (b, some e) := h (.isInstalled i b (some e)) (by simp)
    rw [t1, t3]
    simp [componentTrace, componentCalls, a1, List.filter, Call.component]
  · rw [t1] at h
    have a1 : (ρ i).IsInstalled = (false, none) := h (.isInstalled i false none) (by simp)
    rw [t1, t3]
    simp [componentTrace, componentCalls, a1, List.filter, Call.component]
  · rw [t1] at h
    have a1 : (ρ i).IsInstalled = (true, none) := h (.isInstalled i true none) (by simp)
    have a2 : (ρ i).PreUpgrade = some e := h (.preUpgrade i (some e)) (by simp)
    rw [t1, t3]
    simp [componentTrace, componentCalls, a1, a2, List.filter, Call.component]
  · rw [t1] at h
    have a1 : (ρ i).IsInstalled = (true, none) := h (.isInstalled i true none) (by simp)
    have a2 : (ρ i).PreUpgrade = none := h (.preUpgrade i none) (by simp)
    have a3 : (ρ i).Upgrade = some e := h (.upgrade i (some e)) (by simp)
    rw [t1, t3]
    simp [componentTrace, componentCalls, a1, a2, a3, List.filter, Call.component]
  · rw [t1] at h
    have a1 : (ρ i).IsInstalled = (true, none) := h (.isInstalled i true none) (by simp)
    have a2 : (ρ i).PreUpgrade = none := h (.preUpgrade i none) (by simp)
    have a3 : (ρ i).Upgrade = none := h (.upgrade i none) (by simp)
    have a4 : (ρ i).PostUpgrade = some e := h (.postUpgrade i (some e)) (by simp)
    rw [t1, t3]
    simp [componentTrace, componentCalls, a1, a2, a3, a4, List.filter, Call.component]
  · rw [t1] at h
    have a1 : (ρ i).IsInstalled = (true, none) := h (.isInstalled i true none) (by simp)
    have a2 : (ρ i).PreUpgrade = none := h (.preUpgrade i none) (by simp)
    have a3 : (ρ i).Upgrade = none := h (.upgrade i none) (by simp)
    have a4 : (ρ i).PostUpgrade = none := h (.postUpgrade i none) (by simp)
    rw [t1, t3]
    simp [componentTrace, componentCalls, a1, a2, a3, a4, List.filter, Call.component]

/-- A loop whose calls return what the responses `ρ` give makes the component
calls the specification prescribes. -/
theorem upgradeComponents_expected (r : Reconciler W Ctx) (ctx : Ctx)
    (cs : List (Component W Ctx)) (ρ : Nat → Responses) :
    ∀ (i : Nat) (cr : Verrazzano) (w : W),
      (∀ ev ∈ (upgradeComponents r ctx i cs cr w).trace, ev.agrees ρ) →
      componentTrace (upgradeComponents r ctx i cs cr w).trace
        = expectedCalls ρ i cs.length := by
  induction cs with
  | nil => intro i cr w _; simp [upgradeComponents_nil, componentTrace, expectedCalls]
  | cons c rest ih =>
    intro i cr w hag
    simp only [List.length_cons, expectedCalls]
    cases h : (upgradeComponent r ctx i c cr w).ret with
    | some ret =>
      rw [upgradeComponents_cons_return r ctx i c rest cr w ret h] at hag ⊢
      obtain ⟨e1, e2⟩ := upgradeComponent_expected r ctx i c cr w ρ hag
      have hf : (componentCalls (ρ i) i).2 = false := by
        cases hb : (componentCalls (ρ i) i).2 with
        | false => rfl
        | true => rw [e2.1 hb] at h; cases h
      simp only [hf, Bool.false_eq_true, if_false]
      exact e1
    | none =>
      rw [upgradeComponents_cons_continue r ctx i c rest cr w h] at hag ⊢
      obtain ⟨e1, e2⟩ := upgradeComponent_expected r ctx i c cr w ρ
        (fun ev hev => hag ev (List.mem_append_left _ hev))
      have e3 := ih (i + 1) cr (upgradeComponent r ctx i c cr w).world
        (fun ev hev => hag ev (List.mem_append_right _ hev))
      simp only [e2.2 h, if_true]
      unfold componentTrace at e1 e3 ⊢
      rw [List.filter_append, e1, e3]

/-- The component calls of a pass trace are those of its loop. -/
theorem componentTrace_pass (l tail : List Call) (h : ∀ ev ∈ tail, ev.component = none) :
    componentTrace (Call.newContext none :: l ++ tail) = componentTrace l := by
  unfold componentTrace
  have ht : tail.filter (fun ev => ev.component.isSome) = [] := by
    rw [List.filter_eq_nil_iff]
    intro ev hev
    rw [h ev hev]
    simp
  rw [List.cons_append, List.filter_cons, List.filter_append, ht]
  simp [Call.component]

/-- A pass that reaches the loop and whose calls return what the responses `ρ`
give makes the component calls the specification prescribes for its
registry. -/
theorem reconcileUpgrade_expected (r : Reconciler W Ctx) (cr : Verrazzano) (w : W)
    (ρ : Nat → Responses)
    (hctx : Call.newContext none ∈ (reconcileUpgrade r cr w).trace)
    (hag : ∀ ev ∈ (reconcileUpgrade r cr w).trace, ev.agrees ρ) :
    componentTrace (reconcileUpgrade r cr w).trace
      = expectedCalls ρ 0 r.GetComponents.length := by
  cases hs : isLastCondition cr.Status ConditionType.UpgradeStarted with
  | false =>
    rw [reconcileUpgrade_first r cr w hs] at hctx
    simp at hctx
  | true =>
    rcases hc : r.NewContext cr r.DryRun w with ⟨e | ctx, w1⟩
    · rw [reconcileUpgrade_context_error r cr w w1 e hs hc] at hctx
      simp at hctx
    · have key : ∃ tail, (reconcileUpgrade r cr w).trace
          = Call.newContext none :: (upgradeComponents r ctx 0 r.GetComponents cr w1).trace
              ++ tail ∧ ∀ ev ∈ tail, ev.component = none := by
        cases hl : (upgradeComponents r ctx 0 r.GetComponents cr w1).ret with
        | some ret =>
          exact ⟨[], by rw [reconcileUpgrade_loop_return r cr w w1 ctx ret hs hc hl]; simp,
            by simp⟩
        | none =>
          cases hu : (r.updateStatus (setStatusVersion cr cr.Spec.Version) (completeMessage cr)
              ConditionType.UpgradeComplete
              (upgradeComponents r ctx 0 r.GetComponents cr w1).world).err with
          | some e =>
            refine ⟨_, by rw [reconcileUpgrade_complete_error r cr w w1 ctx e hs hc hl hu], ?_⟩
            intro ev hev
            simp only [List.mem_cons, List.mem_singleton, List.not_mem_nil, or_false] at hev
            rcases hev with rfl | rfl <;> rfl
          | none =>
            refine ⟨_, by rw [reconcileUpgrade_complete_ok r cr w w1 ctx hs hc hl hu], ?_⟩
            intro ev hev
            simp only [List.mem_singleton] at hev
            subst hev; rfl
      obtain ⟨tail, ht, htail⟩ := key
      rw [ht, componentTrace_pass _ _ htail]
      apply upgradeComponents_expected
      intro ev hev
      apply hag
      rw [ht]
      exact List.mem_append_left _ (List.mem_cons_of_mem _ hev)

/-- C19: in every pass the component calls occur in registry order (a call on
a component of greater index never comes before a call on one of smaller
index); the methods called on each component are IsInstalled, PreUpgrade,
Upgrade and PostUpgrade in this order, up to some point, so each at most once;
and the component calls are determined by the responses: a pass that reaches
the loop makes the calls prescribed for its registry length and the
responses, so two passes over registries of the same length with the same
component responses make the identical sequence of component calls. -/
theorem reconcileUpgrade_call_order (r : Reconciler W Ctx) (cr : Verrazzano) (w : W) :
    (reconcileUpgrade r cr w).trace.Pairwise
      (fun a b => ∀ i j, a.component = some i → b.component = some j → i ≤ j) ∧
    (∀ k, methodsOn k (reconcileUpgrade r cr w).trace
      <+: [Method.IsInstalled, Method.PreUpgrade, Method.Upgrade, Method.PostUpgrade]) ∧
    (∀ ρ, Call.newContext none ∈ (reconcileUpgrade r cr w).trace →
      (∀ ev ∈ (reconcileUpgrade r cr w).trace, ev.agrees ρ) →
      componentTrace (reconcileUpgrade r cr w).trace
        = expectedCalls ρ 0 r.GetComponents.length) ∧
    (∀ (W2 Ctx2 : Type) (r2 : Reconciler W2 Ctx2) (cr2 : Verrazzano) (w2 : W2)
      (ρ : Nat → Responses),
      r2.GetComponents.length = r.GetComponents.length →
      Call.newContext none ∈ (reconcileUpgrade r cr w).trace →
      Call.newContext none ∈ (reconcileUpgrade r2 cr2 w2).trace →
      (∀ ev ∈ (reconcileUpgrade r cr w).trace, ev.agrees ρ) →
      (∀ ev ∈ (reconcileUpgrade r2 cr2 w2).trace, ev.agrees ρ) →
      componentTrace (reconcileUpgrade r cr w).trace
        = componentTrace (reconcileUpgrade r2 cr2 w2).trace) := by
  refine ⟨?_, ?_, fun ρ h1 h2 => reconcileUpgrade_expected r cr w ρ h1 h2, ?_⟩
  · rcases reconcileUpgrade_loop_view r cr w with hno | ⟨ctx, w1, tail, _, _, ht, htail, _⟩
    · apply pairwise_of_forall_mem
      intro a ha b _ i j h1 _
      rw [hno a ha] at h1
      cases h1
    · rw [ht, List.cons_append, List.pairwise_cons, List.pairwise_append]
      refine ⟨?_, upgradeComponents_ordered r ctx r.GetComponents 0 cr w1, ?_, ?_⟩
      · intro b _ i j h1 _
        cases h1
      · apply pairwise_of_forall_mem
        intro a ha b _ i j h1 _
        rw [htail a ha] at h1
        cases h1
      · intro a _ b hb i j _ h2
        rw [htail b hb] at h2
        cases h2
  · intro k
    rcases reconcileUpgrade_loop_view r cr w with hno | ⟨ctx, w1, tail, _, _, ht, htail, _⟩
    · rw [methodsOn_eq_nil]
      · exact List.nil_prefix
      · intro ev hev hc
        rw [hno ev hev] at hc
        cases hc
    · have e1 : methodsOn k [Call.newContext none] = [] :=
        methodsOn_eq_nil k _ (by intro ev hev hc; simp at hev; subst hev; cases hc)
      have e2 : methodsOn k tail = [] :=
        methodsOn_eq_nil k _ (by intro ev hev hc; rw [htail ev hev] at hc; cases hc)
      rw [ht, show Call.newContext none :: (upgradeComponents r ctx 0 r.GetComponents cr w1).trace
          ++ tail = [Call.newContext none] ++
            (upgradeComponents r ctx 0 r.GetComponents cr w1).trace ++ tail from rfl,
        methodsOn_append, methodsOn_append, e1, e2, List.nil_append, List.append_nil]
      exact upgradeComponents_methods r ctx r.GetComponents k 0 cr w1
  · intro W2 Ctx2 r2 cr2 w2 ρ hlen h1 h2 a1 a2
    rw [reconcileUpgrade_expected r cr w ρ h1 a1, reconcileUpgrade_expected r2 cr2 w2 ρ h2 a2,
      hlen]

/-- C19 on the registry `[a, b]` with `a` not installed and the Upgrade of `b`
failing: the methods called on `b` are IsInstalled, PreUpgrade and Upgrade, in
this order. -/
theorem reconcileUpgrade_call_order_witness :
    methodsOn 1 (reconcileUpgrade (constReconciler
        [constComponent "a" (false, none) none none none,
          constComponent "b" (true, none) none (some "boom") none] none none)
        (sampleCR "1.0.0" startedLog) ()).trace
      = [Method.IsInstalled, Method.PreUpgrade, Method.Upgrade] ∧
    methodsOn 1 (reconcileUpgrade (constReconciler
        [constComponent "a" (false, none) none none none,
          constComponent "b" (true, none) none (some "boom") none] none none)
        (sampleCR "1.0.0" startedLog) ()).trace
      <+: [Method.IsInstalled, Method.PreUpgrade, Method.Upgrade, Method.PostUpgrade] :=
  ⟨by decide,
    (reconcileUpgrade_call_order (constReconciler
        [constComponent "a" (false, none) none none none,
          constComponent "b" (true, none) none (some "boom") none] none none)
        (sampleCR "1.0.0" startedLog) ()).2.1 1⟩

end verrazzano

namespace mcagent

variable {W : Type}

/-! ## Environment updates -/

/-- After `updateEnvValue` the first variable with the name has the value. -/
theorem firstEnvValue_updateEnvValue (envs : List EnvVar) (n v : String) :
    firstEnvValue (updateEnvValue envs n v) n = some v := by
  induction envs with
  | nil => simp [updateEnvValue, firstEnvValue]
  | cons e rest ih =>
    unfold updateEnvValue
    by_cases h : e.Name = n
    · simp [h, firstEnvValue]
    · simp [h, firstEnvValue, ih]

/-- Variables with another name are not touched by `updateEnvValue`. -/
theorem firstEnvValue_updateEnvValue_ne (envs : List EnvVar) (n m v : String) (hnm : m ≠ n) :
    firstEnvValue (updateEnvValue envs n v) m = firstEnvValue envs m := by
  induction envs with
  | nil =>
    have : ¬ n = m := fun h => hnm h.symm
    simp [updateEnvValue, firstEnvValue, this]
  | cons e rest ih =>
    unfold updateEnvValue
    by_cases h : e.Name = n
    · have hm : ¬ e.Name = m := fun h2 => hnm (h2.symm.trans h)
      simp [h, firstEnvValue, hnm.symm]
    · simp only [h, if_false, firstEnvValue, ih]

/-- Writing the value the first variable already has changes nothing. -/
theorem updateEnvValue_fixed (envs : List EnvVar) (n v : String)
    (h : firstEnvValue envs n = some v) : updateEnvValue envs n v = envs := by
  induction envs with
  | nil => simp [firstEnvValue] at h
  | cons e rest ih =>
    unfold updateEnvValue
    by_cases hn : e.Name = n
    · simp only [firstEnvValue, hn, if_true, Option.some.injEq] at h
      simp only [hn, if_true]
      cases e
      simp only at h hn
      simp [h, hn]
    · simp only [firstEnvValue, hn, if_false] at h
      simp only [hn, if_false, ih h]

/-- The name `CA_FILE` differs from `REGISTRATION_SECRET_VERSION`. -/
theorem caFile_ne_registrationSecretVersion : caFile ≠ registrationSecretVersion := by
  decide

/-- The environment of a fluentd container after the loop body. -/
theorem updateLoggingContainer_fluentd (k : Constants) (l : LoggingConstants) (name : String)
    (secret : Secret) (c : Container) (h : c.Name = "fluentd") :
    updateLoggingContainer k l name secret c =
      { c with Env := (updateEnvValue
          (updateEnvValue (updateEnv k l name secret secret.ResourceVersion c.Env)
            registrationSecretVersion secret.ResourceVersion)
          caFile (caFileValue l secret)) } := by
  unfold updateLoggingContainer caFileValue
  simp only [h, if_true]
  split <;> rfl

/-- A container with another name is returned as it is. -/
theorem updateLoggingContainer_other (k : Constants) (l : LoggingConstants) (name : String)
    (secret : Secret) (c : Container) (h : c.Name ≠ "fluentd") :
    updateLoggingContainer k l name secret c = c := by
  unfold updateLoggingContainer
  simp only [h, if_false]

/-- The loop body keeps the container name. -/
theorem updateLoggingContainer_name (k : Constants) (l : LoggingConstants) (name : String)
    (secret : Secret) (c : Container) :
    (updateLoggingContainer k l name secret c).Name = c.Name := by
  by_cases h : c.Name = "fluentd"
  · rw [updateLoggingContainer_fluentd k l name secret c h]
  · rw [updateLoggingContainer_other k l name secret c h]

/-- `updateEnv` is a map of the loop body with arguments fixed by the secret. -/
theorem updateEnv_eq_map (k : Constants) (l : LoggingConstants) (name : String)
    (secret : Secret) (version : String) :
    ∃ s c e, ∀ old, updateEnv k l name secret version old = old.map (updateEnvVar l s c e) := by
  unfold updateEnv
  exact ⟨_, _, _, fun _ => rfl⟩

/-- The loop body of `updateEnv` keeps the name. -/
theorem updateEnvVar_name (l : LoggingConstants) (s c e : String) (env : EnvVar) :
    (updateEnvVar l s c e env).Name = env.Name := by
  unfold updateEnvVar
  split_ifs <;> rfl

/-- The loop body of `updateEnv` applied twice is the loop body applied once. -/
theorem updateEnvVar_twice (l : LoggingConstants) (s c e : String) (env : EnvVar) :
    updateEnvVar l s c e (updateEnvVar l s c e env) = updateEnvVar l s c e env := by
  unfold updateEnvVar
  split_ifs <;> simp_all

/-- The loop body of `updateEnv` leaves variables with other names alone. -/
theorem updateEnvVar_apart (l : LoggingConstants) (s c e : String) (env : EnvVar)
    (h : env.Name ≠ l.FluentdClusterNameEnvVar ∧ env.Name ≠ l.FluentdElasticsearchURLEnvVar ∧
         env.Name ≠ l.FluentdElasticsearchUserEnvVar ∧ env.Name ≠ l.FluentdElasticsearchPwdEnvVar) :
    updateEnvVar l s c e env = env := by
  unfold updateEnvVar
  simp [h.1, h.2.1, h.2.2.1, h.2.2.2]

/-- A map that keeps names and fixes the variables of one name commutes with
`updateEnvValue` for that name. -/
theorem map_updateEnvValue (f : EnvVar → EnvVar) (n v : String)
    (hname : ∀ env, (f env).Name = env.Name) (hfix : ∀ env, env.Name = n → f env = env)
    (envs : List EnvVar) :
    (updateEnvValue envs n v).map f = updateEnvValue (envs.map f) n v := by
  induction envs with
  | nil => simp [updateEnvValue, hfix]
  | cons env rest ih =>
    simp only [updateEnvValue, List.map_cons, hname]
    by_cases h : env.Name = n
    · simp only [h, if_true, List.map_cons]
      rw [hfix _ (by simp [h]), hfix env h]
    · simp only [h, if_false, List.map_cons, ih]

/-- A text has positive length exactly when it is not empty. -/
theorem text_length_pos (s : String) : 0 < s.length ↔ s ≠ "" := by
  rw [Nat.pos_iff_ne_zero, ne_eq, ne_eq, String.length, List.length_eq_zero]
  constructor
  · intro h hs
    exact h (by rw [hs])
  · intro h hs
    exact h (String.ext hs)

/-- The flag `caBundlePresent` is set exactly when the secret's data holds a
non-empty text under the CA-bundle key. -/
theorem caBundlePresent_iff (l : LoggingConstants) (secret : Secret) :
    caBundlePresent l secret = true ↔ ∃ v, secret.lookup l.CaBundleKey = some v ∧ v ≠ "" := by
  unfold caBundlePresent Secret.text Secret.lookup
  cases hd : secret.Data with
  | none => simp
  | some m =>
    cases hl : m.lookup l.CaBundleKey with
    | none => simp [hl]
    | some v => simp [hl, text_length_pos]

/-- C21: for every registration secret and DaemonSet, after
`updateLoggingDaemonSet`, in every container named "fluentd" the first
environment variable named `CA_FILE` exists and has the CA-file override value
if the secret's data holds a non-empty text under the CA-bundle key and the
default CA-file value otherwise, and the first environment variable named
`REGISTRATION_SECRET_VERSION` exists and equals the secret's ResourceVersion;
the containers are as many as before and every container not named "fluentd"
is unchanged, its environment included. -/
theorem updateLoggingDaemonSet_fluentd_env (k : Constants) (l : LoggingConstants)
    (newSecretName : String) (newSecret : Secret) (ds : DaemonSet) :
    (∀ c ∈ (updateLoggingDaemonSet k l newSecretName newSecret ds).Containers,
      c.Name = "fluentd" →
        ((∃ v, newSecret.lookup l.CaBundleKey = some v ∧ v ≠ "") →
          firstEnvValue c.Env caFile = some l.CaFileOverride) ∧
        ((¬ ∃ v, newSecret.lookup l.CaBundleKey = some v ∧ v ≠ "") →
          firstEnvValue c.Env caFile = some l.CaFileDefault) ∧
        firstEnvValue c.Env registrationSecretVersion = some newSecret.ResourceVersion) ∧
    (updateLoggingDaemonSet k l newSecretName newSecret ds).Containers.length
      = ds.Containers.length ∧
    (∀ i c, ds.Containers.get? i = some c → c.Name ≠ "fluentd" →
      (updateLoggingDaemonSet k l newSecretName newSecret ds).Containers.get? i = some c) := by
  refine ⟨?_, ?_, ?_⟩
  · intro c hc hname
    simp only [updateLoggingDaemonSet, List.mem_map] at hc
    obtain ⟨c0, _, rfl⟩ := hc
    have h0 : c0.Name = "fluentd" := by
      rw [← updateLoggingContainer_name k l newSecretName newSecret c0]; exact hname
    rw [updateLoggingContainer_fluentd k l newSecretName newSecret c0 h0]
    simp only
    refine ⟨?_, ?_, ?_⟩
    · intro hp
      rw [firstEnvValue_updateEnvValue]
      simp [caFileValue, (caBundlePresent_iff l newSecret).2 hp]
    · intro hp
      rw [firstEnvValue_updateEnvValue]
      have : caBundlePresent l newSecret = false := by
        cases hb : caBundlePresent l newSecret with
        | false => rfl
        | true => exact absurd ((caBundlePresent_iff l newSecret).1 hb) hp
      simp [caFileValue, this]
    · rw [firstEnvValue_updateEnvValue_ne _ _ _ _ caFile_ne_registrationSecretVersion.symm,
        firstEnvValue_updateEnvValue]
  · simp [updateLoggingDaemonSet]
  · intro i c hi hname
    simp only [updateLoggingDaemonSet, List.get?_eq_getElem?, List.getElem?_map] at hi ⊢
    rw [hi]
    simp [updateLoggingContainer_other k l newSecretName newSecret c hname]

/-- C21 on the sample DaemonSet: the fluentd container gets both variables and
the sidecar keeps its own `CA_FILE`. -/
theorem updateLoggingDaemonSet_fluentd_env_witness :
    (∀ c ∈ (updateLoggingDaemonSet sampleConstants sampleLogging
          "verrazzano-cluster-registration" (registrationSecret "7") sampleDaemonSet).Containers,
      c.Name = "fluentd" →
        firstEnvValue c.Env caFile = some "/fluentd/secret/ca-bundle" ∧
        firstEnvValue c.Env registrationSecretVersion = some "7") ∧
    (updateLoggingDaemonSet sampleConstants sampleLogging
        "verrazzano-cluster-registration" (registrationSecret "7") sampleDaemonSet).Containers.get? 1
      = some { Name := "sidecar", Env := [⟨"CA_FILE", "keep", none⟩], others := "" } := by
  have h := updateLoggingDaemonSet_fluentd_env sampleConstants sampleLogging
    "verrazzano-cluster-registration" (registrationSecret "7") sampleDaemonSet
  refine ⟨fun c hc hn => ⟨(h.1 c hc hn).1 ⟨"CERT", by decide, by decide⟩, (h.1 c hc hn).2.2⟩, ?_⟩
  exact h.2.2 1 _ (by decide) (by decide)

/-- With the names apart, the loop body of `updateEnv` fixes every variable
named `CA_FILE` or `REGISTRATION_SECRET_VERSION`. -/
theorem updateEnvVar_fixes (l : LoggingConstants) (h : FluentdNamesApart l) (s c e : String)
    (env : EnvVar) (hn : env.Name = caFile ∨ env.Name = registrationSecretVersion) :
    updateEnvVar l s c e env = env := by
  apply updateEnvVar_apart
  have h1 := h l.FluentdClusterNameEnvVar (by simp)
  have h2 := h l.FluentdElasticsearchURLEnvVar (by simp)
  have h3 := h l.FluentdElasticsearchUserEnvVar (by simp)
  have h4 := h l.FluentdElasticsearchPwdEnvVar (by simp)
  rcases hn with hn | hn <;> rw [hn] <;>
    exact ⟨fun x => by simp [← x] at h1, fun x => by simp [← x] at h2,
           fun x => by simp [← x] at h3, fun x => by simp [← x] at h4⟩

/-- The loop body of `updateVolumes` applied twice is the loop body applied
once. -/
theorem updateVolume_twice (s : String) (vol : Volume) :
    updateVolume s (updateVolume s vol) = updateVolume s vol := by
  unfold updateVolume
  split_ifs <;> simp_all

/-- With the names apart, the loop body of `updateLoggingDaemonSet` applied
twice is the loop body applied once. -/
theorem updateLoggingContainer_twice (k : Constants) (l : LoggingConstants)
    (h : FluentdNamesApart l) (name : String) (secret : Secret) (c : Container) :
    updateLoggingContainer k l name secret (updateLoggingContainer k l name secret c)
      = updateLoggingContainer k l name secret c := by
  by_cases hc : c.Name = "fluentd"
  · rw [updateLoggingContainer_fluentd k l name secret c hc]
    have step : ∀ envs : List EnvVar,
        updateLoggingContainer k l name secret { c with Env := envs } =
          { c with Env := (updateEnvValue
              (updateEnvValue (updateEnv k l name secret secret.ResourceVersion envs)
                registrationSecretVersion secret.ResourceVersion)
              caFile (caFileValue l secret)) } :=
      fun envs => updateLoggingContainer_fluentd k l name secret { c with Env := envs } hc
    rw [step]
    obtain ⟨s, cn, e, hmap⟩ := updateEnv_eq_map k l name secret secret.ResourceVersion
    simp only [hmap]
    have hreg := map_updateEnvValue (updateEnvVar l s cn e) registrationSecretVersion
      secret.ResourceVersion (updateEnvVar_name l s cn e)
      (fun env hn => updateEnvVar_fixes l h s cn e env (Or.inr hn))
    have hca := map_updateEnvValue (updateEnvVar l s cn e) caFile (caFileValue l secret)
      (updateEnvVar_name l s cn e)
      (fun env hn => updateEnvVar_fixes l h s cn e env (Or.inl hn))
    have h2 : (c.Env.map (updateEnvVar l s cn e)).map (updateEnvVar l s cn e)
        = c.Env.map (updateEnvVar l s cn e) := by
      rw [List.map_map]
      exact List.map_congr_left (fun env _ => updateEnvVar_twice l s cn e env)
    rw [hca, hreg, h2]
    have h3 : firstEnvValue
        (updateEnvValue
          (updateEnvValue (c.Env.map (updateEnvVar l s cn e)) registrationSecretVersion
            secret.ResourceVersion)
          caFile (caFileValue l secret))
        registrationSecretVersion = some secret.ResourceVersion := by
      rw [firstEnvValue_updateEnvValue_ne _ _ _ _ caFile_ne_registrationSecretVersion.symm,
        firstEnvValue_updateEnvValue]
    rw [updateEnvValue_fixed _ _ _ h3,
      updateEnvValue_fixed _ _ _ (firstEnvValue_updateEnvValue _ _ _)]
  · rw [updateLoggingContainer_other k l name secret c hc,
      updateLoggingContainer_other k l name secret c hc]

/-- C22: `updateLoggingDaemonSet` is idempotent: for every secret name,
registration secret and DaemonSet, applying it twice with the same secret
yields the same DaemonSet (volumes and container environments, compared by
value) as applying it once, the four variable names rewritten by `updateEnv`
being other names than `CA_FILE` and `REGISTRATION_SECRET_VERSION`; so a
DaemonSet that is the result of the update for the current secret is left
unchanged by the in-memory mutation. -/
theorem updateLoggingDaemonSet_idempotent (k : Constants) (l : LoggingConstants)
    (h : FluentdNamesApart l) (newSecretName : String) (newSecret : Secret) (ds : DaemonSet) :
    updateLoggingDaemonSet k l newSecretName newSecret
        (updateLoggingDaemonSet k l newSecretName newSecret ds)
      = updateLoggingDaemonSet k l newSecretName newSecret ds ∧
    (∀ configured : DaemonSet,
      configured = updateLoggingDaemonSet k l newSecretName newSecret ds →
      updateLoggingDaemonSet k l newSecretName newSecret configured = configured) := by
  have key : updateLoggingDaemonSet k l newSecretName newSecret
        (updateLoggingDaemonSet k l newSecretName newSecret ds)
      = updateLoggingDaemonSet k l newSecretName newSecret ds := by
    simp only [updateLoggingDaemonSet, updateVolumes, List.map_map, DaemonSet.mk.injEq]
    constructor
    · exact List.map_congr_left (fun vol _ => updateVolume_twice _ vol)
    · exact List.map_congr_left
        (fun c _ => updateLoggingContainer_twice k l h newSecretName newSecret c)
  exact ⟨key, fun configured hc => by rw [hc]; exact key⟩

/-- C22 on the sample DaemonSet with the sample names. -/
theorem updateLoggingDaemonSet_idempotent_witness :
    FluentdNamesApart sampleLogging ∧
    updateLoggingDaemonSet sampleConstants sampleLogging "verrazzano-cluster-registration"
        (registrationSecret "7")
        (updateLoggingDaemonSet sampleConstants sampleLogging "verrazzano-cluster-registration"
          (registrationSecret "7") sampleDaemonSet)
      = updateLoggingDaemonSet sampleConstants sampleLogging "verrazzano-cluster-registration"
          (registrationSecret "7") sampleDaemonSet :=
  ⟨by decide,
   (updateLoggingDaemonSet_idempotent sampleConstants sampleLogging (by decide)
      "verrazzano-cluster-registration" (registrationSecret "7") sampleDaemonSet).1⟩

/-- With the deployment and the secret version read, `updateDeployment` makes
the two reads and, exactly when the deployment's `REGISTRATION_SECRET_VERSION`
differs from the version, one `CreateOrUpdate` with the deployment as read and
the mutate function for that version. -/
theorem updateDeployment_eq (k : Constants) (l : LoggingConstants) (c : LocalObjects W)
    (name : String) (w : W) (first : Container) (rest : List Container) (v : String)
    (hdep : (c.GetDeployment k.VerrazzanoSystemNamespace name w).1
      = .ok { Containers := first :: rest })
    (hsec : ReadsVersion
      (c.GetRegistrationSecret k.VerrazzanoSystemNamespace l.MCRegistrationSecret
        (c.GetDeployment k.VerrazzanoSystemNamespace name w).2).1 v) :
    updateDeployment k l c name w =
      if getEnvValue (first :: rest) registrationSecretVersion ≠ v then
        (c.CreateOrUpdateDeployment { Containers := first :: rest } (mutateDeployment v)
            (c.GetRegistrationSecret k.VerrazzanoSystemNamespace l.MCRegistrationSecret
              (c.GetDeployment k.VerrazzanoSystemNamespace name w).2).2,
         [ObjectCall.getDeployment k.VerrazzanoSystemNamespace name none,
          ObjectCall.getRegistrationSecret k.VerrazzanoSystemNamespace l.MCRegistrationSecret
            (getError (c.GetRegistrationSecret k.VerrazzanoSystemNamespace
              l.MCRegistrationSecret (c.GetDeployment k.VerrazzanoSystemNamespace name w).2).1),
          ObjectCall.createOrUpdateDeployment { Containers := first :: rest } v])
      else
        ((c.GetRegistrationSecret k.VerrazzanoSystemNamespace l.MCRegistrationSecret
            (c.GetDeployment k.VerrazzanoSystemNamespace name w).2).2,
         [ObjectCall.getDeployment k.VerrazzanoSystemNamespace name none,
          ObjectCall.getRegistrationSecret k.VerrazzanoSystemNamespace l.MCRegistrationSecret
            (getError (c.GetRegistrationSecret k.VerrazzanoSystemNamespace
              l.MCRegistrationSecret
              (c.GetDeployment k.VerrazzanoSystemNamespace name w).2).1)]) := by
  unfold updateDeployment
  simp only [hdep, List.length_cons]
  rw [if_neg (by omega)]
  cases hr : (c.GetRegistrationSecret k.VerrazzanoSystemNamespace l.MCRegistrationSecret
      (c.GetDeployment k.VerrazzanoSystemNamespace name w).2).1 with
  | ok regSecret =>
    rw [hr] at hsec
    have hv : regSecret.ResourceVersion = v := hsec
    simp only [hv, getError, List.singleton_append, List.cons_append, List.nil_append]
  | error regErr =>
    rw [hr] at hsec
    obtain ⟨hnf, hv⟩ : regErr.notFound = true ∧ v = "" := hsec
    have hign : IgnoreNotFoundWithLog regErr = none := by
      simp [IgnoreNotFoundWithLog, hnf]
    simp only [hign, hv, getError, List.singleton_append, List.cons_append, List.nil_append]

/-- C23: convergence of `updateDeployment`: for every non-empty container
list, environment variable name n and value v, after replacing the first
container's Env with `updateEnvValue(Env, n, v)`, `getEnvValue` over the
container list for n returns v. An `updateDeployment` that reads a deployment
with these containers and secret version v (a secret with that
ResourceVersion, or no secret when v is empty), with another
`REGISTRATION_SECRET_VERSION` in the deployment, makes the two reads and then
one `CreateOrUpdate` with the deployment as read and the mutate function for
v; that function returns the deployment with the first container's Env
replaced, whose `REGISTRATION_SECRET_VERSION` reads as v; hence a later
`updateDeployment` that reads this deployment and the same secret version
makes the two reads and no `CreateOrUpdate` call. -/
theorem updateDeployment_converges (first : Container) (rest : List Container) (n v : String)
    (k : Constants) (l : LoggingConstants) (c : LocalObjects W) (name : String) (w w2 : W) :
    getEnvValue ({ first with Env := updateEnvValue first.Env n v } :: rest) n = v ∧
    ((c.GetDeployment k.VerrazzanoSystemNamespace name w).1
        = .ok { Containers := first :: rest } →
      ReadsVersion
        (c.GetRegistrationSecret k.VerrazzanoSystemNamespace l.MCRegistrationSecret
          (c.GetDeployment k.VerrazzanoSystemNamespace name w).2).1 v →
      getEnvValue (first :: rest) registrationSecretVersion ≠ v →
      updateDeployment k l c name w =
        (c.CreateOrUpdateDeployment { Containers := first :: rest } (mutateDeployment v)
            (c.GetRegistrationSecret k.VerrazzanoSystemNamespace l.MCRegistrationSecret
              (c.GetDeployment k.VerrazzanoSystemNamespace name w).2).2,
         [ObjectCall.getDeployment k.VerrazzanoSystemNamespace name none,
          ObjectCall.getRegistrationSecret k.VerrazzanoSystemNamespace l.MCRegistrationSecret
            (getError (c.GetRegistrationSecret k.VerrazzanoSystemNamespace
              l.MCRegistrationSecret (c.GetDeployment k.VerrazzanoSystemNamespace name w).2).1),
          ObjectCall.createOrUpdateDeployment { Containers := first :: rest } v])) ∧
    ∃ written : Deployment,
      mutateDeployment v { Containers := first :: rest } = .returned written ∧
      written.Containers =
        { first with Env := updateEnvValue first.Env registrationSecretVersion v } :: rest ∧
      getEnvValue written.Containers registrationSecretVersion = v ∧
      ((c.GetDeployment k.VerrazzanoSystemNamespace name w2).1 = .ok written →
        ReadsVersion
          (c.GetRegistrationSecret k.VerrazzanoSystemNamespace l.MCRegistrationSecret
            (c.GetDeployment k.VerrazzanoSystemNamespace name w2).2).1 v →
        updateDeployment k l c name w2 =
          ((c.GetRegistrationSecret k.VerrazzanoSystemNamespace l.MCRegistrationSecret
              (c.GetDeployment k.VerrazzanoSystemNamespace name w2).2).2,
           [ObjectCall.getDeployment k.VerrazzanoSystemNamespace name none,
            ObjectCall.getRegistrationSecret k.VerrazzanoSystemNamespace
              l.MCRegistrationSecret
              (getError (c.GetRegistrationSecret k.VerrazzanoSystemNamespace
                l.MCRegistrationSecret
                (c.GetDeployment k.VerrazzanoSystemNamespace name w2).2).1)]) ∧
        ∀ call ∈ (updateDeployment k l c name w2).2, call.isCreateOrUpdate = false) := by
  have hget : ∀ m u : String,
      getEnvValue ({ first with Env := updateEnvValue first.Env m u } :: rest) m = u := by
    intro m u
    simp only [getEnvValue, firstEnvValue_updateEnvValue]
  refine ⟨hget n v, ?_, _, rfl, rfl, hget registrationSecretVersion v, ?_⟩
  · intro hdep hsec hne
    rw [updateDeployment_eq k l c name w first rest v hdep hsec, if_pos hne]
  · intro hdep hsec
    have heq := updateDeployment_eq k l c name w2 _ rest v hdep hsec
    rw [if_neg (by rw [hget registrationSecretVersion v]; exact fun h => h rfl)] at heq
    refine ⟨heq, ?_⟩
    intro call hcall
    rw [heq] at hcall
    simp only [List.mem_cons, List.mem_singleton, List.not_mem_nil, or_false] at hcall
    rcases hcall with h | h <;> rw [h] <;> rfl

/-- C23 on the cluster that stores the sample deployment, with secret version
"7": the first `updateDeployment` makes the two reads and a `CreateOrUpdate`
that stores version "7" in the first container; on the stored deployment the
version is read back although the second container holds an older value, and
the next `updateDeployment` makes two reads and no `CreateOrUpdate`. -/
theorem updateDeployment_converges_witness :
    (updateDeployment sampleConstants sampleLogging (storedCluster "7") "operator"
        sampleDeployment).1 =
      { Containers :=
          [⟨"operator", [⟨"A", "1", none⟩, ⟨"REGISTRATION_SECRET_VERSION", "7", none⟩], ""⟩,
           ⟨"second", [⟨"REGISTRATION_SECRET_VERSION", "old", none⟩], ""⟩] } ∧
    (updateDeployment sampleConstants sampleLogging (storedCluster "7") "operator"
        sampleDeployment).2 =
      [ObjectCall.getDeployment "verrazzano-system" "operator" none,
       ObjectCall.getRegistrationSecret "verrazzano-system" "verrazzano-cluster-registration"
         none,
       ObjectCall.createOrUpdateDeployment sampleDeployment "7"] ∧
    (updateDeployment sampleConstants sampleLogging (storedCluster "7") "operator"
        (updateDeployment sampleConstants sampleLogging (storedCluster "7") "operator"
          sampleDeployment).1).2 =
      [ObjectCall.getDeployment "verrazzano-system" "operator" none,
       ObjectCall.getRegistrationSecret "verrazzano-system" "verrazzano-cluster-registration"
         none] := by
  have h := updateDeployment_converges ⟨"operator", [⟨"A", "1", none⟩], ""⟩
    [⟨"second", [⟨"REGISTRATION_SECRET_VERSION", "old", none⟩], ""⟩]
    registrationSecretVersion "7" sampleConstants sampleLogging (storedCluster "7") "operator"
    sampleDeployment
    { Containers :=
        [⟨"operator", [⟨"A", "1", none⟩, ⟨"REGISTRATION_SECRET_VERSION", "7", none⟩], ""⟩,
         ⟨"second", [⟨"REGISTRATION_SECRET_VERSION", "old", none⟩], ""⟩] }
  have hfirst := h.2.1 rfl rfl (by decide)
  obtain ⟨written, hw, _, _, hnext⟩ := h.2.2
  have hw2 :
      ({ Containers :=
          [⟨"operator", [⟨"A", "1", none⟩, ⟨"REGISTRATION_SECRET_VERSION", "7", none⟩], ""⟩,
           ⟨"second", [⟨"REGISTRATION_SECRET_VERSION", "old", none⟩], ""⟩] } : Deployment)
        = written := Ret.returned.inj hw
  subst hw2
  have hsecond := (hnext rfl rfl).1
  have h1 := (congrArg Prod.fst hfirst).trans rfl
  exact ⟨h1, (congrArg Prod.snd hfirst).trans rfl, by rw [h1]; exact congrArg Prod.snd hsecond⟩

/-- C24 evaluated on ingresses served without error: with no TLS entries, and
with a first TLS entry that has no hosts, `GetAPIServerURL` and
`GetPrometheusHost` index out of range and panic, returning neither a value
nor an error; with a first host they return it. -/
theorem ingress_without_hosts_panics :
    (GetAPIServerURL sampleConstants (ingressCluster ⟨[]⟩) ()).ret = .panicked ∧
    (GetPrometheusHost sampleConstants (ingressCluster ⟨[]⟩) ()).ret = .panicked ∧
    (GetAPIServerURL sampleConstants (ingressCluster ⟨[⟨[]⟩]⟩) ()).ret = .panicked ∧
    (GetPrometheusHost sampleConstants (ingressCluster ⟨[⟨[]⟩]⟩) ()).ret = .panicked ∧
    (GetAPIServerURL sampleConstants (ingressCluster ⟨[⟨["h.example.com"]⟩]⟩) ()).ret
      = .returned ("https://h.example.com", none) ∧
    (GetPrometheusHost sampleConstants (ingressCluster ⟨[⟨["h.example.com"]⟩]⟩) ()).ret
      = .returned ("h.example.com", none) := by
  refine ⟨rfl, rfl, rfl, rfl, ?_, rfl⟩
  decide

end mcagent

namespace thanos

variable {W : Type}

/-- C25 evaluated on the code: the two entries of
`AvailabilityObjects.DeploymentNames` of the component built by `NewComponent`
are the same name, `thanos-query` in the component namespace, twice; so
`isThanosReady` hands `DeploymentsAreReady` one deployment twice, and on the
sample platform it reports ready when only `thanos-query` is ready. -/
theorem newComponent_deployment_names_equal (p : Platform W) (component : String) (w : W) :
    (NewComponent p).AvailabilityObjects =
      some { DeploymentNames :=
               [ { Name := "thanos-query", Namespace := p.VerrazzanoMonitoringNamespace },
                 { Name := "thanos-query", Namespace := p.VerrazzanoMonitoringNamespace } ] } ∧
    frontendDeployment = queryDeployment ∧
    isThanosReady p (NewComponent p) component w =
      some (p.DeploymentsAreReady
        [ { Name := "thanos-query", Namespace := p.VerrazzanoMonitoringNamespace },
          { Name := "thanos-query", Namespace := p.VerrazzanoMonitoringNamespace } ]
        1 ("Component " ++ component) w) ∧
    isThanosReady samplePlatform (NewComponent samplePlatform) "thanos"
      [ { Name := "thanos-query", Namespace := "verrazzano-monitoring" } ] = some true :=
  ⟨rfl, rfl, rfl, by decide⟩

end thanos
